import Mathlib

/-!
# cmarket-analyzer: statistics engine, pool keeper cycle and request validation

A shallow embedding of `statistic_calculator.go`, `bnc_poolkeeper.go` and the
validation part of `getProcessedData` in `main.go`.

Modelling conventions

* `int64` and `int` values are integers (`Int`).  The start of the requested
  period, `currentTimeMS - timeslotDurMS*int64(numberOfTimeslots)`, is made of
  two numbers the caller of the endpoint chooses, so its product and its
  difference wrap around as `int64` arithmetic does (`wrap64`).  The
  timestamps, ids and counters that the program itself produces stay far below
  `2^63` and their arithmetic is not wrapped.  Integer division in Go truncates
  toward zero (`Int.tdiv`) and panics on a zero divisor.
* `float64` has two models.  In `F64` a finite float is an exact rational (no
  rounding error, no overflow to infinity); `NaN`, `+Inf` and `-Inf` are
  explicit values, so that `x / 0` is what IEEE-754 makes of it, and zero is
  unsigned (read as `+0`).  It is the model of the statements on the panics,
  the length of the result, the trades a slot receives, the percentages and
  the fields of a report.  In `Float64` a finite float
  is a binary number `m * 2^e` with a sign, and every operation returns the
  representable value nearest to the exact result, ties to the even mantissa,
  with overflow to the infinities, subnormal numbers and signed zeros, as
  IEEE-754 binary64 does.  The engine over it is `Rounded.getStatisticData`;
  the statements about the values of the volumes, of `AvgPrice` and of the
  price change are made there.  A product and the sum it enters are rounded
  one after the other (no fused multiply-add, as on amd64).
* Converting `NaN`, an infinity or a finite float outside `int64` to `int` is
  implementation-dependent in Go; the value the platform produces is the
  parameter `cvt` of the model.  In `F64` a finite float is converted without
  a bound.
* A run-time panic (index out of range, integer division by zero, `make` with
  a negative length) is the result `none`.
* `time.Now().Unix() * 1000` is computed from the clock reading in whole
  seconds, which is an explicit argument.
* The exchange client is an oracle: the answer to each request is an argument.
-/

namespace CMarket

/-! ## Data model -/

/-- The fields of `bncclient.AggTrade` that the analyzer reads. -/
structure AggTrade where
  AggTradeId : Int
  AggTime : Int
  AggQty : ℚ
  AggPrice : ℚ
  AggIsBuyerMaker : Bool
deriving DecidableEq

/-- The `int64` value that a computation with the exact result `x` leaves:
`int64` arithmetic wraps around modulo `2^64`. -/
def wrap64 (x : Int) : Int :=
  (x + 9223372036854775808) % 18446744073709551616 - 9223372036854775808

/-- The expression `currentTimeMS - timeslotDurMS*int64(numberOfTimeslots)`,
which the engine names `requestedPeriodStartTimeMS` and the handler compares
with the oldest timestamp of a pool, in `int64` arithmetic. -/
def requestedPeriodStartTimeMS (currentTimeMS timeslotDurMS numberOfTimeslots : Int) : Int :=
  wrap64 (currentTimeMS - wrap64 (timeslotDurMS * numberOfTimeslots))

/-- The type `bncclient.AggTradesList`: a slice of trades. -/
abbrev AggTradesList := List AggTrade

/-- Values of type `float64`: finite ones are exact rationals. -/
inductive F64 where
  | fin (q : ℚ)
  | nan
  | posInf
  | negInf
deriving DecidableEq

namespace F64

/-- Float subtraction `x - y`. -/
def sub : F64 → F64 → F64
  | fin a, fin b => fin (a - b)
  | nan, _ => nan
  | _, nan => nan
  | posInf, posInf => nan
  | negInf, negInf => nan
  | posInf, _ => posInf
  | negInf, _ => negInf
  | fin _, posInf => negInf
  | fin _, negInf => posInf

/-- Float multiplication `x * y`. -/
def mul : F64 → F64 → F64
  | fin a, fin b => fin (a * b)
  | nan, _ => nan
  | _, nan => nan
  | fin a, posInf => if a = 0 then nan else if 0 < a then posInf else negInf
  | fin a, negInf => if a = 0 then nan else if 0 < a then negInf else posInf
  | posInf, fin b => if b = 0 then nan else if 0 < b then posInf else negInf
  | negInf, fin b => if b = 0 then nan else if 0 < b then negInf else posInf
  | posInf, posInf => posInf
  | negInf, negInf => posInf
  | posInf, negInf => negInf
  | negInf, posInf => negInf

/-- Float division `x / y`: a zero divisor gives `NaN` or an infinity. -/
def div : F64 → F64 → F64
  | fin a, fin b =>
      if b = 0 then (if a = 0 then nan else if 0 < a then posInf else negInf)
      else fin (a / b)
  | nan, _ => nan
  | _, nan => nan
  | fin _, posInf => fin 0
  | fin _, negInf => fin 0
  | posInf, fin b => if 0 ≤ b then posInf else negInf
  | negInf, fin b => if 0 ≤ b then negInf else posInf
  | posInf, posInf => nan
  | posInf, negInf => nan
  | negInf, posInf => nan
  | negInf, negInf => nan

end F64

/-- Nearest integer to a rational, halves rounded away from zero. -/
def roundHalfAway (q : ℚ) : Int :=
  if 0 ≤ q then ⌊q + 1 / 2⌋ else -⌊-q + 1 / 2⌋

/-- The function `math.Round` of Go: nearest integer, half away from zero; `NaN` and the
infinities are returned unchanged. -/
def mathRound : F64 → F64
  | F64.fin q => F64.fin (roundHalfAway q)
  | x => x

/-- The conversion `int(x)` of a float in Go: truncation toward zero for a
finite value, the choice `cvt x` of the platform for `NaN` and the infinities. -/
def toInt (cvt : F64 → Int) : F64 → Int
  | F64.fin q => if 0 ≤ q then ⌊q⌋ else ⌈q⌉
  | x => cvt x

/-- The expression `int(math.Round(x))`. -/
def roundToInt (cvt : F64 → Int) (x : F64) : Int :=
  toInt cvt (mathRound x)

/-! ## Statistics engine (`statistic_calculator.go`) -/

/-- One output slot of the engine. -/
structure analyzedDataOneSymbolOnePeriod where
  BuyVolume : ℚ
  SellVolume : ℚ
  BuyVolumePercentage : Int
  SellVolumePercentage : Int
  PriceChangePercentage : Int
  AvgPrice : F64
deriving DecidableEq

/-- The type of the result of the engine: a slice of slots. -/
abbrev analyzedDataOneSymbolByPeriods := List analyzedDataOneSymbolOnePeriod

/-- The zero value of a slot, as `make` fills the result with. -/
def zeroPeriod : analyzedDataOneSymbolOnePeriod :=
  { BuyVolume := 0, SellVolume := 0, BuyVolumePercentage := 0, SellVolumePercentage := 0,
    PriceChangePercentage := 0, AvgPrice := F64.fin 0 }

/-- The first loop of `getStatisticData`: the index of the first trade with
`AggTime >= requestedPeriodStartTimeMS`, and `0` when the loop ends without
`break`.  The argument `i` is the index of the head of the list. -/
def firstIndexFrom (requestedPeriodStartTimeMS : Int) : AggTradesList → Nat → Nat
  | [], _ => 0
  | trade :: rest, i =>
      if trade.AggTime ≥ requestedPeriodStartTimeMS then i
      else firstIndexFrom requestedPeriodStartTimeMS rest (i + 1)

/-- The local variables of the second loop of `getStatisticData`. -/
structure SlotLoop where
  analyzedData : analyzedDataOneSymbolByPeriods
  timeslotStartMS : Int
  timeslotEndMS : Int
  buyVolume : ℚ
  sellVolume : ℚ
  buyVolumePercentage : Int
  sellVolumePercentage : Int
  priceChangePercentage : Int
  avgPrice : F64
  totalAssetCost : ℚ
  numberOfCurrentPeriod : Nat
deriving DecidableEq

/-- The body of the first `if` of the loop (the trade lies in the current
slot): update the accumulators and recompute the derived values. -/
def accumulate (cvt : F64 → Int) (st : SlotLoop) (trade : AggTrade) : Option SlotLoop :=
  let sellVolume := if trade.AggIsBuyerMaker = true then st.sellVolume + trade.AggQty else st.sellVolume
  let buyVolume := if trade.AggIsBuyerMaker = false then st.buyVolume + trade.AggQty else st.buyVolume
  let totalAssetCost := st.totalAssetCost + trade.AggQty * trade.AggPrice
  let buyVolumePercentage :=
    roundToInt cvt (F64.div (F64.fin (100 * buyVolume)) (F64.fin (buyVolume + sellVolume)))
  let sellVolumePercentage :=
    roundToInt cvt (F64.div (F64.fin (100 * sellVolume)) (F64.fin (buyVolume + sellVolume)))
  let avgPrice := F64.div (F64.fin totalAssetCost) (F64.fin (buyVolume + sellVolume))
  if st.numberOfCurrentPeriod > 0 then
    match st.analyzedData[st.numberOfCurrentPeriod - 1]? with
    | none => none
    | some prev =>
        some { st with
          sellVolume := sellVolume, buyVolume := buyVolume, totalAssetCost := totalAssetCost,
          buyVolumePercentage := buyVolumePercentage,
          sellVolumePercentage := sellVolumePercentage, avgPrice := avgPrice,
          priceChangePercentage :=
            roundToInt cvt
              (F64.div (F64.mul (F64.fin 100) (F64.sub avgPrice prev.AvgPrice)) prev.AvgPrice) }
  else
    some { st with
      sellVolume := sellVolume, buyVolume := buyVolume, totalAssetCost := totalAssetCost,
      buyVolumePercentage := buyVolumePercentage,
      sellVolumePercentage := sellVolumePercentage, avgPrice := avgPrice }

/-- The body of the second `if` of the loop (the trade is at or past the end
of the current slot): store the slot, move the markers, reset the accumulators.
The store panics when `numberOfCurrentPeriod` is not an index of the result. -/
def closeSlot (timeslotDurationMS : Int) (st : SlotLoop) : Option SlotLoop :=
  if st.numberOfCurrentPeriod < st.analyzedData.length then
    some
      { analyzedData :=
          st.analyzedData.set st.numberOfCurrentPeriod
            { BuyVolume := st.buyVolume, SellVolume := st.sellVolume,
              BuyVolumePercentage := st.buyVolumePercentage,
              SellVolumePercentage := st.sellVolumePercentage,
              PriceChangePercentage := st.priceChangePercentage,
              AvgPrice := st.avgPrice },
        timeslotStartMS := st.timeslotEndMS,
        timeslotEndMS := st.timeslotEndMS + timeslotDurationMS,
        buyVolume := 0, sellVolume := 0, buyVolumePercentage := 0, sellVolumePercentage := 0,
        priceChangePercentage := 0, avgPrice := F64.fin 0, totalAssetCost := 0,
        numberOfCurrentPeriod := st.numberOfCurrentPeriod + 1 }
  else none

/-- One iteration of the second loop. -/
def slotStep (cvt : F64 → Int) (timeslotDurationMS : Int) (st : SlotLoop) (trade : AggTrade) :
    Option SlotLoop :=
  match (if st.timeslotStartMS ≤ trade.AggTime ∧ trade.AggTime < st.timeslotEndMS
          then accumulate cvt st trade else some st) with
  | none => none
  | some st1 =>
      if trade.AggTime ≥ st1.timeslotEndMS then closeSlot timeslotDurationMS st1 else some st1

/-- The second loop: `for _, trade := range aggTrades`. -/
def slotLoop (cvt : F64 → Int) (timeslotDurationMS : Int) : SlotLoop → AggTradesList → Option SlotLoop
  | st, [] => some st
  | st, trade :: rest =>
      match slotStep cvt timeslotDurationMS st trade with
      | none => none
      | some st1 => slotLoop cvt timeslotDurationMS st1 rest

/-- The resampled list `aggTrades[firstIndex:]`. -/
def resample (unixNow : Int) (aggTrades : AggTradesList) (timeslotDurMS numberOfTimeslots : Int) :
    AggTradesList :=
  aggTrades.drop
    (firstIndexFrom (requestedPeriodStartTimeMS (unixNow * 1000) timeslotDurMS numberOfTimeslots)
      aggTrades 0)

/-- The recomputed `timeslotDurationMS` of a resampled list. -/
def slotDuration (first last : AggTrade) (numberOfTimeslots : Int) : Int :=
  Int.tdiv (last.AggTime - first.AggTime) numberOfTimeslots

/-- The state in which the second loop starts. -/
def initLoop (first : AggTrade) (timeslotDurationMS numberOfTimeslots : Int) : SlotLoop :=
  { analyzedData := List.replicate numberOfTimeslots.toNat zeroPeriod,
    timeslotStartMS := first.AggTime,
    timeslotEndMS := first.AggTime + timeslotDurationMS,
    buyVolume := 0, sellVolume := 0, buyVolumePercentage := 0, sellVolumePercentage := 0,
    priceChangePercentage := 0, avgPrice := F64.fin 0, totalAssetCost := 0,
    numberOfCurrentPeriod := 0 }

/-- The method `getStatisticData`.  `unixNow` is the value of `time.Now().Unix()`. -/
def getStatisticData (cvt : F64 → Int) (unixNow : Int) (aggTrades : AggTradesList)
    (timeslotDurMS : Int) (numberOfTimeslots : Int) : Option analyzedDataOneSymbolByPeriods :=
  let trades := resample unixNow aggTrades timeslotDurMS numberOfTimeslots
  match trades.getLast?, trades.head? with
  | some last, some first =>
      if numberOfTimeslots = 0 then none
      else if numberOfTimeslots < 0 then none
      else
        let timeslotDurationMS := slotDuration first last numberOfTimeslots
        match slotLoop cvt timeslotDurationMS
            (initLoop first timeslotDurationMS numberOfTimeslots) trades with
        | none => none
        | some st => some st.analyzedData
  | _, _ => none

/-! ## Pool keeper (`bnc_poolkeeper.go`) -/

/-- The report a keeper publishes for its symbol.  The pointer
`aggTradesListRef` is the pool it points to at that instant (`none` for `nil`);
`error` holds the message of a non-nil error. -/
structure poolStateForSymbol where
  Symbol : String
  PoolFullness : Int
  LastDealTimestampMS : Int
  CapturedPeriodMS : Int
  DataReady : Bool
  aggTradesListRef : Option AggTradesList
  error : Option String
deriving DecidableEq

/-- The constant `RecordsCountPerRequest`. -/
def RecordsCountPerRequest : Nat := 1000

/-- The closure `dynamicDelayMS`; `none` when an index is out of range. -/
def dynamicDelayMS (pool : AggTradesList) : Option Int :=
  if pool.length > RecordsCountPerRequest then
    let lastIndex := pool.length - 1
    match pool[lastIndex]?, pool[lastIndex - RecordsCountPerRequest]? with
    | some last, some earlier => some (last.AggTime - earlier.AggTime)
    | _, _ => none
  else some 0

/-- What `GetAggregatedTrades` hands back: the trades, the HTTP status code
and the error (if any). -/
structure ClientResponse where
  trades : AggTradesList
  statusCode : Int
  err : Option String
deriving DecidableEq

/-- The variables of `keepSymbolPoolUpToDate` that live across iterations. -/
structure KeeperState where
  aggTradesPoolForSelectedPeriod : AggTradesList
  expirationTimeMS : Int
  allowAddEarlyRecords : Bool
deriving DecidableEq

/-- How a part of an iteration of the keeper ends: with a run-time panic, with an
error report sent and the goroutine returning, or normally. -/
inductive Outcome (α : Type) where
  | panic : Outcome α
  | stop (report : poolStateForSymbol) : Outcome α
  | next (a : α) : Outcome α

/-- The error report `poolStateForSymbol{symbol, 0, 0, 0, false, nil, err}`. -/
def errorReport (symbol : String) (err : String) : poolStateForSymbol :=
  { Symbol := symbol, PoolFullness := 0, LastDealTimestampMS := 0, CapturedPeriodMS := 0,
    DataReady := false, aggTradesListRef := none, error := some err }

/-- The error of a request after the status check: status 429 replaces it. -/
def responseError (resp : ClientResponse) : Option String :=
  if resp.statusCode = 429 then some "we got status code = 429, and should immediately stop"
  else resp.err

/-- Section "ADD EARLY RECORDS ONLY IF WE NEED THEM".  `askOld fromId` is the
client's answer to the request for `RecordsCountPerRequest` trades from `fromId`. -/
def addEarlyRecords (symbol : String) (timePeriodMS currentTimeMS : Int)
    (askOld : Int → ClientResponse) (st : KeeperState) : Outcome KeeperState :=
  if st.allowAddEarlyRecords = true then
    match st.aggTradesPoolForSelectedPeriod.head? with
    | none => Outcome.panic
    | some first =>
        if first.AggTime - (currentTimeMS - timePeriodMS) > 1000 then
          let resp := askOld (first.AggTradeId - RecordsCountPerRequest)
          match responseError resp with
          | some e => Outcome.stop (errorReport symbol e)
          | none =>
              Outcome.next { st with
                aggTradesPoolForSelectedPeriod := resp.trades ++ st.aggTradesPoolForSelectedPeriod }
        else Outcome.next st
  else Outcome.next st

/-- The inner loop of the clean-up section: the first index `i` whose trade
has `AggTime >= cutoff`, and the length when there is none.  The argument `i`
is the index of the head of the list. -/
def outdatedCount (cutoff : Int) : AggTradesList → Nat → Nat
  | [], i => i
  | trade :: rest, i =>
      if trade.AggTime ≥ cutoff then i else outdatedCount cutoff rest (i + 1)

/-- Section "CLEAN UP OUTDATED RECORDS". -/
def cleanUpOutdated (timePeriodMS currentTimeMS : Int) (st : KeeperState) : Outcome KeeperState :=
  match st.aggTradesPoolForSelectedPeriod.head? with
  | none => Outcome.panic
  | some first =>
      if first.AggTime < currentTimeMS - timePeriodMS then
        Outcome.next { st with
          allowAddEarlyRecords := false,
          aggTradesPoolForSelectedPeriod :=
            st.aggTradesPoolForSelectedPeriod.drop
              (outdatedCount (currentTimeMS - timePeriodMS) st.aggTradesPoolForSelectedPeriod 0) }
      else Outcome.next st

/-- Section "ADD MOST RECENT RECORDS AT THE END OF POOL". -/
def addRecentRecords (symbol : String) (currentTimeMS : Int)
    (askNew : Int → ClientResponse) (st : KeeperState) : Outcome KeeperState :=
  if currentTimeMS > st.expirationTimeMS then
    match st.aggTradesPoolForSelectedPeriod.getLast? with
    | none => Outcome.panic
    | some last =>
        let resp := askNew (last.AggTradeId + 1)
        match responseError resp with
        | some e => Outcome.stop (errorReport symbol e)
        | none =>
            let pool := st.aggTradesPoolForSelectedPeriod ++ resp.trades
            if resp.trades.length < RecordsCountPerRequest ∧ pool.length > RecordsCountPerRequest then
              match dynamicDelayMS pool with
              | none => Outcome.panic
              | some delay =>
                  Outcome.next { st with
                    aggTradesPoolForSelectedPeriod := pool,
                    expirationTimeMS := currentTimeMS + delay }
            else Outcome.next { st with aggTradesPoolForSelectedPeriod := pool }
  else Outcome.next st

/-- Section "CALCULATE POOL FULLNESS" and the report sent on the channel. -/
def poolReport (cvt : F64 → Int) (symbol : String) (timePeriodMS : Int) (pool : AggTradesList) :
    Option poolStateForSymbol :=
  match pool.getLast?, pool.head? with
  | some last, some first =>
      let poolFullness :=
        roundToInt cvt
          (F64.div (F64.fin (100 * ((last.AggTime - first.AggTime : Int) : ℚ)))
            (F64.fin (timePeriodMS : ℚ)))
      some
        { Symbol := symbol, PoolFullness := poolFullness, LastDealTimestampMS := last.AggTime,
          CapturedPeriodMS := last.AggTime - first.AggTime,
          DataReady := decide (poolFullness > 99),
          aggTradesListRef := some pool, error := none }
  | _, _ => none

/-- What one completed iteration leaves: the state, the report sent, and the
time slept afterwards (`0` when the keeper does not sleep). -/
structure Published where
  state : KeeperState
  report : poolStateForSymbol
  sleepMS : Int

/-- One iteration of the `for` loop of `keepSymbolPoolUpToDate`.  `unixNow` is
the value of `time.Now().Unix()` read at the top of the iteration. -/
def keeperCycle (cvt : F64 → Int) (symbol : String) (timePeriodMS unixNow : Int)
    (askOld askNew : Int → ClientResponse) (st : KeeperState) : Outcome Published :=
  let currentTimeMS := unixNow * 1000
  match addEarlyRecords symbol timePeriodMS currentTimeMS askOld st with
  | Outcome.panic => Outcome.panic
  | Outcome.stop r => Outcome.stop r
  | Outcome.next st1 =>
      match cleanUpOutdated timePeriodMS currentTimeMS st1 with
      | Outcome.panic => Outcome.panic
      | Outcome.stop r => Outcome.stop r
      | Outcome.next st2 =>
          match addRecentRecords symbol currentTimeMS askNew st2 with
          | Outcome.panic => Outcome.panic
          | Outcome.stop r => Outcome.stop r
          | Outcome.next st3 =>
              match poolReport cvt symbol timePeriodMS st3.aggTradesPoolForSelectedPeriod with
              | none => Outcome.panic
              | some report =>
                  if report.PoolFullness ≥ 100 then
                    match dynamicDelayMS st3.aggTradesPoolForSelectedPeriod with
                    | none => Outcome.panic
                    | some delay => Outcome.next { state := st3, report := report, sleepMS := delay }
                  else Outcome.next { state := st3, report := report, sleepMS := 0 }

/-- The start of `keepSymbolPoolUpToDate`, before its loop: the first request,
for the most recent trades, whose answer is `resp`.  Only the error is tested
here, not the status code. -/
def startKeeper (symbol : String) (resp : ClientResponse) : Outcome KeeperState :=
  match resp.err with
  | some e => Outcome.stop (errorReport symbol e)
  | none =>
      Outcome.next
        { aggTradesPoolForSelectedPeriod := resp.trades, expirationTimeMS := 0,
          allowAddEarlyRecords := true }

/-! ## Aggregator (`keepGeneralPoolUpToDate` in `bnc_poolkeeper.go`) -/

/-- How the aggregator stands after the reports received so far: halted by
`panic` with the message of the error, or still running; in both cases with
the pool state as it is then. -/
inductive AggregatorResult where
  | halted (diagnostic : String) (pools : String → Option poolStateForSymbol)
  | running (pools : String → Option poolStateForSymbol)

/-- One iteration of the loop of `keepGeneralPoolUpToDate`, for the report
received from the channel. -/
def aggregatorStep (pools : String → Option poolStateForSymbol) (report : poolStateForSymbol) :
    AggregatorResult :=
  match report.error with
  | some e => AggregatorResult.halted e pools
  | none =>
      AggregatorResult.running
        (fun symbol => if symbol = report.Symbol then some report else pools symbol)

/-- The loop of `keepGeneralPoolUpToDate` on the reports received so far, in
the order of their arrival. -/
def keepGeneralPoolUpToDate (pools : String → Option poolStateForSymbol) :
    List poolStateForSymbol → AggregatorResult
  | [] => AggregatorResult.running pools
  | report :: rest =>
      match aggregatorStep pools report with
      | AggregatorResult.halted diagnostic p => AggregatorResult.halted diagnostic p
      | AggregatorResult.running p => keepGeneralPoolUpToDate p rest


/-! ## Analytics request validation (`getProcessedData` in `main.go`) -/

/-- The response body of the analytics endpoint.  `ProcessedDataBySymbol` is
`none` for the nil map, and otherwise lists the assignments made to the map in
order, one per call of the engine. -/
structure processedData where
  IsError : Bool
  ErrorDescriptions : List String
  AbsentSymbols : List String
  SymbolsWithNotEnoughData : List String
  ProcessedDataBySymbol : Option (List (String × analyzedDataOneSymbolByPeriods))
deriving DecidableEq

/-- The type `poolState`: a map from symbol to the latest report. -/
abbrev poolState := String → Option poolStateForSymbol

/-- The loop of section "REQUEST VALIDATION". -/
def validateSymbols (pools : poolState) (currentTimeMS timeslotDurMS numberOfTimeslots : Int) :
    processedData → List String → processedData
  | pd, [] => pd
  | pd, symbol :: rest =>
      match pools symbol with
      | none =>
          validateSymbols pools currentTimeMS timeslotDurMS numberOfTimeslots
            { pd with AbsentSymbols := pd.AbsentSymbols ++ [symbol] } rest
      | some poolForSymbol =>
          let theOldestTimestampInPoolMS :=
            poolForSymbol.LastDealTimestampMS - poolForSymbol.CapturedPeriodMS
          if requestedPeriodStartTimeMS currentTimeMS timeslotDurMS numberOfTimeslots <
              theOldestTimestampInPoolMS then
            validateSymbols pools currentTimeMS timeslotDurMS numberOfTimeslots
              { pd with SymbolsWithNotEnoughData := pd.SymbolsWithNotEnoughData ++ [symbol] } rest
          else validateSymbols pools currentTimeMS timeslotDurMS numberOfTimeslots pd rest

/-- The part of the handler between the validation loop and the early return:
the response as it stands when `IsError` is tested. -/
def validationResult (pools : poolState) (unixNow : Int) (symbols : List String)
    (timeslotDurMS numberOfTimeslots : Int) : processedData :=
  let pd0 : processedData :=
    { IsError := false, ErrorDescriptions := [], AbsentSymbols := [],
      SymbolsWithNotEnoughData := [], ProcessedDataBySymbol := none }
  let pd1 := validateSymbols pools (unixNow * 1000) timeslotDurMS numberOfTimeslots pd0 symbols
  let pd2 : processedData :=
    if pd1.AbsentSymbols.length > 0 then
      { pd1 with
        IsError := true,
        ErrorDescriptions := pd1.ErrorDescriptions ++
          ["Unknown pair(s): " ++ ", ".intercalate pd1.AbsentSymbols] }
    else pd1
  if pd2.SymbolsWithNotEnoughData.length > 0 then
    { pd2 with
      IsError := true,
      ErrorDescriptions := pd2.ErrorDescriptions ++
        ["Not enough data for pair(s): " ++ ", ".intercalate pd2.SymbolsWithNotEnoughData] }
  else pd2

/-- The loop of the section that follows a passed validation: one engine call per
requested symbol, on the pool its report points to.  A nil dereference or a
panic of the engine is `none`.  `engineNow` is the clock as the engine reads it. -/
def analyzeSymbols (cvt : F64 → Int) (pools : poolState) (engineNow : Int)
    (timeslotDurMS numberOfTimeslots : Int) :
    List String → Option (List (String × analyzedDataOneSymbolByPeriods))
  | [] => some []
  | symbol :: rest =>
      match pools symbol with
      | none => none
      | some poolForSymbol =>
          match poolForSymbol.aggTradesListRef with
          | none => none
          | some pool =>
              match getStatisticData cvt engineNow pool timeslotDurMS numberOfTimeslots with
              | none => none
              | some analyzed =>
                  match analyzeSymbols cvt pools engineNow timeslotDurMS numberOfTimeslots rest with
                  | none => none
                  | some more => some ((symbol, analyzed) :: more)

/-- The handler returned by `getProcessedData`, after the query parameters
are parsed (a parameter that does not parse is `0`, its error being ignored). -/
def getProcessedData (cvt : F64 → Int) (pools : poolState) (unixNow engineNow : Int)
    (symbols : List String) (timeslotDurMS numberOfTimeslots : Int) : Option processedData :=
  let pd := validationResult pools unixNow symbols timeslotDurMS numberOfTimeslots
  if pd.IsError = true then some pd
  else
    match analyzeSymbols cvt pools engineNow timeslotDurMS numberOfTimeslots symbols with
    | none => none
    | some results => some { pd with IsError := false, ProcessedDataBySymbol := some results }

/-! ## `float64` with its rounding -/

/-- Values of type `float64` in binary form: `fin neg m e` is the number
`m * 2^e`, negated when `neg` holds; `inf neg` is `+Inf` or `-Inf`.  The
results of the operations below are in the form of the format: `m < 2^53`,
`-1074 ≤ e ≤ 971`, and `2^52 ≤ m` unless `e = -1074`. -/
inductive Float64 where
  | fin (neg : Bool) (m : Nat) (e : Int)
  | inf (neg : Bool)
  | nan
deriving DecidableEq

namespace Float64

/-- The position of the highest set bit of `n`, found in at most `fuel` halvings. -/
def highBit : Nat → Nat → Nat
  | 0, _ => 0
  | fuel + 1, n => if n < 2 then 0 else highBit fuel (n / 2) + 1

/-- Rounding to the format: the `float64` nearest to `(a / b) * 2^e` for
`b > 0`, ties to the even mantissa, with the sign `neg`; a number too large
for the format becomes an infinity and a number too small a subnormal or zero. -/
def nearest (neg : Bool) (a b : Nat) (e : Int) : Float64 :=
  if a = 0 then fin neg 0 (-1074)
  else
    let la : Int := highBit a a
    let lb : Int := highBit b b
    let p : Int :=
      if a * 2 ^ (lb - la).toNat ≥ b * 2 ^ (la - lb).toNat then la - lb else la - lb - 1
    let ex : Int := max (p + e - 52) (-1074)
    let num : Nat := a * 2 ^ (e - ex).toNat
    let den : Nat := b * 2 ^ (ex - e).toNat
    let q := num / den
    let r := num % den
    let m := if 2 * r < den then q else if den < 2 * r then q + 1 else q + q % 2
    let m1 := if m = 9007199254740992 then 4503599627370496 else m
    let ex1 := if m = 9007199254740992 then ex + 1 else ex
    if ex1 > 971 then inf neg else fin neg m1 ex1

/-- The value `+0`. -/
def zero : Float64 := fin false 0 (-1074)

/-- The constant `100`. -/
def hundred : Float64 := fin false 7036874417766400 (-46)

/-- The `float64` nearest to the decimal number `digits / 10^scale`, as the
parsing of a decimal string gives. -/
def ofDecimal (digits scale : Nat) : Float64 := nearest false digits (10 ^ scale) 0

/-- Whether the value is `+0` or `-0`: the test `x == 0`. -/
def isZero : Float64 → Bool
  | fin _ m _ => decide (m = 0)
  | _ => false

/-- Negation `-x`. -/
def neg : Float64 → Float64
  | fin s m e => fin (!s) m e
  | inf s => inf (!s)
  | nan => nan

/-- Float addition `x + y`, rounded.  A zero leaves the other operand as it
is; the sum of two zeros, or of a number and its negation, is `+0`, except
that `-0 + -0` is `-0`. -/
def add : Float64 → Float64 → Float64
  | fin s1 m1 e1, fin s2 m2 e2 =>
      if m1 = 0 ∧ m2 = 0 then fin (s1 && s2) 0 (-1074)
      else if m1 = 0 then nearest s2 m2 1 e2
      else if m2 = 0 then nearest s1 m1 1 e1
      else
        let ex := min e1 e2
        let v1 : Int :=
          if s1 then -((m1 * 2 ^ (e1 - ex).toNat : Nat) : Int) else (m1 * 2 ^ (e1 - ex).toNat : Nat)
        let v2 : Int :=
          if s2 then -((m2 * 2 ^ (e2 - ex).toNat : Nat) : Int) else (m2 * 2 ^ (e2 - ex).toNat : Nat)
        if v1 + v2 = 0 then fin false 0 (-1074)
        else nearest (decide (v1 + v2 < 0)) (v1 + v2).natAbs 1 ex
  | fin _ _ _, inf s2 => inf s2
  | inf s1, fin _ _ _ => inf s1
  | inf s1, inf s2 => if s1 = s2 then inf s1 else nan
  | _, _ => nan

/-- Float subtraction `x - y`, rounded. -/
def sub (x y : Float64) : Float64 := add x (neg y)

/-- Float multiplication `x * y`, rounded. -/
def mul : Float64 → Float64 → Float64
  | fin s1 m1 e1, fin s2 m2 e2 => nearest (xor s1 s2) (m1 * m2) 1 (e1 + e2)
  | fin s1 m1 _, inf s2 => if m1 = 0 then nan else inf (xor s1 s2)
  | inf s1, fin s2 m2 _ => if m2 = 0 then nan else inf (xor s1 s2)
  | inf s1, inf s2 => inf (xor s1 s2)
  | _, _ => nan

/-- Float division `x / y`, rounded: a zero divisor gives `NaN` or an infinity. -/
def div : Float64 → Float64 → Float64
  | fin s1 m1 e1, fin s2 m2 e2 =>
      if m2 = 0 then (if m1 = 0 then nan else inf (xor s1 s2))
      else nearest (xor s1 s2) m1 m2 (e1 - e2)
  | fin s1 _ _, inf s2 => fin (xor s1 s2) 0 (-1074)
  | inf s1, fin s2 _ _ => inf (xor s1 s2)
  | _, _ => nan

/-- The function `math.Round` of Go: nearest integer, half away from zero;
`NaN`, the infinities, the zeros and the integers are returned unchanged. -/
def mathRound : Float64 → Float64
  | fin s m e =>
      if e ≥ 0 ∨ m = 0 then fin s m e
      else nearest s ((m + 2 ^ ((-e).toNat - 1)) / 2 ^ (-e).toNat) 1 0
  | x => x

/-- The conversion `int(x)` of a float in Go: truncation toward zero for a
finite value that fits `int64`, and the choice `cvt x` of the platform for
every other value. -/
def toInt (cvt : Float64 → Int) : Float64 → Int
  | fin s m e =>
      let t : Nat := if m = 0 then 0 else if e ≥ 0 then m * 2 ^ e.toNat else m / 2 ^ (-e).toNat
      let v : Int := if s then -(t : Int) else t
      if -9223372036854775808 ≤ v ∧ v ≤ 9223372036854775807 then v else cvt (fin s m e)
  | x => cvt x

/-- The expression `int(math.Round(x))`. -/
def roundToInt (cvt : Float64 → Int) (x : Float64) : Int :=
  toInt cvt (mathRound x)

/-- The comparison `x < y` of two floats. -/
def lt : Float64 → Float64 → Bool
  | fin s1 m1 e1, fin s2 m2 e2 =>
      let ex := min e1 e2
      let v1 : Int :=
        if s1 then -((m1 * 2 ^ (e1 - ex).toNat : Nat) : Int) else (m1 * 2 ^ (e1 - ex).toNat : Nat)
      let v2 : Int :=
        if s2 then -((m2 * 2 ^ (e2 - ex).toNat : Nat) : Int) else (m2 * 2 ^ (e2 - ex).toNat : Nat)
      decide (v1 < v2)
  | fin _ _ _, inf s2 => !s2
  | inf s1, fin _ _ _ => s1
  | inf s1, inf s2 => s1 && !s2
  | _, _ => false

/-- The test `0 < x`. -/
def isPositive : Float64 → Bool
  | fin s m _ => !s && decide (0 < m)
  | inf s => !s
  | nan => false

/-- The sum of a list of floats, added one by one from `0.0` in list order. -/
def sum (xs : List Float64) : Float64 := xs.foldl add zero

end Float64

/-! ## The statistics engine with rounded float operations -/

namespace Rounded

/-- The fields of `bncclient.AggTrade` that the analyzer reads. -/
structure AggTrade where
  AggTradeId : Int
  AggTime : Int
  AggQty : Float64
  AggPrice : Float64
  AggIsBuyerMaker : Bool
deriving DecidableEq

/-- The type `bncclient.AggTradesList`: a slice of trades. -/
abbrev AggTradesList := List AggTrade

/-- One output slot of the engine. -/
structure analyzedDataOneSymbolOnePeriod where
  BuyVolume : Float64
  SellVolume : Float64
  BuyVolumePercentage : Int
  SellVolumePercentage : Int
  PriceChangePercentage : Int
  AvgPrice : Float64
deriving DecidableEq

/-- The type of the result of the engine: a slice of slots. -/
abbrev analyzedDataOneSymbolByPeriods := List analyzedDataOneSymbolOnePeriod

/-- The zero value of a slot, as `make` fills the result with. -/
def zeroPeriod : analyzedDataOneSymbolOnePeriod :=
  { BuyVolume := Float64.zero, SellVolume := Float64.zero, BuyVolumePercentage := 0,
    SellVolumePercentage := 0, PriceChangePercentage := 0, AvgPrice := Float64.zero }

/-- The first loop of `getStatisticData`: the index of the first trade with
`AggTime >= requestedPeriodStartTimeMS`, and `0` when the loop ends without
`break`.  The argument `i` is the index of the head of the list. -/
def firstIndexFrom (requestedPeriodStartTimeMS : Int) : AggTradesList → Nat → Nat
  | [], _ => 0
  | trade :: rest, i =>
      if trade.AggTime ≥ requestedPeriodStartTimeMS then i
      else firstIndexFrom requestedPeriodStartTimeMS rest (i + 1)

/-- The local variables of the second loop of `getStatisticData`. -/
structure SlotLoop where
  analyzedData : analyzedDataOneSymbolByPeriods
  timeslotStartMS : Int
  timeslotEndMS : Int
  buyVolume : Float64
  sellVolume : Float64
  buyVolumePercentage : Int
  sellVolumePercentage : Int
  priceChangePercentage : Int
  avgPrice : Float64
  totalAssetCost : Float64
  numberOfCurrentPeriod : Nat
deriving DecidableEq

/-- The body of the first `if` of the loop (the trade lies in the current
slot): update the accumulators and recompute the derived values, each float
operation rounded on its own. -/
def accumulate (cvt : Float64 → Int) (st : SlotLoop) (trade : AggTrade) : Option SlotLoop :=
  let sellVolume :=
    if trade.AggIsBuyerMaker = true then Float64.add st.sellVolume trade.AggQty else st.sellVolume
  let buyVolume :=
    if trade.AggIsBuyerMaker = false then Float64.add st.buyVolume trade.AggQty else st.buyVolume
  let totalAssetCost := Float64.add st.totalAssetCost (Float64.mul trade.AggQty trade.AggPrice)
  let buyVolumePercentage :=
    Float64.roundToInt cvt
      (Float64.div (Float64.mul Float64.hundred buyVolume) (Float64.add buyVolume sellVolume))
  let sellVolumePercentage :=
    Float64.roundToInt cvt
      (Float64.div (Float64.mul Float64.hundred sellVolume) (Float64.add buyVolume sellVolume))
  let avgPrice := Float64.div totalAssetCost (Float64.add buyVolume sellVolume)
  if st.numberOfCurrentPeriod > 0 then
    match st.analyzedData[st.numberOfCurrentPeriod - 1]? with
    | none => none
    | some prev =>
        some { st with
          sellVolume := sellVolume, buyVolume := buyVolume, totalAssetCost := totalAssetCost,
          buyVolumePercentage := buyVolumePercentage,
          sellVolumePercentage := sellVolumePercentage, avgPrice := avgPrice,
          priceChangePercentage :=
            Float64.roundToInt cvt
              (Float64.div
                (Float64.mul Float64.hundred (Float64.sub avgPrice prev.AvgPrice))
                prev.AvgPrice) }
  else
    some { st with
      sellVolume := sellVolume, buyVolume := buyVolume, totalAssetCost := totalAssetCost,
      buyVolumePercentage := buyVolumePercentage,
      sellVolumePercentage := sellVolumePercentage, avgPrice := avgPrice }

/-- The body of the second `if` of the loop (the trade is at or past the end
of the current slot): store the slot, move the markers, reset the accumulators.
The store panics when `numberOfCurrentPeriod` is not an index of the result. -/
def closeSlot (timeslotDurationMS : Int) (st : SlotLoop) : Option SlotLoop :=
  if st.numberOfCurrentPeriod < st.analyzedData.length then
    some
      { analyzedData :=
          st.analyzedData.set st.numberOfCurrentPeriod
            { BuyVolume := st.buyVolume, SellVolume := st.sellVolume,
              BuyVolumePercentage := st.buyVolumePercentage,
              SellVolumePercentage := st.sellVolumePercentage,
              PriceChangePercentage := st.priceChangePercentage,
              AvgPrice := st.avgPrice },
        timeslotStartMS := st.timeslotEndMS,
        timeslotEndMS := st.timeslotEndMS + timeslotDurationMS,
        buyVolume := Float64.zero, sellVolume := Float64.zero, buyVolumePercentage := 0,
        sellVolumePercentage := 0, priceChangePercentage := 0, avgPrice := Float64.zero,
        totalAssetCost := Float64.zero,
        numberOfCurrentPeriod := st.numberOfCurrentPeriod + 1 }
  else none

/-- One iteration of the second loop. -/
def slotStep (cvt : Float64 → Int) (timeslotDurationMS : Int) (st : SlotLoop) (trade : AggTrade) :
    Option SlotLoop :=
  match (if st.timeslotStartMS ≤ trade.AggTime ∧ trade.AggTime < st.timeslotEndMS
          then accumulate cvt st trade else some st) with
  | none => none
  | some st1 =>
      if trade.AggTime ≥ st1.timeslotEndMS then closeSlot timeslotDurationMS st1 else some st1

/-- The second loop: `for _, trade := range aggTrades`. -/
def slotLoop (cvt : Float64 → Int) (timeslotDurationMS : Int) :
    SlotLoop → AggTradesList → Option SlotLoop
  | st, [] => some st
  | st, trade :: rest =>
      match slotStep cvt timeslotDurationMS st trade with
      | none => none
      | some st1 => slotLoop cvt timeslotDurationMS st1 rest

/-- The resampled list `aggTrades[firstIndex:]`. -/
def resample (unixNow : Int) (aggTrades : AggTradesList) (timeslotDurMS numberOfTimeslots : Int) :
    AggTradesList :=
  aggTrades.drop
    (firstIndexFrom (requestedPeriodStartTimeMS (unixNow * 1000) timeslotDurMS numberOfTimeslots)
      aggTrades 0)

/-- The recomputed `timeslotDurationMS` of a resampled list. -/
def slotDuration (first last : AggTrade) (numberOfTimeslots : Int) : Int :=
  Int.tdiv (last.AggTime - first.AggTime) numberOfTimeslots

/-- The state in which the second loop starts. -/
def initLoop (first : AggTrade) (timeslotDurationMS numberOfTimeslots : Int) : SlotLoop :=
  { analyzedData := List.replicate numberOfTimeslots.toNat zeroPeriod,
    timeslotStartMS := first.AggTime,
    timeslotEndMS := first.AggTime + timeslotDurationMS,
    buyVolume := Float64.zero, sellVolume := Float64.zero, buyVolumePercentage := 0,
    sellVolumePercentage := 0, priceChangePercentage := 0, avgPrice := Float64.zero,
    totalAssetCost := Float64.zero, numberOfCurrentPeriod := 0 }

/-- The method `getStatisticData`.  `unixNow` is the value of `time.Now().Unix()`. -/
def getStatisticData (cvt : Float64 → Int) (unixNow : Int) (aggTrades : AggTradesList)
    (timeslotDurMS : Int) (numberOfTimeslots : Int) : Option analyzedDataOneSymbolByPeriods :=
  let trades := resample unixNow aggTrades timeslotDurMS numberOfTimeslots
  match trades.getLast?, trades.head? with
  | some last, some first =>
      if numberOfTimeslots = 0 then none
      else if numberOfTimeslots < 0 then none
      else
        let timeslotDurationMS := slotDuration first last numberOfTimeslots
        match slotLoop cvt timeslotDurationMS
            (initLoop first timeslotDurationMS numberOfTimeslots) trades with
        | none => none
        | some st => some st.analyzedData
  | _, _ => none

end Rounded


/-! ## Notions used in the statements -/

/-- Weakly ascending order of `AggTime`. -/
def TimeSorted (trades : AggTradesList) : Prop :=
  trades.Pairwise (fun a b => a.AggTime ≤ b.AggTime)

instance (trades : AggTradesList) : Decidable (TimeSorted trades) := by
  unfold TimeSorted
  infer_instance

/-- Whether the validation loop files a symbol under `AbsentSymbols`. -/
def isAbsent (pools : poolState) (symbol : String) : Bool :=
  (pools symbol).isNone

/-- Whether the validation loop files a symbol under `SymbolsWithNotEnoughData`. -/
def lacksData (pools : poolState) (currentTimeMS timeslotDurMS numberOfTimeslots : Int)
    (symbol : String) : Bool :=
  match pools symbol with
  | none => false
  | some poolForSymbol =>
      decide (requestedPeriodStartTimeMS currentTimeMS timeslotDurMS numberOfTimeslots <
        poolForSymbol.LastDealTimestampMS - poolForSymbol.CapturedPeriodMS)

/-- The total `AggQty` of the trades of a list whose `AggIsBuyerMaker` flag
has the given value. -/
def sideVolume (isBuyerMaker : Bool) (trades : AggTradesList) : ℚ :=
  ((trades.filter (fun t => t.AggIsBuyerMaker == isBuyerMaker)).map (fun t => t.AggQty)).sum

/-- The slot that `closeSlot` stores: the accumulators of the loop state. -/
def currentPeriod (st : SlotLoop) : analyzedDataOneSymbolOnePeriod :=
  { BuyVolume := st.buyVolume, SellVolume := st.sellVolume,
    BuyVolumePercentage := st.buyVolumePercentage,
    SellVolumePercentage := st.sellVolumePercentage,
    PriceChangePercentage := st.priceChangePercentage, AvgPrice := st.avgPrice }

/-- The float expression `100 * (avgPrice - prevAvgPrice) / prevAvgPrice`,
rounded and converted as the loop does. -/
def priceChange (cvt : F64 → Int) (avgPrice prevAvgPrice : F64) : Int :=
  roundToInt cvt (F64.div (F64.mul (F64.fin 100) (F64.sub avgPrice prevAvgPrice)) prevAvgPrice)

/-- The bound of the two volume percentages of a slot. -/
def PercentagesBounded (e : analyzedDataOneSymbolOnePeriod) : Prop :=
  0 ≤ e.BuyVolumePercentage + e.SellVolumePercentage ∧
  e.BuyVolumePercentage + e.SellVolumePercentage ≤ 101

/-- Loop invariant for the volume percentages: the volumes accumulated so far
are not negative and the percentages, current and stored, are bounded. -/
def PercentageInv (st : SlotLoop) : Prop :=
  0 ≤ st.buyVolume ∧ 0 ≤ st.sellVolume ∧
  (0 ≤ st.buyVolumePercentage + st.sellVolumePercentage ∧
    st.buyVolumePercentage + st.sellVolumePercentage ≤ 101) ∧
  ∀ e ∈ st.analyzedData, PercentagesBounded e

/-- Loop invariant for the price change: slot 0 has price change 0, the slots
not yet stored are zero, and the price change of a stored or current slot of
non-zero volume was computed from its average price and that of the slot
stored before it. -/
def PriceChangeInv (cvt : F64 → Int) (st : SlotLoop) : Prop :=
  (∀ e, st.analyzedData[0]? = some e → e.PriceChangePercentage = 0) ∧
  (st.numberOfCurrentPeriod = 0 → st.priceChangePercentage = 0) ∧
  (∀ j e, st.numberOfCurrentPeriod ≤ j → st.analyzedData[j]? = some e → e = zeroPeriod) ∧
  (∀ j p e, st.analyzedData[j]? = some p → st.analyzedData[j + 1]? = some e →
    e.BuyVolume + e.SellVolume ≠ 0 →
    e.PriceChangePercentage = priceChange cvt e.AvgPrice p.AvgPrice) ∧
  (∀ p, 0 < st.numberOfCurrentPeriod → st.analyzedData[st.numberOfCurrentPeriod - 1]? = some p →
    st.buyVolume + st.sellVolume ≠ 0 →
    st.priceChangePercentage = priceChange cvt st.avgPrice p.AvgPrice)

/-- Loop invariant for the average price: with quantities that are not
negative and positive prices, a non-zero volume comes with a positive cost and
a finite positive average price, in the accumulators and in the stored slots. -/
def AvgPriceInv (st : SlotLoop) : Prop :=
  0 ≤ st.buyVolume ∧ 0 ≤ st.sellVolume ∧ 0 ≤ st.totalAssetCost ∧
  (st.buyVolume + st.sellVolume ≠ 0 →
    0 < st.totalAssetCost ∧
    st.avgPrice = F64.fin (st.totalAssetCost / (st.buyVolume + st.sellVolume))) ∧
  ∀ e ∈ st.analyzedData, e.BuyVolume + e.SellVolume ≠ 0 → ∃ a : ℚ, 0 < a ∧ e.AvgPrice = F64.fin a

/-- Strictly ascending order of `AggTradeId`. -/
def IdSorted (trades : AggTradesList) : Prop :=
  trades.Pairwise (fun a b => a.AggTradeId < b.AggTradeId)

instance (trades : AggTradesList) : Decidable (IdSorted trades) := by
  unfold IdSorted
  infer_instance

/-- A batch as the exchange is assumed to return it for a request from
`fromId`: strictly ascending ids, all of them in `[fromId, fromId + RecordsCountPerRequest)`. -/
def BatchFrom (fromId : Int) (batch : AggTradesList) : Prop :=
  IdSorted batch ∧
  ∀ t ∈ batch, fromId ≤ t.AggTradeId ∧ t.AggTradeId < fromId + RecordsCountPerRequest

/-- One completed iteration of the keeper leads from `st` to `st1`, for some
clock reading and some answers of the client. -/
def CycleStep (cvt : F64 → Int) (symbol : String) (timePeriodMS : Int)
    (st st1 : KeeperState) : Prop :=
  ∃ unixNow askOld askNew p,
    keeperCycle cvt symbol timePeriodMS unixNow askOld askNew st = Outcome.next p ∧ p.state = st1

/-- A client whose every answer carries the status 429. -/
def rateLimited : Int → ClientResponse :=
  fun _ => { trades := [], statusCode := 429, err := none }


/-- The total quantity of a list of trades. -/
def quantitySum (trades : AggTradesList) : ℚ :=
  (trades.map (fun t => t.AggQty)).sum

/-- The total cost `AggQty * AggPrice` of a list of trades. -/
def costSum (trades : AggTradesList) : ℚ :=
  (trades.map (fun t => t.AggQty * t.AggPrice)).sum

/-- The trade lies in the `k`-th slot interval
`[firstTime + k * slotMs, firstTime + (k + 1) * slotMs)`. -/
def InSlot (firstTime slotMs : Int) (k : Nat) (t : AggTrade) : Prop :=
  firstTime + k * slotMs ≤ t.AggTime ∧ t.AggTime < firstTime + (k + 1) * slotMs

/-- What a slot holds, in terms of the trades `acc` accumulated into it: they
are trades of the processed list `done`, in order, all in the slot interval
`k`; the volume of the slot is their total quantity; without any of them both
percentages are 0; and with a non-zero volume the average price is their total
cost over their total quantity. -/
def HoldsTrades (firstTime slotMs : Int) (done : AggTradesList) (k : Nat)
    (e : analyzedDataOneSymbolOnePeriod) (acc : AggTradesList) : Prop :=
  acc.Sublist done ∧ (∀ t ∈ acc, InSlot firstTime slotMs k t) ∧
  e.BuyVolume + e.SellVolume = quantitySum acc ∧
  (acc = [] → e.BuyVolumePercentage = 0 ∧ e.SellVolumePercentage = 0) ∧
  (e.BuyVolume + e.SellVolume ≠ 0 → e.AvgPrice = F64.fin (costSum acc / quantitySum acc))

/-- Loop invariant for the content of the slots, after the trades `done` have
been processed: the markers delimit the slot interval `numberOfCurrentPeriod`,
and the accumulators and every stored slot hold trades in the sense of
`HoldsTrades`. -/
def ContentInv (firstTime slotMs : Int) (done : AggTradesList) (st : SlotLoop) : Prop :=
  st.timeslotStartMS = firstTime + st.numberOfCurrentPeriod * slotMs ∧
  st.timeslotEndMS = firstTime + (st.numberOfCurrentPeriod + 1) * slotMs ∧
  (∃ acc, HoldsTrades firstTime slotMs done st.numberOfCurrentPeriod (currentPeriod st) acc ∧
    st.totalAssetCost = costSum acc) ∧
  ∀ j e, st.analyzedData[j]? = some e → ∃ acc, HoldsTrades firstTime slotMs done j e acc


namespace Rounded

/-- Weakly ascending order of `AggTime`. -/
def TimeSorted (trades : AggTradesList) : Prop :=
  trades.Pairwise (fun a b => a.AggTime ≤ b.AggTime)

instance (trades : AggTradesList) : Decidable (TimeSorted trades) := by
  unfold TimeSorted
  infer_instance

/-- The slot that `closeSlot` stores: the accumulators of the loop state. -/
def currentPeriod (st : SlotLoop) : analyzedDataOneSymbolOnePeriod :=
  { BuyVolume := st.buyVolume, SellVolume := st.sellVolume,
    BuyVolumePercentage := st.buyVolumePercentage,
    SellVolumePercentage := st.sellVolumePercentage,
    PriceChangePercentage := st.priceChangePercentage, AvgPrice := st.avgPrice }

/-- The float expression `100 * (avgPrice - prevAvgPrice) / prevAvgPrice`,
rounded and converted as the loop does. -/
def priceChange (cvt : Float64 → Int) (avgPrice prevAvgPrice : Float64) : Int :=
  Float64.roundToInt cvt
    (Float64.div (Float64.mul Float64.hundred (Float64.sub avgPrice prevAvgPrice)) prevAvgPrice)

/-- The float sum of the `AggQty` of the trades of a list whose
`AggIsBuyerMaker` flag has the given value, added in list order. -/
def sideVolume (isBuyerMaker : Bool) (trades : AggTradesList) : Float64 :=
  Float64.sum ((trades.filter (fun t => t.AggIsBuyerMaker == isBuyerMaker)).map (fun t => t.AggQty))

/-- The float sum of the rounded products `AggQty * AggPrice` of a list of
trades, added in list order. -/
def costSum (trades : AggTradesList) : Float64 :=
  Float64.sum (trades.map (fun t => Float64.mul t.AggQty t.AggPrice))

/-- The trade lies in the `k`-th slot interval
`[firstTime + k * slotMs, firstTime + (k + 1) * slotMs)`. -/
def InSlot (firstTime slotMs : Int) (k : Nat) (t : AggTrade) : Prop :=
  firstTime + k * slotMs ≤ t.AggTime ∧ t.AggTime < firstTime + (k + 1) * slotMs

/-- Loop invariant for the price change: slot 0 has price change 0, the slots
not yet stored are zero, and the price change of a stored or current slot into
which a trade was accumulated (its volumes are not both the initial `+0`) was
computed from its average price and that of the slot stored before it. -/
def PriceChangeInv (cvt : Float64 → Int) (st : SlotLoop) : Prop :=
  (∀ e, st.analyzedData[0]? = some e → e.PriceChangePercentage = 0) ∧
  (st.numberOfCurrentPeriod = 0 → st.priceChangePercentage = 0) ∧
  (∀ j e, st.numberOfCurrentPeriod ≤ j → st.analyzedData[j]? = some e → e = zeroPeriod) ∧
  (∀ j p e, st.analyzedData[j]? = some p → st.analyzedData[j + 1]? = some e →
    ¬ (e.BuyVolume = Float64.zero ∧ e.SellVolume = Float64.zero) →
    e.PriceChangePercentage = priceChange cvt e.AvgPrice p.AvgPrice) ∧
  (∀ p, 0 < st.numberOfCurrentPeriod → st.analyzedData[st.numberOfCurrentPeriod - 1]? = some p →
    ¬ (st.buyVolume = Float64.zero ∧ st.sellVolume = Float64.zero) →
    st.priceChangePercentage = priceChange cvt st.avgPrice p.AvgPrice)

/-- What a slot holds, in terms of the trades `acc` accumulated into it: they
are trades of the processed list `done`, in order, all in the slot interval
`k`; the two volumes of the slot are the float sums of their quantities by
side; without any of them the slot is the zero slot but for the price change;
and with one the average price is the float quotient of their float cost sum
by the float sum of the two volumes. -/
def HoldsTrades (firstTime slotMs : Int) (done : AggTradesList) (k : Nat)
    (e : analyzedDataOneSymbolOnePeriod) (acc : AggTradesList) : Prop :=
  acc.Sublist done ∧ (∀ t ∈ acc, InSlot firstTime slotMs k t) ∧
  e.BuyVolume = sideVolume false acc ∧ e.SellVolume = sideVolume true acc ∧
  (acc = [] → e.AvgPrice = Float64.zero) ∧
  (acc ≠ [] → e.AvgPrice = Float64.div (costSum acc) (Float64.add e.BuyVolume e.SellVolume))

/-- Loop invariant for the content of the slots, after the trades `done` have
been processed: the markers delimit the slot interval `numberOfCurrentPeriod`,
and the accumulators and every stored slot hold trades in the sense of
`HoldsTrades`. -/
def ContentInv (firstTime slotMs : Int) (done : AggTradesList) (st : SlotLoop) : Prop :=
  st.timeslotStartMS = firstTime + st.numberOfCurrentPeriod * slotMs ∧
  st.timeslotEndMS = firstTime + (st.numberOfCurrentPeriod + 1) * slotMs ∧
  (∃ acc, HoldsTrades firstTime slotMs done st.numberOfCurrentPeriod (currentPeriod st) acc ∧
    st.totalAssetCost = costSum acc) ∧
  ∀ j e, st.analyzedData[j]? = some e → ∃ acc, HoldsTrades firstTime slotMs done j e acc

end Rounded


/-! ## Concrete inputs -/

/-- The conversion of amd64: `NaN` and the infinities become the smallest `int64`. -/
def amd64Cvt : F64 → Int := fun _ => -9223372036854775808

/-- Two trades that share one timestamp. -/
def equalTimeTrades : AggTradesList :=
  [ { AggTradeId := 1, AggTime := 5000, AggQty := 1, AggPrice := 100, AggIsBuyerMaker := false },
    { AggTradeId := 2, AggTime := 5000, AggQty := 1, AggPrice := 101, AggIsBuyerMaker := false } ]

/-- Six trades one millisecond apart. -/
def denseTrades : AggTradesList :=
  [ { AggTradeId := 1, AggTime := 0, AggQty := 1, AggPrice := 100, AggIsBuyerMaker := false },
    { AggTradeId := 2, AggTime := 1, AggQty := 1, AggPrice := 100, AggIsBuyerMaker := false },
    { AggTradeId := 3, AggTime := 2, AggQty := 1, AggPrice := 100, AggIsBuyerMaker := false },
    { AggTradeId := 4, AggTime := 3, AggQty := 1, AggPrice := 100, AggIsBuyerMaker := false },
    { AggTradeId := 5, AggTime := 4, AggQty := 1, AggPrice := 100, AggIsBuyerMaker := false },
    { AggTradeId := 6, AggTime := 5, AggQty := 1, AggPrice := 100, AggIsBuyerMaker := false } ]

/-- A pool of two trades five seconds apart. -/
def fiveSecondPool : AggTradesList :=
  [ { AggTradeId := 1, AggTime := 95000, AggQty := 1, AggPrice := 100, AggIsBuyerMaker := false },
    { AggTradeId := 2, AggTime := 100000, AggQty := 2, AggPrice := 101, AggIsBuyerMaker := true } ]

/-- A pool of three trades, the first of them older than the window below. -/
def agedPool : AggTradesList :=
  [ { AggTradeId := 1, AggTime := 30000, AggQty := 1, AggPrice := 100, AggIsBuyerMaker := false },
    { AggTradeId := 2, AggTime := 40000, AggQty := 1, AggPrice := 100, AggIsBuyerMaker := true },
    { AggTradeId := 3, AggTime := 95000, AggQty := 1, AggPrice := 100, AggIsBuyerMaker := false } ]

/-- A pool of two trades ten seconds apart, the last one fifty seconds old
at clock reading 100. -/
def quietPool : AggTradesList :=
  [ { AggTradeId := 1, AggTime := 40000, AggQty := 1, AggPrice := 100, AggIsBuyerMaker := false },
    { AggTradeId := 2, AggTime := 50000, AggQty := 1, AggPrice := 101, AggIsBuyerMaker := false } ]

/-- The report of the keeper of `quietPool` for a window of fifteen days. -/
def quietEntry : poolStateForSymbol :=
  { Symbol := "ETHUSDT", PoolFullness := 0, LastDealTimestampMS := 50000,
    CapturedPeriodMS := 10000, DataReady := false, aggTradesListRef := some quietPool,
    error := none }

/-- A pool state with the single entry `quietEntry`. -/
def quietPools : poolState := fun symbol => if symbol = "ETHUSDT" then some quietEntry else none

/-- The four trades of scenario S4: times 0, 10, 20, 30, quantity 1 each,
prices 100 to 103, all with `AggIsBuyerMaker = false`. -/
def s4Trades : AggTradesList :=
  [ { AggTradeId := 1, AggTime := 0, AggQty := 1, AggPrice := 100, AggIsBuyerMaker := false },
    { AggTradeId := 2, AggTime := 10, AggQty := 1, AggPrice := 101, AggIsBuyerMaker := false },
    { AggTradeId := 3, AggTime := 20, AggQty := 1, AggPrice := 102, AggIsBuyerMaker := false },
    { AggTradeId := 4, AggTime := 30, AggQty := 1, AggPrice := 103, AggIsBuyerMaker := false } ]

/-- Two buy trades ten milliseconds apart, of quantity 1 and 2. -/
def twoBuys : AggTradesList :=
  [ { AggTradeId := 1, AggTime := 0, AggQty := 1, AggPrice := 100, AggIsBuyerMaker := false },
    { AggTradeId := 2, AggTime := 10, AggQty := 2, AggPrice := 100, AggIsBuyerMaker := false } ]

/-- A trade of quantity zero followed, one second later, by a trade of quantity one. -/
def zeroQuantityTrades : AggTradesList :=
  [ { AggTradeId := 1, AggTime := 0, AggQty := 0, AggPrice := 1, AggIsBuyerMaker := false },
    { AggTradeId := 2, AggTime := 1000, AggQty := 1, AggPrice := 1, AggIsBuyerMaker := false } ]

/-- Five trades whose first two slots of ten milliseconds each receive one
trade: the trade at time 0 and the trade at time 11. -/
def driftTrades : AggTradesList :=
  [ { AggTradeId := 1, AggTime := 0, AggQty := 1, AggPrice := 100, AggIsBuyerMaker := false },
    { AggTradeId := 2, AggTime := 10, AggQty := 1, AggPrice := 105, AggIsBuyerMaker := false },
    { AggTradeId := 3, AggTime := 11, AggQty := 2, AggPrice := 110, AggIsBuyerMaker := true },
    { AggTradeId := 4, AggTime := 20, AggQty := 1, AggPrice := 120, AggIsBuyerMaker := false },
    { AggTradeId := 5, AggTime := 30, AggQty := 1, AggPrice := 130, AggIsBuyerMaker := false } ]

/-- The last trade of `fiveSecondPool`. -/
def fiveSecondLast : AggTrade :=
  { AggTradeId := 2, AggTime := 100000, AggQty := 2, AggPrice := 101, AggIsBuyerMaker := true }

/-- A keeper state whose next poll is due at 100000 ms, with a pool of two trades. -/
def waitingKeeper : KeeperState :=
  { aggTradesPoolForSelectedPeriod := fiveSecondPool, expirationTimeMS := 100000,
    allowAddEarlyRecords := false }


/-- The state of a keeper started on `agedPool`. -/
def agedKeeper : KeeperState :=
  { aggTradesPoolForSelectedPeriod := agedPool, expirationTimeMS := 0,
    allowAddEarlyRecords := true }


/-- A client that answers every request with no trades and status 200. -/
def noNews : Int → ClientResponse :=
  fun _ => { trades := [], statusCode := 200, err := none }

/-- The trade of `agedPool` that a window of 60000 ms keeps at clock reading 150. -/
def agedSurvivor : AggTrade :=
  { AggTradeId := 3, AggTime := 95000, AggQty := 1, AggPrice := 100, AggIsBuyerMaker := false }


/-- A client that answers a request from `fromId` with the single trade of
that id, at time 50000. -/
def oneTradeFrom : Int → ClientResponse :=
  fun fromId =>
    { trades :=
        [ { AggTradeId := fromId, AggTime := 50000, AggQty := 1, AggPrice := 100,
            AggIsBuyerMaker := false } ],
      statusCode := 200, err := none }

/-- The state of a keeper started on `fiveSecondPool`. -/
def freshKeeper : KeeperState :=
  { aggTradesPoolForSelectedPeriod := fiveSecondPool, expirationTimeMS := 0,
    allowAddEarlyRecords := true }


/-- The state of a keeper whose pool is `quietPool`. -/
def quietKeeper : KeeperState :=
  { aggTradesPoolForSelectedPeriod := quietPool, expirationTimeMS := 0,
    allowAddEarlyRecords := true }


/-- The conversion of amd64 for the binary model: every float that does not
fit `int64` becomes the smallest `int64`. -/
def amd64Convert : Float64 → Int := fun _ => -9223372036854775808

/-- Two buy trades of quantity `0.1` at price `3`, ten milliseconds apart. -/
def tenthTrades : Rounded.AggTradesList :=
  [ { AggTradeId := 1, AggTime := 0, AggQty := Float64.ofDecimal 1 1,
      AggPrice := Float64.ofDecimal 3 0, AggIsBuyerMaker := false },
    { AggTradeId := 2, AggTime := 10, AggQty := Float64.ofDecimal 1 1,
      AggPrice := Float64.ofDecimal 3 0, AggIsBuyerMaker := false } ]

/-- Four trades of quantity `1` whose first two slots of ten milliseconds each
receive one trade: the trade at time 0, at price `199.6`, and the trade at
time 11, at price `208.582`. -/
def halfStepTrades : Rounded.AggTradesList :=
  [ { AggTradeId := 1, AggTime := 0, AggQty := Float64.ofDecimal 1 0,
      AggPrice := Float64.ofDecimal 1996 1, AggIsBuyerMaker := false },
    { AggTradeId := 2, AggTime := 10, AggQty := Float64.ofDecimal 1 0,
      AggPrice := Float64.ofDecimal 200 0, AggIsBuyerMaker := false },
    { AggTradeId := 3, AggTime := 11, AggQty := Float64.ofDecimal 1 0,
      AggPrice := Float64.ofDecimal 208582 3, AggIsBuyerMaker := true },
    { AggTradeId := 4, AggTime := 20, AggQty := Float64.ofDecimal 1 0,
      AggPrice := Float64.ofDecimal 210 0, AggIsBuyerMaker := false } ]


/-! ## Basic facts about the exact float model -/

theorem roundToInt_fin (cvt : F64 → Int) (q : ℚ) :
    roundToInt cvt (F64.fin q) = roundHalfAway q := by
  unfold roundToInt mathRound toInt
  simp only
  split_ifs with h
  · exact Int.floor_intCast _
  · exact Int.ceil_intCast _

theorem div_fin_of_ne (a b : ℚ) (hb : b ≠ 0) :
    F64.div (F64.fin a) (F64.fin b) = F64.fin (a / b) := by
  simp [F64.div, hb]

theorem roundHalfAway_nonneg {q : ℚ} (hq : 0 ≤ q) : 0 ≤ roundHalfAway q := by
  unfold roundHalfAway
  rw [if_pos hq]
  apply Int.floor_nonneg.mpr
  linarith

theorem roundHalfAway_pair_bounds {x y : ℚ} (hx : 0 ≤ x) (hy : 0 ≤ y) (hxy : x + y = 100) :
    100 ≤ roundHalfAway x + roundHalfAway y ∧ roundHalfAway x + roundHalfAway y ≤ 101 := by
  unfold roundHalfAway
  rw [if_pos hx, if_pos hy]
  have h1 := Int.floor_le (x + 1 / 2)
  have h2 := Int.lt_floor_add_one (x + 1 / 2)
  have h3 := Int.floor_le (y + 1 / 2)
  have h4 := Int.lt_floor_add_one (y + 1 / 2)
  constructor
  · have : ((99 : Int) : ℚ) < ((⌊x + 1 / 2⌋ + ⌊y + 1 / 2⌋ : Int) : ℚ) := by
      push_cast
      linarith
    have := Int.cast_lt.mp this
    omega
  · have : ((⌊x + 1 / 2⌋ + ⌊y + 1 / 2⌋ : Int) : ℚ) ≤ ((101 : Int) : ℚ) := by
      push_cast
      linarith
    exact Int.cast_le.mp this

/-- The value of `roundHalfAway` is within one half of its argument. -/
theorem roundHalfAway_near (q : ℚ) : |(roundHalfAway q : ℚ) - q| ≤ 1 / 2 := by
  unfold roundHalfAway
  split_ifs with h
  · have h1 := Int.floor_le (q + 1 / 2)
    have h2 := Int.lt_floor_add_one (q + 1 / 2)
    rw [abs_le]
    constructor <;> linarith
  · have h1 := Int.floor_le (-q + 1 / 2)
    have h2 := Int.lt_floor_add_one (-q + 1 / 2)
    rw [abs_le]
    push_cast
    constructor <;> linarith

/-! ## The engine can panic -/

/-- Claim C1 (failing input): two trades with the same timestamp, one requested
slot, and a window that starts at the first trade.  All preconditions of the
claim hold, yet the second loop stores at index 1 of a result of length 1, so
`getStatisticData` panics instead of returning. -/
theorem getStatisticData_panics_equal_times :
    equalTimeTrades ≠ [] ∧ TimeSorted equalTimeTrades ∧ (1 : Int) ≤ 5000 ∧ (1 : Int) ≤ 1 ∧
    (∀ first, equalTimeTrades.head? = some first → (10 : Int) * 1000 - 5000 * 1 ≥ first.AggTime) ∧
    ∀ cvt, getStatisticData cvt 10 equalTimeTrades 5000 1 = none := by
  refine ⟨by decide, by decide, by decide, by decide, ?_, fun _ => rfl⟩
  intro first h
  simp [equalTimeTrades] at h
  subst h
  decide

/-- The same panic with distinct timestamps and a slot length of one
millisecond: five trades lie at or past a slot end, the result has three slots. -/
theorem getStatisticData_panics_dense_times :
    TimeSorted denseTrades ∧ ∀ cvt, getStatisticData cvt 1 denseTrades 1 3 = none :=
  ⟨by decide, fun _ => rfl⟩

/-! ## Publication -/

theorem keeperCycle_report (cvt : F64 → Int) (symbol : String) (timePeriodMS unixNow : Int)
    (askOld askNew : Int → ClientResponse) (st : KeeperState) (p : Published)
    (h : keeperCycle cvt symbol timePeriodMS unixNow askOld askNew st = Outcome.next p) :
    poolReport cvt symbol timePeriodMS p.state.aggTradesPoolForSelectedPeriod = some p.report := by
  unfold keeperCycle at h
  simp only at h
  split at h <;> try contradiction
  split at h <;> try contradiction
  split at h <;> try contradiction
  split at h <;> try contradiction
  rename_i report hrep
  split_ifs at h
  · split at h <;> try contradiction
    injection h with h
    subst h
    exact hrep
  · injection h with h
    subst h
    exact hrep

/-- Claim C2: for a non-empty pool and a positive window the report has
`CapturedPeriodMS = last.AggTime - first.AggTime`, `LastDealTimestampMS =
last.AggTime`, `PoolFullness` the half-away-from-zero rounding of
`100 * CapturedPeriodMS / timePeriodMS`, and `DataReady` exactly when
`PoolFullness > 99`; a window of 60000 with a span of 5000 gives 8 and not
ready, a span of 60000 gives 100 and ready; and it is this report that a
completed keeper iteration ending with that pool publishes. -/
theorem poolReport_fields (cvt : F64 → Int) (symbol : String) (timePeriodMS : Int)
    (pool : AggTradesList) (first last : AggTrade) (hw : 0 < timePeriodMS)
    (hf : pool.head? = some first) (hl : pool.getLast? = some last) :
    ∃ r, poolReport cvt symbol timePeriodMS pool = some r ∧
      r.CapturedPeriodMS = last.AggTime - first.AggTime ∧
      r.LastDealTimestampMS = last.AggTime ∧
      r.PoolFullness = roundHalfAway (100 * (r.CapturedPeriodMS : ℚ) / (timePeriodMS : ℚ)) ∧
      (r.DataReady = true ↔ r.PoolFullness > 99) ∧
      (timePeriodMS = 60000 → r.CapturedPeriodMS = 5000 →
        r.PoolFullness = 8 ∧ r.DataReady = false) ∧
      (timePeriodMS = 60000 → r.CapturedPeriodMS = 60000 →
        r.PoolFullness = 100 ∧ r.DataReady = true) ∧
      ∀ unixNow askOld askNew st p,
        keeperCycle cvt symbol timePeriodMS unixNow askOld askNew st = Outcome.next p →
        p.state.aggTradesPoolForSelectedPeriod = pool → p.report = r := by
  have hw0 : (timePeriodMS : ℚ) ≠ 0 := by
    have : (0 : ℚ) < (timePeriodMS : ℚ) := by exact_mod_cast hw
    exact ne_of_gt this
  have hfull : roundToInt cvt
      (F64.div (F64.fin (100 * ((last.AggTime - first.AggTime : Int) : ℚ)))
        (F64.fin (timePeriodMS : ℚ))) =
      roundHalfAway (100 * ((last.AggTime - first.AggTime : Int) : ℚ) / (timePeriodMS : ℚ)) := by
    rw [div_fin_of_ne _ _ hw0, roundToInt_fin]
  have hrep : poolReport cvt symbol timePeriodMS pool = some
      { Symbol := symbol,
        PoolFullness :=
          roundHalfAway (100 * ((last.AggTime - first.AggTime : Int) : ℚ) / (timePeriodMS : ℚ)),
        LastDealTimestampMS := last.AggTime,
        CapturedPeriodMS := last.AggTime - first.AggTime,
        DataReady := decide
          (roundHalfAway (100 * ((last.AggTime - first.AggTime : Int) : ℚ) / (timePeriodMS : ℚ)) > 99),
        aggTradesListRef := some pool, error := none } := by
    simp only [poolReport, hf, hl, hfull]
  refine ⟨_, hrep, rfl, rfl, rfl, by simp, ?_, ?_, ?_⟩
  · intro h1 h2
    simp only at h2
    simp only [h1, h2]
    norm_num [roundHalfAway]
  · intro h1 h2
    simp only at h2
    simp only [h1, h2]
    norm_num [roundHalfAway]
  · intro unixNow askOld askNew st p hp hpool
    have := keeperCycle_report cvt symbol timePeriodMS unixNow askOld askNew st p hp
    rw [hpool, hrep] at this
    exact (Option.some.inj this).symm

/-- Witness for claim C2: a pool spanning 5000 ms in a window of 60000 ms. -/
theorem poolReport_fields_witness :
    (0 : Int) < 60000 ∧
    ∃ r, poolReport amd64Cvt "ETHUSDT" 60000 fiveSecondPool = some r ∧
      r.CapturedPeriodMS = 5000 ∧ r.LastDealTimestampMS = 100000 ∧
      r.PoolFullness = 8 ∧ r.DataReady = false := by
  refine ⟨by decide, ?_⟩
  obtain ⟨r, h1, h2, h3, _, _, h6, _, _⟩ :=
    poolReport_fields amd64Cvt "ETHUSDT" 60000 fiveSecondPool
      { AggTradeId := 1, AggTime := 95000, AggQty := 1, AggPrice := 100, AggIsBuyerMaker := false }
      { AggTradeId := 2, AggTime := 100000, AggQty := 2, AggPrice := 101, AggIsBuyerMaker := true }
      (by decide) rfl rfl
  have hc : r.CapturedPeriodMS = 5000 := by rw [h2]; rfl
  exact ⟨r, h1, hc, h3, (h6 rfl hc).1, (h6 rfl hc).2⟩

/-! ## Dynamic delay -/

/-- Claim C9: for a pool of more than `RecordsCountPerRequest = 1000` trades
both indices `len - 1` and `len - 1 - 1000` are in range and `dynamicDelayMS`
returns the difference of the two timestamps; for every other pool (so for
every pool of fewer than 1000 trades) it returns 0.  It never panics. -/
theorem dynamicDelayMS_spec (pool : AggTradesList) :
    (pool.length > 1000 →
      ∃ last earlier, pool[pool.length - 1]? = some last ∧
        pool[pool.length - 1000 - 1]? = some earlier ∧
        dynamicDelayMS pool = some (last.AggTime - earlier.AggTime)) ∧
    (pool.length ≤ 1000 → dynamicDelayMS pool = some 0) := by
  constructor
  · intro h
    have h1 : pool.length - 1 < pool.length := by omega
    have h2 : pool.length - 1000 - 1 < pool.length := by omega
    have e : pool.length - 1 - 1000 = pool.length - 1000 - 1 := by omega
    refine ⟨_, _, List.getElem?_eq_getElem h1, List.getElem?_eq_getElem h2, ?_⟩
    unfold dynamicDelayMS
    simp only [RecordsCountPerRequest, if_pos h, e, List.getElem?_eq_getElem h1,
      List.getElem?_eq_getElem h2]
  · intro h
    unfold dynamicDelayMS
    simp only [RecordsCountPerRequest]
    rw [if_neg (by omega)]

/-! ## Eviction -/

theorem outdatedCount_shift (cutoff : Int) (pool : AggTradesList) (i : Nat) :
    outdatedCount cutoff pool i = i + outdatedCount cutoff pool 0 := by
  induction pool generalizing i with
  | nil => simp [outdatedCount]
  | cons t rest ih =>
      unfold outdatedCount
      split_ifs
      · simp
      · rw [ih (i + 1), ih (0 + 1)]
        omega

theorem filter_of_sorted_head (cutoff : Int) (t : AggTrade) (rest : AggTradesList)
    (hs : TimeSorted (t :: rest)) (ht : t.AggTime ≥ cutoff) :
    (t :: rest).filter (fun x => decide (x.AggTime ≥ cutoff)) = t :: rest ∧
    (t :: rest).filter (fun x => decide (x.AggTime < cutoff)) = [] := by
  have hall : ∀ x ∈ t :: rest, x.AggTime ≥ cutoff := by
    intro x hx
    rcases List.mem_cons.mp hx with h | h
    · rw [h]
      exact ht
    · have := (List.pairwise_cons.mp hs).1 x h
      omega
  constructor
  · apply List.filter_eq_self.mpr
    intro x hx
    simpa using hall x hx
  · apply List.filter_eq_nil_iff.mpr
    intro x hx
    have := hall x hx
    simp only [decide_eq_true_eq]
    omega

theorem drop_outdatedCount (cutoff : Int) (pool : AggTradesList) (hs : TimeSorted pool) :
    pool.drop (outdatedCount cutoff pool 0) =
      pool.filter (fun x => decide (x.AggTime ≥ cutoff)) ∧
    pool.take (outdatedCount cutoff pool 0) =
      pool.filter (fun x => decide (x.AggTime < cutoff)) := by
  induction pool with
  | nil => simp [outdatedCount]
  | cons t rest ih =>
      by_cases ht : t.AggTime ≥ cutoff
      · have h0 : outdatedCount cutoff (t :: rest) 0 = 0 := by
          simp [outdatedCount, ht]
        have := filter_of_sorted_head cutoff t rest hs ht
        rw [h0, this.1, this.2]
        simp
      · have h0 : outdatedCount cutoff (t :: rest) 0 = outdatedCount cutoff rest 0 + 1 := by
          rw [outdatedCount, if_neg ht, outdatedCount_shift]
          omega
        have hrest := ih (List.pairwise_cons.mp hs).2
        have hlt : t.AggTime < cutoff := by omega
        rw [h0, List.drop_succ_cons, List.take_succ_cons, hrest.1, hrest.2]
        simp [List.filter_cons, ht, hlt]

/-- Claim C3: for a pool weakly ascending in `AggTime`, the clean-up section
does not panic unless the pool is empty, and when it completes every trade left
has `AggTime >= currentTimeMS - timePeriodMS`, the old pool is the trades with
`AggTime < currentTimeMS - timePeriodMS` followed by the new pool, and the new
pool holds every trade of the old one with `AggTime >= currentTimeMS -
timePeriodMS` (none inside the window is dropped). -/
theorem cleanUpOutdated_spec (timePeriodMS currentTimeMS : Int) (st : KeeperState)
    (hs : TimeSorted st.aggTradesPoolForSelectedPeriod) :
    (st.aggTradesPoolForSelectedPeriod ≠ [] →
      ∃ st1, cleanUpOutdated timePeriodMS currentTimeMS st = Outcome.next st1) ∧
    ∀ st1, cleanUpOutdated timePeriodMS currentTimeMS st = Outcome.next st1 →
      (∀ t ∈ st1.aggTradesPoolForSelectedPeriod, t.AggTime ≥ currentTimeMS - timePeriodMS) ∧
      st.aggTradesPoolForSelectedPeriod =
        st.aggTradesPoolForSelectedPeriod.filter
          (fun x => decide (x.AggTime < currentTimeMS - timePeriodMS)) ++
        st1.aggTradesPoolForSelectedPeriod ∧
      st1.aggTradesPoolForSelectedPeriod =
        st.aggTradesPoolForSelectedPeriod.filter
          (fun x => decide (x.AggTime ≥ currentTimeMS - timePeriodMS)) := by
  obtain ⟨pool, expiration, allow⟩ := st
  simp only at hs
  cases pool with
  | nil =>
      refine ⟨fun h => absurd rfl h, ?_⟩
      intro st1 h
      simp [cleanUpOutdated] at h
  | cons t rest =>
      have hd := drop_outdatedCount (currentTimeMS - timePeriodMS) (t :: rest) hs
      by_cases ht : t.AggTime < currentTimeMS - timePeriodMS
      · have hrun : cleanUpOutdated timePeriodMS currentTimeMS
            { aggTradesPoolForSelectedPeriod := t :: rest, expirationTimeMS := expiration,
              allowAddEarlyRecords := allow } =
            Outcome.next
              { aggTradesPoolForSelectedPeriod :=
                  (t :: rest).drop (outdatedCount (currentTimeMS - timePeriodMS) (t :: rest) 0),
                expirationTimeMS := expiration, allowAddEarlyRecords := false } := by
          simp [cleanUpOutdated, ht]
        refine ⟨fun _ => ⟨_, hrun⟩, ?_⟩
        intro st1 h
        rw [hrun] at h
        injection h with h
        subst h
        simp only
        refine ⟨?_, ?_, hd.1⟩
        · intro x hx
          rw [hd.1] at hx
          simpa using (List.mem_filter.mp hx).2
        · rw [← hd.2]
          exact (List.take_append_drop _ _).symm
      · have hrun : cleanUpOutdated timePeriodMS currentTimeMS
            { aggTradesPoolForSelectedPeriod := t :: rest, expirationTimeMS := expiration,
              allowAddEarlyRecords := allow } =
            Outcome.next
              { aggTradesPoolForSelectedPeriod := t :: rest, expirationTimeMS := expiration,
                allowAddEarlyRecords := allow } := by
          simp [cleanUpOutdated, ht]
        refine ⟨fun _ => ⟨_, hrun⟩, ?_⟩
        intro st1 h
        rw [hrun] at h
        injection h with h
        subst h
        simp only
        have hf := filter_of_sorted_head (currentTimeMS - timePeriodMS) t rest hs (by omega)
        refine ⟨?_, ?_, hf.1.symm⟩
        · intro x hx
          rw [← hf.1] at hx
          simpa using (List.mem_filter.mp hx).2
        · rw [hf.2]
          rfl

/-- Witness for claim C3: a sorted pool of three trades, two of
them older than the window. -/
theorem cleanUpOutdated_spec_witness :
    TimeSorted agedPool ∧
    ∃ st1, cleanUpOutdated 60000 150000
        { aggTradesPoolForSelectedPeriod := agedPool, expirationTimeMS := 0,
          allowAddEarlyRecords := true } = Outcome.next st1 ∧
      ∀ t ∈ st1.aggTradesPoolForSelectedPeriod, t.AggTime ≥ 150000 - 60000 := by
  have h := cleanUpOutdated_spec 60000 150000
    { aggTradesPoolForSelectedPeriod := agedPool, expirationTimeMS := 0,
      allowAddEarlyRecords := true } (by decide)
  obtain ⟨st1, h1⟩ := h.1 (by decide)
  exact ⟨by decide, st1, h1, (h.2 st1 h1).1⟩

/-! ## Request validation -/

theorem validateSymbols_eq (pools : poolState) (currentTimeMS timeslotDurMS numberOfTimeslots : Int)
    (symbols : List String) (pd : processedData) :
    validateSymbols pools currentTimeMS timeslotDurMS numberOfTimeslots pd symbols =
      { pd with
        AbsentSymbols := pd.AbsentSymbols ++ symbols.filter (isAbsent pools),
        SymbolsWithNotEnoughData := pd.SymbolsWithNotEnoughData ++
          symbols.filter (lacksData pools currentTimeMS timeslotDurMS numberOfTimeslots) } := by
  induction symbols generalizing pd with
  | nil => simp [validateSymbols]
  | cons symbol rest ih =>
      unfold validateSymbols
      cases hp : pools symbol with
      | none =>
          simp only [ih]
          simp [List.filter_cons, isAbsent, lacksData, hp]
      | some entry =>
          simp only
          split_ifs with hlt
          · simp only [ih]
            simp [List.filter_cons, isAbsent, lacksData, hp, hlt]
          · simp only [ih]
            simp [List.filter_cons, isAbsent, lacksData, hp, hlt]

theorem validationResult_lists (pools : poolState) (unixNow : Int) (symbols : List String)
    (timeslotDurMS numberOfTimeslots : Int) :
    (validationResult pools unixNow symbols timeslotDurMS numberOfTimeslots).SymbolsWithNotEnoughData =
      symbols.filter (lacksData pools (unixNow * 1000) timeslotDurMS numberOfTimeslots) ∧
    (validationResult pools unixNow symbols timeslotDurMS numberOfTimeslots).AbsentSymbols =
      symbols.filter (isAbsent pools) ∧
    (validationResult pools unixNow symbols timeslotDurMS numberOfTimeslots).ProcessedDataBySymbol =
      none ∧
    ((validationResult pools unixNow symbols timeslotDurMS numberOfTimeslots).IsError = true ↔
      symbols.filter (isAbsent pools) ≠ [] ∨
      symbols.filter (lacksData pools (unixNow * 1000) timeslotDurMS numberOfTimeslots) ≠ []) := by
  unfold validationResult
  simp only [validateSymbols_eq, List.nil_append, List.length_pos]
  by_cases ha : symbols.filter (isAbsent pools) = [] <;>
    by_cases hl : symbols.filter
      (lacksData pools (unixNow * 1000) timeslotDurMS numberOfTimeslots) = [] <;>
    simp [ha, hl]

/-- Claim C6 (as amended): when a requested symbol has an entry and the start
of the requested window, `now - timeslotDurMS * numberOfTimeslots` as `int64`
arithmetic computes it, lies before the oldest timestamp of that entry, `LastDealTimestampMS - CapturedPeriodMS`,
the handler answers with the validation result, which lists the symbol under
`SymbolsWithNotEnoughData`, has `IsError` set and carries no processed data:
the engine is not called. -/
theorem getProcessedData_rejects_uncovered_window (cvt : F64 → Int) (pools : poolState)
    (unixNow engineNow : Int) (symbols : List String) (timeslotDurMS numberOfTimeslots : Int)
    (symbol : String) (entry : poolStateForSymbol)
    (hmem : symbol ∈ symbols) (hentry : pools symbol = some entry)
    (hshort : requestedPeriodStartTimeMS (unixNow * 1000) timeslotDurMS numberOfTimeslots <
      entry.LastDealTimestampMS - entry.CapturedPeriodMS) :
    ∃ pd, getProcessedData cvt pools unixNow engineNow symbols timeslotDurMS numberOfTimeslots =
        some pd ∧
      pd = validationResult pools unixNow symbols timeslotDurMS numberOfTimeslots ∧
      pd.IsError = true ∧ symbol ∈ pd.SymbolsWithNotEnoughData ∧
      pd.ProcessedDataBySymbol = none := by
  have hl := validationResult_lists pools unixNow symbols timeslotDurMS numberOfTimeslots
  have hin : symbol ∈ symbols.filter
      (lacksData pools (unixNow * 1000) timeslotDurMS numberOfTimeslots) := by
    apply List.mem_filter.mpr
    refine ⟨hmem, ?_⟩
    simp [lacksData, hentry, hshort]
  have herr : (validationResult pools unixNow symbols timeslotDurMS numberOfTimeslots).IsError =
      true := hl.2.2.2.mpr (Or.inr (List.ne_nil_of_mem hin))
  refine ⟨_, ?_, rfl, herr, ?_, hl.2.2.1⟩
  · unfold getProcessedData
    simp only [herr, if_true]
  · rw [hl.1]
    exact hin

/-- Witness for claim C6 as amended: the pool was last
traded at the current instant, so a window of 20000 ms starts before its
oldest trade. -/
theorem getProcessedData_rejects_uncovered_window_witness :
    "ETHUSDT" ∈ ["ETHUSDT"] ∧ quietPools "ETHUSDT" = some quietEntry ∧
    requestedPeriodStartTimeMS (50 * 1000) 1000 20 <
      quietEntry.LastDealTimestampMS - quietEntry.CapturedPeriodMS ∧
    ∃ pd, getProcessedData amd64Cvt quietPools 50 50 ["ETHUSDT"] 1000 20 = some pd ∧
      pd = validationResult quietPools 50 ["ETHUSDT"] 1000 20 ∧
      pd.IsError = true ∧ "ETHUSDT" ∈ pd.SymbolsWithNotEnoughData ∧
      pd.ProcessedDataBySymbol = none :=
  ⟨by decide, by decide, by decide,
    getProcessedData_rejects_uncovered_window amd64Cvt quietPools 50 50 ["ETHUSDT"] 1000 20
      "ETHUSDT" quietEntry (by decide) (by decide) (by decide)⟩

/-- Claim C6 (counterexample): the entry has `CapturedPeriodMS = 10000` and the
request asks for `1000 * 20 = 20000` ms, more than was captured, but the last
trade is 50 s old, so the window starts after the oldest trade: the validation
lists nothing, reports no error, and the engine is called. -/
theorem validation_accepts_window_longer_than_captured :
    quietPools "ETHUSDT" = some quietEntry ∧
    (1000 : Int) * 20 > quietEntry.CapturedPeriodMS ∧
    (validationResult quietPools 100 ["ETHUSDT"] 1000 20).IsError = false ∧
    (validationResult quietPools 100 ["ETHUSDT"] 1000 20).SymbolsWithNotEnoughData = [] ∧
    ∃ pd analyzed, getProcessedData amd64Cvt quietPools 100 100 ["ETHUSDT"] 1000 20 = some pd ∧
      pd.IsError = false ∧ pd.ProcessedDataBySymbol = some [("ETHUSDT", analyzed)] := by
  have hl := validationResult_lists quietPools 100 ["ETHUSDT"] 1000 20
  have hlack : ["ETHUSDT"].filter (lacksData quietPools (100 * 1000) 1000 20) = [] := by decide
  have habs : ["ETHUSDT"].filter (isAbsent quietPools) = [] := by decide
  have herr : (validationResult quietPools 100 ["ETHUSDT"] 1000 20).IsError = false := by
    cases h : (validationResult quietPools 100 ["ETHUSDT"] 1000 20).IsError with
    | false => rfl
    | true =>
        rcases hl.2.2.2.mp h with h1 | h1
        · exact absurd habs h1
        · exact absurd hlack h1
  refine ⟨by decide, by decide, herr, by rw [hl.1, hlack], ?_⟩
  have hq : quietPools "ETHUSDT" = some quietEntry := by decide
  have hd : Int.tdiv 10000 20 = 500 := by decide
  have hstart : requestedPeriodStartTimeMS 100000 1000 20 = 80000 := by decide
  simp [getProcessedData, herr, analyzeSymbols, hq, quietEntry, quietPool, getStatisticData,
    resample, firstIndexFrom, hstart, slotDuration, initLoop, slotLoop, slotStep, accumulate,
    closeSlot, hd]

/-- A request whose product overflows: `9223372036854775807 * 2` is `-2` in
`int64`, so the window starts 2 ms after the clock reading and the validation
reports no error, although the exact product is far longer than any captured
period. -/
theorem validation_accepts_wrapped_window :
    wrap64 (9223372036854775807 * 2) = -2 ∧
    requestedPeriodStartTimeMS (100 * 1000) 9223372036854775807 2 = 100002 ∧
    (validationResult quietPools 100 ["ETHUSDT"] 9223372036854775807 2).IsError = false := by
  have hl := validationResult_lists quietPools 100 ["ETHUSDT"] 9223372036854775807 2
  have hlack : ["ETHUSDT"].filter
      (lacksData quietPools (100 * 1000) 9223372036854775807 2) = [] := by decide
  have habs : ["ETHUSDT"].filter (isAbsent quietPools) = [] := by decide
  refine ⟨by decide, by decide, ?_⟩
  cases h : (validationResult quietPools 100 ["ETHUSDT"] 9223372036854775807 2).IsError with
  | false => rfl
  | true =>
      rcases hl.2.2.2.mp h with h1 | h1
      · exact absurd habs h1
      · exact absurd hlack h1

/-- A validation without error has found an entry for every requested symbol,
and the requested window starts at or after the oldest timestamp of that entry. -/
theorem validation_passed_covers_window (pools : poolState) (unixNow : Int)
    (symbols : List String) (timeslotDurMS numberOfTimeslots : Int) (symbol : String)
    (hok : (validationResult pools unixNow symbols timeslotDurMS numberOfTimeslots).IsError = false)
    (hmem : symbol ∈ symbols) :
    ∃ entry, pools symbol = some entry ∧
      requestedPeriodStartTimeMS (unixNow * 1000) timeslotDurMS numberOfTimeslots ≥
        entry.LastDealTimestampMS - entry.CapturedPeriodMS := by
  have hl := (validationResult_lists pools unixNow symbols timeslotDurMS numberOfTimeslots).2.2.2
  have hnone : ¬ (symbols.filter (isAbsent pools) ≠ [] ∨
      symbols.filter (lacksData pools (unixNow * 1000) timeslotDurMS numberOfTimeslots) ≠ []) := by
    intro hc
    rw [hl.mpr hc] at hok
    contradiction
  push_neg at hnone
  have h1 : isAbsent pools symbol = false := by
    by_contra hc
    have : symbol ∈ symbols.filter (isAbsent pools) :=
      List.mem_filter.mpr ⟨hmem, by simpa using hc⟩
    rw [hnone.1] at this
    contradiction
  have h2 : lacksData pools (unixNow * 1000) timeslotDurMS numberOfTimeslots symbol = false := by
    by_contra hc
    have : symbol ∈ symbols.filter
        (lacksData pools (unixNow * 1000) timeslotDurMS numberOfTimeslots) :=
      List.mem_filter.mpr ⟨hmem, by simpa using hc⟩
    rw [hnone.2] at this
    contradiction
  cases hp : pools symbol with
  | none => simp [isAbsent, hp] at h1
  | some entry =>
      refine ⟨entry, rfl, ?_⟩
      simp [lacksData, hp] at h2
      omega

/-- Claim C7 (failing input): a request with `numberOfTimeslots = 0` for a
symbol that has an entry passes the validation (the window is empty, so it
starts at `now`, after the oldest trade), and the engine, called with zero
slots, panics on the integer division by `numberOfTimeslots`. -/
theorem getProcessedData_zero_timeslots_panics :
    quietPools "ETHUSDT" = some quietEntry ∧
    (validationResult quietPools 100 ["ETHUSDT"] 30000 0).IsError = false ∧
    ¬ ((0 : Int) ≥ 1) ∧
    getProcessedData amd64Cvt quietPools 100 100 ["ETHUSDT"] 30000 0 = none := by
  have hl := validationResult_lists quietPools 100 ["ETHUSDT"] 30000 0
  have hlack : ["ETHUSDT"].filter (lacksData quietPools (100 * 1000) 30000 0) = [] := by decide
  have habs : ["ETHUSDT"].filter (isAbsent quietPools) = [] := by decide
  have herr : (validationResult quietPools 100 ["ETHUSDT"] 30000 0).IsError = false := by
    cases h : (validationResult quietPools 100 ["ETHUSDT"] 30000 0).IsError with
    | false => rfl
    | true =>
        rcases hl.2.2.2.mp h with h1 | h1
        · exact absurd habs h1
        · exact absurd hlack h1
  refine ⟨by decide, herr, by decide, ?_⟩
  have hq : quietPools "ETHUSDT" = some quietEntry := by decide
  have hstart : requestedPeriodStartTimeMS 100000 30000 0 = 100000 := by decide
  simp [getProcessedData, herr, analyzeSymbols, hq, quietEntry, quietPool, getStatisticData,
    resample, firstIndexFrom, hstart]

/-! ## Scenario S4 and the single slot -/

theorem s4_result_value (cvt : F64 → Int) (unixNow timeslotDurMS : Int)
    (hno : resample unixNow s4Trades timeslotDurMS 3 = s4Trades) :
    getStatisticData cvt unixNow s4Trades timeslotDurMS 3 =
      some [ { BuyVolume := 1, SellVolume := 0, BuyVolumePercentage := 100,
               SellVolumePercentage := 0, PriceChangePercentage := 0, AvgPrice := F64.fin 100 },
             zeroPeriod, zeroPeriod ] := by
  have hd : Int.tdiv 30 3 = 10 := by decide
  unfold getStatisticData
  simp only [hno]
  simp [s4Trades, slotDuration, initLoop, slotLoop, slotStep, accumulate, closeSlot, hd,
    zeroPeriod, roundToInt, mathRound, toInt, F64.div, roundHalfAway]
  norm_num

/-- Claim C8 (as amended): for the four trades of S4 and three slots, with a
clock and a requested slot length that trim nothing, the recomputed slot length
is 10 and the result has three entries, of which slot 0 has `BuyVolume = 1`,
`SellVolume = 0` and `AvgPrice = 100`, the price of the one trade it holds,
and slot 2 is all zero. -/
theorem getStatisticData_scenario_s4 (cvt : F64 → Int) (unixNow timeslotDurMS : Int)
    (hno : resample unixNow s4Trades timeslotDurMS 3 = s4Trades) :
    (∀ first last, s4Trades.head? = some first → s4Trades.getLast? = some last →
      slotDuration first last 3 = 10) ∧
    ∃ r s0, getStatisticData cvt unixNow s4Trades timeslotDurMS 3 = some r ∧ r.length = 3 ∧
      r[0]? = some s0 ∧ s0.BuyVolume = 1 ∧ s0.SellVolume = 0 ∧ s0.AvgPrice = F64.fin 100 ∧
      r[2]? = some zeroPeriod := by
  constructor
  · intro first last hf hl
    simp [s4Trades] at hf hl
    subst hf
    subst hl
    decide
  · exact ⟨_, _, s4_result_value cvt unixNow timeslotDurMS hno, rfl, rfl, rfl, rfl, rfl, rfl⟩

/-- Witness for claim C8 as amended: clock reading 3 s and requested slots of
1000 ms, so that the window starts at time 0. -/
theorem getStatisticData_scenario_s4_witness :
    resample 3 s4Trades 1000 3 = s4Trades ∧
    ∃ r s0, getStatisticData amd64Cvt 3 s4Trades 1000 3 = some r ∧ r.length = 3 ∧
      r[0]? = some s0 ∧ s0.BuyVolume = 1 ∧ s0.SellVolume = 0 ∧ s0.AvgPrice = F64.fin 100 ∧
      r[2]? = some zeroPeriod :=
  ⟨by decide, (getStatisticData_scenario_s4 amd64Cvt 3 1000 (by decide)).2⟩

/-- Claim C8 (counterexample): in scenario S4 slot 1 of the result is all
zero, so it does not have `BuyVolume = 1`: the trade at time 10 closes slot 0
and is accumulated into no slot, and the trade at time 20 closes slot 1. -/
theorem scenario_s4_slot1_is_zero :
    resample 3 s4Trades 1000 3 = s4Trades ∧
    ∃ r, getStatisticData amd64Cvt 3 s4Trades 1000 3 = some r ∧ r[1]? = some zeroPeriod ∧
      ¬ ∃ s1, r[1]? = some s1 ∧ s1.BuyVolume = 1 := by
  refine ⟨by decide, _, s4_result_value amd64Cvt 3 1000 (by decide), rfl, ?_⟩
  rintro ⟨s1, h1, h2⟩
  simp at h1
  subst h1
  simp [zeroPeriod] at h2

/-- Claim C10 (counterexample): one slot, two buy trades of quantity 1 and 2 at
times 0 and 10, nothing trimmed.  The trimmed trades hold a buy volume of 3,
but the single slot of the result has `BuyVolume = 1`: the trade at the last
timestamp closes the slot and is not accumulated. -/
theorem getStatisticData_single_slot_misses_last :
    resample 1 twoBuys 1000 1 = twoBuys ∧
    sideVolume false (resample 1 twoBuys 1000 1) = 3 ∧
    getStatisticData amd64Cvt 1 twoBuys 1000 1 =
      some [ { BuyVolume := 1, SellVolume := 0, BuyVolumePercentage := 100,
               SellVolumePercentage := 0, PriceChangePercentage := 0,
               AvgPrice := F64.fin 100 } ] := by
  have hno : resample 1 twoBuys 1000 1 = twoBuys := by decide
  have hd : Int.tdiv 10 1 = 10 := by decide
  refine ⟨hno, ?_, ?_⟩
  · rw [hno]
    simp [sideVolume, twoBuys]
    norm_num
  · unfold getStatisticData
    simp only [hno]
    simp [twoBuys, slotDuration, initLoop, slotLoop, slotStep, accumulate, closeSlot, hd,
      roundToInt, mathRound, toInt, F64.div, roundHalfAway]
    norm_num

/-! ## The second loop of the engine, step by step -/

theorem accumulate_fields (cvt : F64 → Int) (st st1 : SlotLoop) (trade : AggTrade)
    (h : accumulate cvt st trade = some st1) :
    st1.analyzedData = st.analyzedData ∧
    st1.numberOfCurrentPeriod = st.numberOfCurrentPeriod ∧
    st1.timeslotStartMS = st.timeslotStartMS ∧ st1.timeslotEndMS = st.timeslotEndMS ∧
    st1.sellVolume =
      (if trade.AggIsBuyerMaker = true then st.sellVolume + trade.AggQty else st.sellVolume) ∧
    st1.buyVolume =
      (if trade.AggIsBuyerMaker = false then st.buyVolume + trade.AggQty else st.buyVolume) ∧
    st1.totalAssetCost = st.totalAssetCost + trade.AggQty * trade.AggPrice ∧
    st1.buyVolumePercentage =
      roundToInt cvt
        (F64.div (F64.fin (100 * st1.buyVolume)) (F64.fin (st1.buyVolume + st1.sellVolume))) ∧
    st1.sellVolumePercentage =
      roundToInt cvt
        (F64.div (F64.fin (100 * st1.sellVolume)) (F64.fin (st1.buyVolume + st1.sellVolume))) ∧
    st1.avgPrice =
      F64.div (F64.fin st1.totalAssetCost) (F64.fin (st1.buyVolume + st1.sellVolume)) ∧
    (st.numberOfCurrentPeriod = 0 → st1.priceChangePercentage = st.priceChangePercentage) ∧
    (0 < st.numberOfCurrentPeriod →
      ∃ prev, st.analyzedData[st.numberOfCurrentPeriod - 1]? = some prev ∧
        st1.priceChangePercentage = priceChange cvt st1.avgPrice prev.AvgPrice) := by
  unfold accumulate at h
  simp only at h
  by_cases hpos : st.numberOfCurrentPeriod > 0
  · rw [if_pos hpos] at h
    cases hprev : st.analyzedData[st.numberOfCurrentPeriod - 1]? with
    | none =>
        simp only [hprev] at h
        contradiction
    | some prev =>
        simp only [hprev] at h
        injection h with h
        subst h
        refine ⟨rfl, rfl, rfl, rfl, rfl, rfl, rfl, rfl, rfl, rfl, ?_, ?_⟩
        · intro h0
          omega
        · intro _
          exact ⟨prev, rfl, rfl⟩
  · rw [if_neg hpos] at h
    injection h with h
    subst h
    refine ⟨rfl, rfl, rfl, rfl, rfl, rfl, rfl, rfl, rfl, rfl, fun _ => rfl, ?_⟩
    intro h0
    exact absurd h0 hpos

theorem closeSlot_fields (timeslotDurationMS : Int) (st st1 : SlotLoop)
    (h : closeSlot timeslotDurationMS st = some st1) :
    st.numberOfCurrentPeriod < st.analyzedData.length ∧
    st1.analyzedData = st.analyzedData.set st.numberOfCurrentPeriod (currentPeriod st) ∧
    st1.numberOfCurrentPeriod = st.numberOfCurrentPeriod + 1 ∧
    st1.timeslotStartMS = st.timeslotEndMS ∧
    st1.timeslotEndMS = st.timeslotEndMS + timeslotDurationMS ∧
    st1.buyVolume = 0 ∧ st1.sellVolume = 0 ∧ st1.totalAssetCost = 0 ∧
    st1.buyVolumePercentage = 0 ∧ st1.sellVolumePercentage = 0 ∧
    st1.priceChangePercentage = 0 ∧ st1.avgPrice = F64.fin 0 := by
  unfold closeSlot at h
  split_ifs at h with hlt
  injection h with h
  subst h
  exact ⟨hlt, rfl, rfl, rfl, rfl, rfl, rfl, rfl, rfl, rfl, rfl, rfl⟩

/-- A property kept by both halves of the loop body is kept by the body. -/
theorem slotStep_invariant (cvt : F64 → Int) (timeslotDurationMS : Int) (Inv : SlotLoop → Prop)
    (trade : AggTrade)
    (hacc : ∀ st st1, Inv st → accumulate cvt st trade = some st1 → Inv st1)
    (hclose : ∀ st st1, Inv st → closeSlot timeslotDurationMS st = some st1 → Inv st1)
    (st st1 : SlotLoop) (hinv : Inv st)
    (h : slotStep cvt timeslotDurationMS st trade = some st1) : Inv st1 := by
  unfold slotStep at h
  split at h
  · contradiction
  · rename_i mid hmid
    have hmidInv : Inv mid := by
      split_ifs at hmid
      · exact hacc st mid hinv hmid
      · injection hmid with hmid
        rw [← hmid]
        exact hinv
    split_ifs at h
    · exact hclose mid st1 hmidInv h
    · injection h with h
      rw [← h]
      exact hmidInv

/-- A property kept by the loop body on every trade of the list holds when
the loop ends, if it held at the start. -/
theorem slotLoop_invariant (cvt : F64 → Int) (timeslotDurationMS : Int) (Inv : SlotLoop → Prop)
    (trades : AggTradesList)
    (hstep : ∀ trade ∈ trades, ∀ st st1, Inv st →
      slotStep cvt timeslotDurationMS st trade = some st1 → Inv st1)
    (st0 st : SlotLoop) (h0 : Inv st0)
    (h : slotLoop cvt timeslotDurationMS st0 trades = some st) : Inv st := by
  induction trades generalizing st0 with
  | nil =>
      unfold slotLoop at h
      injection h with h
      rw [← h]
      exact h0
  | cons trade rest ih =>
      unfold slotLoop at h
      split at h
      · contradiction
      · rename_i st1 hst1
        have h1 : Inv st1 := hstep trade (List.mem_cons_self _ _) st0 st1 h0 hst1
        exact ih (fun t ht => hstep t (List.mem_cons_of_mem _ ht)) st1 h1 h

/-- A returning call of the engine ran the second loop to its end on the
resampled list, with a positive number of slots. -/
theorem getStatisticData_some (cvt : F64 → Int) (unixNow : Int) (aggTrades : AggTradesList)
    (timeslotDurMS numberOfTimeslots : Int) (r : analyzedDataOneSymbolByPeriods)
    (h : getStatisticData cvt unixNow aggTrades timeslotDurMS numberOfTimeslots = some r) :
    ∃ first last st,
      (resample unixNow aggTrades timeslotDurMS numberOfTimeslots).head? = some first ∧
      (resample unixNow aggTrades timeslotDurMS numberOfTimeslots).getLast? = some last ∧
      0 < numberOfTimeslots ∧
      slotLoop cvt (slotDuration first last numberOfTimeslots)
        (initLoop first (slotDuration first last numberOfTimeslots) numberOfTimeslots)
        (resample unixNow aggTrades timeslotDurMS numberOfTimeslots) = some st ∧
      st.analyzedData = r := by
  unfold getStatisticData at h
  simp only at h
  split at h
  · rename_i last first hl hf
    split_ifs at h with h0 hneg
    split at h
    · contradiction
    · rename_i st hst
      injection h with h
      exact ⟨first, last, st, hf, hl, by omega, hst, h⟩
  · contradiction

theorem mem_resample (unixNow : Int) (aggTrades : AggTradesList)
    (timeslotDurMS numberOfTimeslots : Int) (t : AggTrade)
    (h : t ∈ resample unixNow aggTrades timeslotDurMS numberOfTimeslots) : t ∈ aggTrades :=
  List.mem_of_mem_drop h

/-! ## The volume percentages -/

theorem percentage_pair_bounds (cvt : F64 → Int) (b v : ℚ) (hb : 0 ≤ b) (hv : 0 ≤ v)
    (hpos : 0 < b + v) :
    100 ≤ roundToInt cvt (F64.div (F64.fin (100 * b)) (F64.fin (b + v))) +
        roundToInt cvt (F64.div (F64.fin (100 * v)) (F64.fin (b + v))) ∧
    roundToInt cvt (F64.div (F64.fin (100 * b)) (F64.fin (b + v))) +
        roundToInt cvt (F64.div (F64.fin (100 * v)) (F64.fin (b + v))) ≤ 101 := by
  have hne : b + v ≠ 0 := ne_of_gt hpos
  rw [div_fin_of_ne _ _ hne, div_fin_of_ne _ _ hne, roundToInt_fin, roundToInt_fin]
  apply roundHalfAway_pair_bounds
  · exact div_nonneg (by linarith) (le_of_lt hpos)
  · exact div_nonneg (by linarith) (le_of_lt hpos)
  · field_simp
    ring

theorem accumulate_percentageInv (cvt : F64 → Int) (trade : AggTrade) (hq : 0 < trade.AggQty)
    (st st1 : SlotLoop) (hinv : PercentageInv st) (h : accumulate cvt st trade = some st1) :
    PercentageInv st1 := by
  obtain ⟨hdata, _, _, _, hs, hb, _, hbp, hsp, _, _, _⟩ := accumulate_fields cvt st st1 trade h
  obtain ⟨ib, is, _, idata⟩ := hinv
  have hb1 : 0 ≤ st1.buyVolume := by
    rw [hb]
    split_ifs <;> linarith
  have hs1 : 0 ≤ st1.sellVolume := by
    rw [hs]
    split_ifs <;> linarith
  have hpos : 0 < st1.buyVolume + st1.sellVolume := by
    rw [hb, hs]
    cases trade.AggIsBuyerMaker <;> simp <;> linarith
  have hbound := percentage_pair_bounds cvt st1.buyVolume st1.sellVolume hb1 hs1 hpos
  rw [← hbp, ← hsp] at hbound
  refine ⟨hb1, hs1, ⟨by omega, hbound.2⟩, ?_⟩
  rw [hdata]
  exact idata

theorem closeSlot_percentageInv (timeslotDurationMS : Int) (st st1 : SlotLoop)
    (hinv : PercentageInv st) (h : closeSlot timeslotDurationMS st = some st1) :
    PercentageInv st1 := by
  obtain ⟨_, hdata, _, _, _, hb, hs, _, hbp, hsp, _, _⟩ := closeSlot_fields timeslotDurationMS st st1 h
  obtain ⟨_, _, ipct, idata⟩ := hinv
  refine ⟨by rw [hb], by rw [hs], by rw [hbp, hsp]; decide, ?_⟩
  intro e he
  rw [hdata] at he
  rcases List.mem_or_eq_of_mem_set he with hmem | heq
  · exact idata e hmem
  · rw [heq]
    exact ipct

theorem initLoop_percentageInv (first : AggTrade) (timeslotDurationMS numberOfTimeslots : Int) :
    PercentageInv (initLoop first timeslotDurationMS numberOfTimeslots) := by
  refine ⟨le_refl _, le_refl _, ⟨?_, ?_⟩, ?_⟩
  · show (0 : Int) ≤ 0 + 0
    decide
  · show (0 : Int) + 0 ≤ 101
    decide
  intro e he
  have := List.eq_of_mem_replicate he
  rw [this]
  exact ⟨by decide, by decide⟩

/-- Claim C4 (as amended): when every trade has a strictly positive quantity
and the engine returns, every entry of the result satisfies
`0 <= BuyVolumePercentage + SellVolumePercentage <= 101`. -/
theorem getStatisticData_percentages_bounded (cvt : F64 → Int) (unixNow : Int)
    (aggTrades : AggTradesList) (timeslotDurMS numberOfTimeslots : Int)
    (r : analyzedDataOneSymbolByPeriods)
    (hq : ∀ t ∈ aggTrades, 0 < t.AggQty)
    (hr : getStatisticData cvt unixNow aggTrades timeslotDurMS numberOfTimeslots = some r) :
    ∀ e ∈ r, 0 ≤ e.BuyVolumePercentage + e.SellVolumePercentage ∧
      e.BuyVolumePercentage + e.SellVolumePercentage ≤ 101 := by
  obtain ⟨first, last, st, _, _, _, hloop, hdata⟩ :=
    getStatisticData_some cvt unixNow aggTrades timeslotDurMS numberOfTimeslots r hr
  have hinv : PercentageInv st := by
    refine slotLoop_invariant cvt _ PercentageInv _ ?_ _ st
      (initLoop_percentageInv first _ numberOfTimeslots) hloop
    intro trade htrade
    apply slotStep_invariant
    · exact accumulate_percentageInv cvt trade
        (hq trade (mem_resample unixNow aggTrades timeslotDurMS numberOfTimeslots trade htrade))
    · exact closeSlot_percentageInv _
  intro e he
  rw [← hdata] at he
  exact hinv.2.2.2 e he

/-- Witness for claim C4 as amended: the trades of scenario S4. -/
theorem getStatisticData_percentages_bounded_witness :
    (∀ t ∈ s4Trades, 0 < t.AggQty) ∧
    ∃ r, getStatisticData amd64Cvt 3 s4Trades 1000 3 = some r ∧
      ∀ e ∈ r, 0 ≤ e.BuyVolumePercentage + e.SellVolumePercentage ∧
        e.BuyVolumePercentage + e.SellVolumePercentage ≤ 101 := by
  have hq : ∀ t ∈ s4Trades, 0 < t.AggQty := by
    intro t ht
    simp [s4Trades] at ht
    rcases ht with h | h | h | h <;> rw [h] <;> norm_num
  exact ⟨hq, _, s4_result_value amd64Cvt 3 1000 (by decide),
    getStatisticData_percentages_bounded amd64Cvt 3 s4Trades 1000 3 _ hq
      (s4_result_value amd64Cvt 3 1000 (by decide))⟩

theorem getStatisticData_zero_quantity_value (cvt : F64 → Int) :
    getStatisticData cvt 1 zeroQuantityTrades 1000 1 =
      some [ { BuyVolume := 0, SellVolume := 0, BuyVolumePercentage := cvt F64.nan,
               SellVolumePercentage := cvt F64.nan, PriceChangePercentage := 0,
               AvgPrice := F64.nan } ] := by
  have hno : resample 1 zeroQuantityTrades 1000 1 = zeroQuantityTrades := by decide
  have hd : Int.tdiv 1000 1 = 1000 := by decide
  unfold getStatisticData
  simp only [hno]
  simp [zeroQuantityTrades, slotDuration, initLoop, slotLoop, slotStep, accumulate, closeSlot, hd,
    roundToInt, mathRound, toInt, F64.div]

/-- Claim C4 (counterexample): a trade of quantity zero is the only one that
falls into the slot.  The quantities are not negative, the prices positive, the
list ascending, and the window starts at the first trade; both percentages are
the conversion of `NaN` to `int`, which on amd64 is the smallest `int64`, so
their sum is negative. -/
theorem getStatisticData_zero_quantity_percentages :
    (∀ t ∈ zeroQuantityTrades, 0 ≤ t.AggQty ∧ 0 < t.AggPrice) ∧
    TimeSorted zeroQuantityTrades ∧
    resample 1 zeroQuantityTrades 1000 1 = zeroQuantityTrades ∧
    ∃ r e, getStatisticData amd64Cvt 1 zeroQuantityTrades 1000 1 = some r ∧ e ∈ r ∧
      e.BuyVolumePercentage + e.SellVolumePercentage < 0 := by
  refine ⟨?_, by decide, by decide, _, _, getStatisticData_zero_quantity_value amd64Cvt,
    List.mem_singleton.mpr rfl, by decide⟩
  intro t ht
  simp [zeroQuantityTrades] at ht
  rcases ht with h | h <;> rw [h] <;> norm_num

/-! ## The length of the result -/

theorem getStatisticData_length (cvt : F64 → Int) (unixNow : Int) (aggTrades : AggTradesList)
    (timeslotDurMS numberOfTimeslots : Int) (r : analyzedDataOneSymbolByPeriods)
    (hr : getStatisticData cvt unixNow aggTrades timeslotDurMS numberOfTimeslots = some r) :
    0 < numberOfTimeslots ∧ r.length = numberOfTimeslots.toNat := by
  obtain ⟨first, last, st, _, _, hpos, hloop, hdata⟩ :=
    getStatisticData_some cvt unixNow aggTrades timeslotDurMS numberOfTimeslots r hr
  refine ⟨hpos, ?_⟩
  have hinv : st.analyzedData.length = numberOfTimeslots.toNat := by
    refine slotLoop_invariant cvt _ (fun s => s.analyzedData.length = numberOfTimeslots.toNat) _ ?_
      _ st (by simp [initLoop]) hloop
    intro trade _
    apply slotStep_invariant
    · intro s s1 hs h
      rw [(accumulate_fields cvt s s1 trade h).1]
      exact hs
    · intro s s1 hs h
      rw [(closeSlot_fields _ s s1 h).2.1, List.length_set]
      exact hs
  rw [← hdata]
  exact hinv

/-! ## The price change -/

theorem priceChange_fin (cvt : F64 → Int) (a b : ℚ) (hb : b ≠ 0) :
    priceChange cvt (F64.fin a) (F64.fin b) = roundHalfAway (100 * (a - b) / b) := by
  unfold priceChange
  show roundToInt cvt (F64.div (F64.fin (100 * (a - b))) (F64.fin b)) = _
  rw [div_fin_of_ne _ _ hb, roundToInt_fin]

theorem accumulate_priceChangeInv (cvt : F64 → Int) (trade : AggTrade) (st st1 : SlotLoop)
    (hinv : PriceChangeInv cvt st) (h : accumulate cvt st trade = some st1) :
    PriceChangeInv cvt st1 := by
  obtain ⟨hdata, hcur, _, _, _, _, _, _, _, _, hpc0, hpc⟩ := accumulate_fields cvt st st1 trade h
  obtain ⟨i1, i2, i3, i4, _⟩ := hinv
  refine ⟨?_, ?_, ?_, ?_, ?_⟩
  · rw [hdata]
    exact i1
  · intro h0
    rw [hcur] at h0
    rw [hpc0 h0]
    exact i2 h0
  · rw [hdata, hcur]
    exact i3
  · rw [hdata]
    exact i4
  · intro p hpos hp _
    rw [hcur] at hpos hp
    rw [hdata] at hp
    obtain ⟨prev, hprev, hval⟩ := hpc hpos
    rw [hprev] at hp
    injection hp with hp
    rw [← hp]
    exact hval

theorem closeSlot_priceChangeInv (cvt : F64 → Int) (timeslotDurationMS : Int) (st st1 : SlotLoop)
    (hinv : PriceChangeInv cvt st) (h : closeSlot timeslotDurationMS st = some st1) :
    PriceChangeInv cvt st1 := by
  obtain ⟨hlt, hdata, hcur, _, _, hb, hs, _, _, _, hpc, _⟩ :=
    closeSlot_fields timeslotDurationMS st st1 h
  obtain ⟨i1, i2, i3, i4, i5⟩ := hinv
  refine ⟨?_, ?_, ?_, ?_, ?_⟩
  · intro e he
    rw [hdata, List.getElem?_set] at he
    split_ifs at he with h0
    · injection he with he
      rw [← he]
      exact i2 h0
    · exact i1 e he
  · intro h0
    omega
  · intro j e hj he
    rw [hcur] at hj
    rw [hdata, List.getElem?_set_ne (by omega)] at he
    exact i3 j e (by omega) he
  · intro j p e hp he hvol
    rw [hdata] at hp he
    by_cases hj : j + 1 = st.numberOfCurrentPeriod
    · rw [List.getElem?_set_ne (by omega)] at hp
      rw [← hj, List.getElem?_set_self (by omega)] at he
      injection he with he
      rw [← he] at hvol ⊢
      have hp1 : st.analyzedData[st.numberOfCurrentPeriod - 1]? = some p := by
        rw [← hj]
        exact hp
      exact i5 p (by omega) hp1 hvol
    · rw [List.getElem?_set_ne (by omega)] at he
      by_cases hj0 : j = st.numberOfCurrentPeriod
      · have hz := i3 (j + 1) e (by omega) he
        rw [hz] at hvol
        exact absurd (by norm_num [zeroPeriod]) hvol
      · rw [List.getElem?_set_ne (fun hc => hj0 hc.symm)] at hp
        exact i4 j p e hp he hvol
  · intro p _ _ hvol
    rw [hb, hs] at hvol
    exact absurd (by norm_num) hvol

theorem initLoop_priceChangeInv (cvt : F64 → Int) (first : AggTrade)
    (timeslotDurationMS numberOfTimeslots : Int) :
    PriceChangeInv cvt (initLoop first timeslotDurationMS numberOfTimeslots) := by
  have hz : ∀ (j : Nat) (e : analyzedDataOneSymbolOnePeriod),
      (initLoop first timeslotDurationMS numberOfTimeslots).analyzedData[j]? = some e →
      e = zeroPeriod := by
    intro j e he
    exact List.eq_of_mem_replicate (List.getElem?_mem he)
  refine ⟨?_, fun _ => rfl, fun j e _ he => hz j e he, ?_, ?_⟩
  · intro e he
    rw [hz 0 e he]
    rfl
  · intro j p e _ he hvol
    rw [hz (j + 1) e he] at hvol
    exact absurd (by norm_num [zeroPeriod]) hvol
  · intro p hpos
    exact absurd hpos (by simp [initLoop])

theorem accumulate_avgPriceInv (cvt : F64 → Int) (trade : AggTrade)
    (hq : 0 ≤ trade.AggQty) (hp : 0 < trade.AggPrice) (st st1 : SlotLoop)
    (hinv : AvgPriceInv st) (h : accumulate cvt st trade = some st1) : AvgPriceInv st1 := by
  obtain ⟨hdata, _, _, _, hs, hb, hcost, _, _, havg, _, _⟩ := accumulate_fields cvt st st1 trade h
  obtain ⟨ib, is, ic, icost, idata⟩ := hinv
  have hb1 : 0 ≤ st1.buyVolume := by
    rw [hb]
    split_ifs <;> linarith
  have hs1 : 0 ≤ st1.sellVolume := by
    rw [hs]
    split_ifs <;> linarith
  have hsum : st1.buyVolume + st1.sellVolume = st.buyVolume + st.sellVolume + trade.AggQty := by
    rw [hb, hs]
    cases trade.AggIsBuyerMaker <;> simp <;> ring
  have hqp : 0 ≤ trade.AggQty * trade.AggPrice := mul_nonneg hq (le_of_lt hp)
  refine ⟨hb1, hs1, by rw [hcost]; linarith, ?_, ?_⟩
  · intro hvol
    refine ⟨?_, ?_⟩
    · rw [hcost]
      by_cases hold : st.buyVolume + st.sellVolume = 0
      · have hqpos : 0 < trade.AggQty := by
          rcases lt_or_eq_of_le hq with hlt | heq
          · exact hlt
          · exfalso
            apply hvol
            rw [hsum, hold, ← heq]
            norm_num
        have := mul_pos hqpos hp
        linarith
      · have := (icost hold).1
        linarith
    · rw [havg, div_fin_of_ne _ _ hvol]
  · rw [hdata]
    exact idata

theorem closeSlot_avgPriceInv (timeslotDurationMS : Int) (st st1 : SlotLoop)
    (hinv : AvgPriceInv st) (h : closeSlot timeslotDurationMS st = some st1) :
    AvgPriceInv st1 := by
  obtain ⟨_, hdata, _, _, _, hb, hs, hcost, _, _, _, _⟩ :=
    closeSlot_fields timeslotDurationMS st st1 h
  obtain ⟨ib, is, _, icost, idata⟩ := hinv
  refine ⟨by rw [hb], by rw [hs], by rw [hcost], ?_, ?_⟩
  · intro hvol
    rw [hb, hs] at hvol
    exact absurd (by norm_num) hvol
  · intro e he hvol
    rw [hdata] at he
    rcases List.mem_or_eq_of_mem_set he with hmem | heq
    · exact idata e hmem hvol
    · rw [heq] at hvol ⊢
      have hvol1 : st.buyVolume + st.sellVolume ≠ 0 := hvol
      obtain ⟨hc, havg⟩ := icost hvol1
      have hpos : 0 < st.buyVolume + st.sellVolume :=
        lt_of_le_of_ne (by linarith) (Ne.symm hvol1)
      exact ⟨_, div_pos hc hpos, havg⟩

theorem initLoop_avgPriceInv (first : AggTrade) (timeslotDurationMS numberOfTimeslots : Int) :
    AvgPriceInv (initLoop first timeslotDurationMS numberOfTimeslots) := by
  refine ⟨le_refl _, le_refl _, le_refl _, ?_, ?_⟩
  · intro hvol
    exact absurd (by norm_num [initLoop]) hvol
  · intro e he hvol
    rw [List.eq_of_mem_replicate he] at hvol
    exact absurd (by norm_num [zeroPeriod]) hvol

/-- The price change in the exact-rational model, where no float operation
rounds: when the quantities are not negative, the prices are positive
and the engine returns, slot 0 of the result has `PriceChangePercentage = 0`,
and for every index `k > 0` at which slot `k` and slot `k - 1` both have a
non-zero volume, the two average prices are finite numbers `a` and `b` with
`b > 0`, and `PriceChangePercentage` of slot `k` is `100 * (a - b) / b` rounded
half away from zero. -/
theorem getStatisticData_price_change (cvt : F64 → Int) (unixNow : Int)
    (aggTrades : AggTradesList) (timeslotDurMS numberOfTimeslots : Int)
    (r : analyzedDataOneSymbolByPeriods)
    (hq : ∀ t ∈ aggTrades, 0 ≤ t.AggQty) (hp : ∀ t ∈ aggTrades, 0 < t.AggPrice)
    (hr : getStatisticData cvt unixNow aggTrades timeslotDurMS numberOfTimeslots = some r) :
    (∃ e, r[0]? = some e ∧ e.PriceChangePercentage = 0) ∧
    ∀ k cur prev, 0 < k → r[k]? = some cur → r[k - 1]? = some prev →
      cur.BuyVolume + cur.SellVolume ≠ 0 → prev.BuyVolume + prev.SellVolume ≠ 0 →
      ∃ a b : ℚ, cur.AvgPrice = F64.fin a ∧ prev.AvgPrice = F64.fin b ∧ 0 < b ∧
        cur.PriceChangePercentage = roundHalfAway (100 * (a - b) / b) := by
  obtain ⟨hn, hlen⟩ :=
    getStatisticData_length cvt unixNow aggTrades timeslotDurMS numberOfTimeslots r hr
  obtain ⟨first, last, st, _, _, _, hloop, hdata⟩ :=
    getStatisticData_some cvt unixNow aggTrades timeslotDurMS numberOfTimeslots r hr
  have hpc : PriceChangeInv cvt st := by
    refine slotLoop_invariant cvt _ (PriceChangeInv cvt) _ ?_ _ st
      (initLoop_priceChangeInv cvt first _ numberOfTimeslots) hloop
    intro trade _
    apply slotStep_invariant
    · exact accumulate_priceChangeInv cvt trade
    · exact closeSlot_priceChangeInv cvt _
  have havg : AvgPriceInv st := by
    refine slotLoop_invariant cvt _ AvgPriceInv _ ?_ _ st
      (initLoop_avgPriceInv first _ numberOfTimeslots) hloop
    intro trade htrade
    have hmem := mem_resample unixNow aggTrades timeslotDurMS numberOfTimeslots trade htrade
    apply slotStep_invariant
    · exact accumulate_avgPriceInv cvt trade (hq trade hmem) (hp trade hmem)
    · exact closeSlot_avgPriceInv _
  obtain ⟨p1, _, _, p4, _⟩ := hpc
  obtain ⟨_, _, _, _, a4⟩ := havg
  rw [hdata] at p1 p4 a4
  constructor
  · have h0 : 0 < r.length := by
      rw [hlen]
      omega
    exact ⟨r[0], List.getElem?_eq_getElem h0, p1 _ (List.getElem?_eq_getElem h0)⟩
  · intro k cur prev hk hcur hprev hvc hvp
    obtain ⟨a, _, ha⟩ := a4 cur (List.getElem?_mem hcur) hvc
    obtain ⟨b, hb, hbv⟩ := a4 prev (List.getElem?_mem hprev) hvp
    have hk1 : k - 1 + 1 = k := by omega
    have hcur1 : r[k - 1 + 1]? = some cur := by
      rw [hk1]
      exact hcur
    have := p4 (k - 1) prev cur hprev hcur1 hvc
    rw [ha, hbv, priceChange_fin cvt a b (ne_of_gt hb)] at this
    exact ⟨a, b, ha, hbv, hb, this⟩

theorem getStatisticData_drift_value (cvt : F64 → Int) :
    getStatisticData cvt 3 driftTrades 1000 3 =
      some [ { BuyVolume := 1, SellVolume := 0, BuyVolumePercentage := 100,
               SellVolumePercentage := 0, PriceChangePercentage := 0, AvgPrice := F64.fin 100 },
             { BuyVolume := 0, SellVolume := 2, BuyVolumePercentage := 0,
               SellVolumePercentage := 100, PriceChangePercentage := 10,
               AvgPrice := F64.fin 110 },
             zeroPeriod ] := by
  have hno : resample 3 driftTrades 1000 3 = driftTrades := by decide
  have hd : Int.tdiv 30 3 = 10 := by decide
  unfold getStatisticData
  simp only [hno]
  simp [driftTrades, slotDuration, initLoop, slotLoop, slotStep, accumulate, closeSlot, hd,
    zeroPeriod, roundToInt, mathRound, toInt, F64.div, F64.mul, F64.sub, roundHalfAway]
  norm_num

/-- An instance in the exact-rational model: slots 0 and 1 both receive a
trade, at average prices 100 and 110, and slot 1 has the price change of
`100 * (110 - 100) / 100`. -/
theorem getStatisticData_price_change_witness :
    (∀ t ∈ driftTrades, 0 ≤ t.AggQty) ∧ (∀ t ∈ driftTrades, 0 < t.AggPrice) ∧
    ∃ r cur prev, getStatisticData amd64Cvt 3 driftTrades 1000 3 = some r ∧
      r[1]? = some cur ∧ r[0]? = some prev ∧
      cur.BuyVolume + cur.SellVolume ≠ 0 ∧ prev.BuyVolume + prev.SellVolume ≠ 0 ∧
      ∃ a b : ℚ, cur.AvgPrice = F64.fin a ∧ prev.AvgPrice = F64.fin b ∧ 0 < b ∧
        cur.PriceChangePercentage = roundHalfAway (100 * (a - b) / b) := by
  have hq : ∀ t ∈ driftTrades, 0 ≤ t.AggQty := by
    intro t ht
    simp [driftTrades] at ht
    rcases ht with h | h | h | h | h <;> rw [h] <;> norm_num
  have hp : ∀ t ∈ driftTrades, 0 < t.AggPrice := by
    intro t ht
    simp [driftTrades] at ht
    rcases ht with h | h | h | h | h <;> rw [h] <;> norm_num
  have hval := getStatisticData_drift_value amd64Cvt
  have hvc : (0 : ℚ) + 2 ≠ 0 := by norm_num
  have hvp : (1 : ℚ) + 0 ≠ 0 := by norm_num
  exact ⟨hq, hp, _, _, _, hval, rfl, rfl, hvc, hvp,
    (getStatisticData_price_change amd64Cvt 3 driftTrades 1000 3 _ hq hp hval).2 1 _ _
      (by decide) rfl rfl hvc hvp⟩

/-! ## Aggregator -/

/-- Claim C11: for a report without error one step of the aggregator keeps it
running with a map whose entry for `report.Symbol` is that report and whose
other entries are those of the map before; for a report with an error the step
halts with the message of the error and the map as it was. -/
theorem aggregatorStep_spec (pools : String → Option poolStateForSymbol)
    (report : poolStateForSymbol) :
    (report.error = none →
      ∃ pools1, aggregatorStep pools report = AggregatorResult.running pools1 ∧
        pools1 report.Symbol = some report ∧
        ∀ symbol, symbol ≠ report.Symbol → pools1 symbol = pools symbol) ∧
    (∀ e, report.error = some e →
      aggregatorStep pools report = AggregatorResult.halted e pools) := by
  constructor
  · intro h
    have hrun : aggregatorStep pools report =
        AggregatorResult.running
          (fun symbol => if symbol = report.Symbol then some report else pools symbol) := by
      simp only [aggregatorStep, h]
    refine ⟨_, hrun, by simp, ?_⟩
    intro symbol hne
    simp [hne]
  · intro e h
    simp only [aggregatorStep, h]

/-- Last writer wins: after a sequence of reports without error the entry of
a symbol is the last report received for it, and the entry of before when no
report was for it. -/
theorem keepGeneralPoolUpToDate_last_wins (reports : List poolStateForSymbol)
    (pools : String → Option poolStateForSymbol) (hok : ∀ r ∈ reports, r.error = none) :
    ∃ pools1, keepGeneralPoolUpToDate pools reports = AggregatorResult.running pools1 ∧
      ∀ symbol, pools1 symbol =
        match reports.reverse.find? (fun r => r.Symbol == symbol) with
        | some r => some r
        | none => pools symbol := by
  induction reports generalizing pools with
  | nil => exact ⟨pools, rfl, fun _ => rfl⟩
  | cons report rest ih =>
      have h0 : report.error = none := hok report (List.mem_cons_self _ _)
      obtain ⟨pools1, hrun, hval⟩ :=
        ih (fun symbol => if symbol = report.Symbol then some report else pools symbol)
          (fun r hr => hok r (List.mem_cons_of_mem _ hr))
      refine ⟨pools1, ?_, ?_⟩
      · simp only [keepGeneralPoolUpToDate, aggregatorStep, h0]
        exact hrun
      · intro symbol
        rw [hval symbol, List.reverse_cons, List.find?_append]
        cases hfind : rest.reverse.find? (fun r => r.Symbol == symbol) with
        | some r => simp
        | none =>
            by_cases hs : symbol = report.Symbol
            · simp [hs]
            · have hs1 : ¬ report.Symbol = symbol := fun hc => hs hc.symm
              simp [hs, hs1]


/-! ## The recomputed slot length -/

theorem timeSorted_resample (unixNow : Int) (aggTrades : AggTradesList)
    (timeslotDurMS numberOfTimeslots : Int) (hs : TimeSorted aggTrades) :
    TimeSorted (resample unixNow aggTrades timeslotDurMS numberOfTimeslots) :=
  List.Pairwise.sublist (List.drop_sublist _ _) hs

theorem head_le_last_of_sorted (trades : AggTradesList) (first last : AggTrade)
    (hs : TimeSorted trades) (hf : trades.head? = some first)
    (hl : trades.getLast? = some last) : first.AggTime ≤ last.AggTime := by
  cases trades with
  | nil => simp at hf
  | cons t rest =>
      simp only [List.head?_cons, Option.some.injEq] at hf
      subst hf
      cases rest with
      | nil =>
          simp only [List.getLast?_singleton, Option.some.injEq] at hl
          subst hl
          exact le_refl _
      | cons u more =>
          rw [List.getLast?_cons_cons] at hl
          have hmem : last ∈ u :: more := List.mem_of_mem_getLast? hl
          exact (List.pairwise_cons.mp hs).1 last hmem

theorem tdiv_tiles (total n : Int) (ht : 0 ≤ total) (hn : 1 ≤ n) :
    n * Int.tdiv total n ≤ total ∧ total < n * Int.tdiv total n + n ∧
    (n * Int.tdiv total n = total ↔ n ∣ total) := by
  rw [Int.tdiv_eq_ediv ht (by omega)]
  have h1 := Int.ediv_add_emod total n
  have h2 := Int.emod_nonneg total (show n ≠ 0 by omega)
  have h3 := Int.emod_lt_of_pos total (show 0 < n by omega)
  refine ⟨by linarith, by linarith, ?_⟩
  constructor
  · intro h
    apply Int.dvd_of_emod_eq_zero
    linarith
  · intro h
    exact Int.mul_ediv_cancel' h

/-- Claim C12 (as amended): for a list weakly ascending in `AggTime`, trimmed
as the engine trims it, and `numberOfTimeslots >= 1`, the recomputed slot
length is the integer quotient of the observed range: `numberOfTimeslots`
slots cover the range up to a remainder smaller than `numberOfTimeslots`, and
they tile it exactly if and only if `numberOfTimeslots` divides the range. -/
theorem slotDuration_tiles_up_to_remainder (unixNow : Int) (aggTrades : AggTradesList)
    (timeslotDurMS numberOfTimeslots : Int) (first last : AggTrade)
    (hs : TimeSorted aggTrades) (hn : 1 ≤ numberOfTimeslots)
    (hf : (resample unixNow aggTrades timeslotDurMS numberOfTimeslots).head? = some first)
    (hl : (resample unixNow aggTrades timeslotDurMS numberOfTimeslots).getLast? = some last) :
    numberOfTimeslots * slotDuration first last numberOfTimeslots ≤
      last.AggTime - first.AggTime ∧
    last.AggTime - first.AggTime <
      numberOfTimeslots * slotDuration first last numberOfTimeslots + numberOfTimeslots ∧
    (numberOfTimeslots * slotDuration first last numberOfTimeslots =
        last.AggTime - first.AggTime ↔
      numberOfTimeslots ∣ last.AggTime - first.AggTime) := by
  have hle := head_le_last_of_sorted _ first last
    (timeSorted_resample unixNow aggTrades timeslotDurMS numberOfTimeslots hs) hf hl
  exact tdiv_tiles (last.AggTime - first.AggTime) numberOfTimeslots (by omega) hn

/-- Witness for claim C12 as amended: the trades at times 0 and 10 and three slots. -/
theorem slotDuration_tiles_up_to_remainder_witness :
    TimeSorted twoBuys ∧ (1 : Int) ≤ 3 ∧
    (resample 3 twoBuys 1000 3).head? =
      some { AggTradeId := 1, AggTime := 0, AggQty := 1, AggPrice := 100,
             AggIsBuyerMaker := false } ∧
    (resample 3 twoBuys 1000 3).getLast? =
      some { AggTradeId := 2, AggTime := 10, AggQty := 2, AggPrice := 100,
             AggIsBuyerMaker := false } ∧
    (3 : Int) * slotDuration
        { AggTradeId := 1, AggTime := 0, AggQty := 1, AggPrice := 100, AggIsBuyerMaker := false }
        { AggTradeId := 2, AggTime := 10, AggQty := 2, AggPrice := 100, AggIsBuyerMaker := false }
        3 ≤ 10 - 0 :=
  ⟨by decide, by decide, by decide, by decide,
    (slotDuration_tiles_up_to_remainder 3 twoBuys 1000 3 _ _ (by decide) (by decide)
      (by decide) (by decide)).1⟩

/-- Claim C12 (counterexample): the trimmed list holds the trades at times 0
and 10 and three slots are requested; the recomputed slot length is 3, and
three slots of 3 ms end at time 9, before the last trade. -/
theorem slotDuration_leaves_remainder :
    TimeSorted twoBuys ∧ resample 3 twoBuys 1000 3 = twoBuys ∧
    ∃ first last, twoBuys.head? = some first ∧ twoBuys.getLast? = some last ∧
      slotDuration first last 3 = 3 ∧
      (3 : Int) * slotDuration first last 3 ≠ last.AggTime - first.AggTime := by
  refine ⟨by decide, by decide, _, _, rfl, rfl, by decide, by decide⟩


/-! ## Trimming to the requested period -/

theorem firstIndexFrom_eq_outdatedCount (cutoff : Int) (trades : AggTradesList) (i : Nat)
    (h : ∃ t ∈ trades, t.AggTime ≥ cutoff) :
    firstIndexFrom cutoff trades i = outdatedCount cutoff trades i := by
  induction trades generalizing i with
  | nil =>
      obtain ⟨t, ht, _⟩ := h
      simp at ht
  | cons u rest ih =>
      unfold firstIndexFrom outdatedCount
      by_cases hu : u.AggTime ≥ cutoff
      · rw [if_pos hu, if_pos hu]
      · rw [if_neg hu, if_neg hu]
        apply ih
        obtain ⟨t, ht, hge⟩ := h
        rcases List.mem_cons.mp ht with heq | hmem
        · rw [heq] at hge
          exact absurd hge hu
        · exact ⟨t, hmem, hge⟩

theorem firstIndexFrom_of_all_older (cutoff : Int) (trades : AggTradesList) (i : Nat)
    (h : ∀ t ∈ trades, t.AggTime < cutoff) : firstIndexFrom cutoff trades i = 0 := by
  induction trades generalizing i with
  | nil => rfl
  | cons u rest ih =>
      unfold firstIndexFrom
      have hu : ¬ u.AggTime ≥ cutoff := by
        have := h u (List.mem_cons_self _ _)
        omega
      rw [if_neg hu]
      exact ih (i + 1) (fun t ht => h t (List.mem_cons_of_mem _ ht))

/-- When some trade lies at or after the start of the requested period, the
engine keeps exactly the trades at or after that start. -/
theorem resample_of_covered (unixNow : Int) (aggTrades : AggTradesList)
    (timeslotDurMS numberOfTimeslots : Int) (hs : TimeSorted aggTrades)
    (h : ∃ t ∈ aggTrades,
      t.AggTime ≥ requestedPeriodStartTimeMS (unixNow * 1000) timeslotDurMS numberOfTimeslots) :
    resample unixNow aggTrades timeslotDurMS numberOfTimeslots =
      aggTrades.filter
        (fun x => decide (x.AggTime ≥
          requestedPeriodStartTimeMS (unixNow * 1000) timeslotDurMS numberOfTimeslots)) ∧
    ∀ t ∈ resample unixNow aggTrades timeslotDurMS numberOfTimeslots,
      t.AggTime ≥ requestedPeriodStartTimeMS (unixNow * 1000) timeslotDurMS numberOfTimeslots := by
  have heq : resample unixNow aggTrades timeslotDurMS numberOfTimeslots =
      aggTrades.filter
        (fun x => decide (x.AggTime ≥
          requestedPeriodStartTimeMS (unixNow * 1000) timeslotDurMS numberOfTimeslots)) := by
    unfold resample
    rw [firstIndexFrom_eq_outdatedCount _ _ _ h]
    exact (drop_outdatedCount _ aggTrades hs).1
  refine ⟨heq, ?_⟩
  intro t ht
  rw [heq] at ht
  simpa using (List.mem_filter.mp ht).2

/-- When every trade is older than the start of the requested period, the
engine trims nothing. -/
theorem resample_of_all_older (unixNow : Int) (aggTrades : AggTradesList)
    (timeslotDurMS numberOfTimeslots : Int)
    (h : ∀ t ∈ aggTrades,
      t.AggTime < requestedPeriodStartTimeMS (unixNow * 1000) timeslotDurMS numberOfTimeslots) :
    resample unixNow aggTrades timeslotDurMS numberOfTimeslots = aggTrades := by
  unfold resample
  rw [firstIndexFrom_of_all_older _ _ _ h]
  rfl

/-- Claim C13 (failing input): a pool whose last trade is older than the start
of the requested period.  The pool is not empty and ascending, and the window
starts after its first trade; the first loop ends without `break`, nothing is
trimmed, the slot range starts at the first trade of the pool, and that trade,
at time 40000 and before the start 99000, is the one accumulated into the slot
of the result. -/
theorem getStatisticData_keeps_stale_trades :
    quietPool ≠ [] ∧ TimeSorted quietPool ∧
    (∀ t ∈ quietPool, t.AggTime < (100 : Int) * 1000 - 1000 * 1) ∧
    resample 100 quietPool 1000 1 = quietPool ∧
    getStatisticData amd64Cvt 100 quietPool 1000 1 =
      some [ { BuyVolume := 1, SellVolume := 0, BuyVolumePercentage := 100,
               SellVolumePercentage := 0, PriceChangePercentage := 0,
               AvgPrice := F64.fin 100 } ] := by
  have hno : resample 100 quietPool 1000 1 = quietPool := by decide
  have hd : Int.tdiv 10000 1 = 10000 := by decide
  refine ⟨by decide, by decide, ?_, hno, ?_⟩
  · intro t ht
    simp [quietPool] at ht
    rcases ht with h | h <;> rw [h] <;> decide
  · unfold getStatisticData
    simp only [hno]
    simp [quietPool, slotDuration, initLoop, slotLoop, slotStep, accumulate, closeSlot, hd,
      roundToInt, mathRound, toInt, F64.div, roundHalfAway]
    norm_num


/-! ## Forward fill -/

theorem dynamicDelayMS_defined (pool : AggTradesList) : ∃ delay, dynamicDelayMS pool = some delay := by
  unfold dynamicDelayMS
  by_cases h : pool.length > RecordsCountPerRequest
  · have h1 : pool.length - 1 < pool.length := by omega
    have h2 : pool.length - 1 - RecordsCountPerRequest < pool.length := by omega
    simp only [if_pos h, List.getElem?_eq_getElem h1, List.getElem?_eq_getElem h2]
    exact ⟨_, rfl⟩
  · rw [if_neg h]
    exact ⟨0, rfl⟩

theorem addRecentRecords_skipped (symbol : String) (currentTimeMS : Int)
    (askNew : Int → ClientResponse) (st : KeeperState)
    (h : currentTimeMS ≤ st.expirationTimeMS) :
    addRecentRecords symbol currentTimeMS askNew st = Outcome.next st := by
  unfold addRecentRecords
  rw [if_neg (by omega)]

theorem addRecentRecords_fetched (symbol : String) (currentTimeMS : Int)
    (askNew : Int → ClientResponse) (st : KeeperState) (last : AggTrade)
    (hl : st.aggTradesPoolForSelectedPeriod.getLast? = some last)
    (h : currentTimeMS > st.expirationTimeMS) :
    (∀ e, responseError (askNew (last.AggTradeId + 1)) = some e →
      addRecentRecords symbol currentTimeMS askNew st = Outcome.stop (errorReport symbol e)) ∧
    (responseError (askNew (last.AggTradeId + 1)) = none →
      ∃ st1, addRecentRecords symbol currentTimeMS askNew st = Outcome.next st1 ∧
        st1.aggTradesPoolForSelectedPeriod =
          st.aggTradesPoolForSelectedPeriod ++ (askNew (last.AggTradeId + 1)).trades ∧
        st1.allowAddEarlyRecords = st.allowAddEarlyRecords) := by
  constructor
  · intro e he
    unfold addRecentRecords
    simp only [if_pos h, hl, he]
  · intro hnone
    unfold addRecentRecords
    simp only [if_pos h, hl, hnone]
    split_ifs with hshort
    · obtain ⟨delay, hdelay⟩ := dynamicDelayMS_defined
        (st.aggTradesPoolForSelectedPeriod ++ (askNew (last.AggTradeId + 1)).trades)
      simp only [hdelay]
      exact ⟨_, rfl, rfl, rfl⟩
    · exact ⟨_, rfl, rfl, rfl⟩

/-- Claim C14 (as amended): on a non-empty pool the forward-fill section
performs its request exactly when `currentTimeMS > expirationTimeMS`.  When
the clock is later, the outcome is made from the answer to the request for the
trades from `last.AggTradeId + 1`: an error stops the keeper, otherwise the
trades of the answer are appended.  When the clock is not later, so also when
it equals `expirationTimeMS`, the state is left as it is whatever the client
would answer. -/
theorem addRecentRecords_fetches_iff_later (symbol : String) (currentTimeMS : Int)
    (st : KeeperState) (last : AggTrade)
    (hl : st.aggTradesPoolForSelectedPeriod.getLast? = some last) :
    (currentTimeMS > st.expirationTimeMS →
      ∀ askNew : Int → ClientResponse,
        (∀ e, responseError (askNew (last.AggTradeId + 1)) = some e →
          addRecentRecords symbol currentTimeMS askNew st =
            Outcome.stop (errorReport symbol e)) ∧
        (responseError (askNew (last.AggTradeId + 1)) = none →
          ∃ st1, addRecentRecords symbol currentTimeMS askNew st = Outcome.next st1 ∧
            st1.aggTradesPoolForSelectedPeriod =
              st.aggTradesPoolForSelectedPeriod ++ (askNew (last.AggTradeId + 1)).trades)) ∧
    (currentTimeMS ≤ st.expirationTimeMS →
      ∀ askNew : Int → ClientResponse,
        addRecentRecords symbol currentTimeMS askNew st = Outcome.next st) := by
  constructor
  · intro h askNew
    obtain ⟨h1, h2⟩ := addRecentRecords_fetched symbol currentTimeMS askNew st last hl h
    refine ⟨h1, ?_⟩
    intro hnone
    obtain ⟨st1, hrun, hpool, _⟩ := h2 hnone
    exact ⟨st1, hrun, hpool⟩
  · intro h askNew
    exact addRecentRecords_skipped symbol currentTimeMS askNew st h

/-- Witness for claim C14 as amended: one millisecond after the poll is due a
client that answers 429 stops the keeper, so the request was made. -/
theorem addRecentRecords_fetches_iff_later_witness :
    waitingKeeper.aggTradesPoolForSelectedPeriod.getLast? = some fiveSecondLast ∧
    (100001 : Int) > waitingKeeper.expirationTimeMS ∧
    addRecentRecords "ETHUSDT" 100001 rateLimited waitingKeeper =
      Outcome.stop
        (errorReport "ETHUSDT" "we got status code = 429, and should immediately stop") :=
  ⟨by decide, by decide,
    ((addRecentRecords_fetches_iff_later "ETHUSDT" 100001 waitingKeeper fiveSecondLast
      (by decide)).1 (by decide) rateLimited).1 _ (by decide)⟩

/-- Claim C14 (counterexample): the clock reads 100 s, that is 100000 ms, and
the next poll is due at 100000 ms, so `now >= nextPollAtMs` holds with
equality.  Against a client that would answer 429, which stops the keeper
whenever a request is made, the section leaves the state as it is: no request
is made. -/
theorem addRecentRecords_no_fetch_when_due :
    (100 : Int) * 1000 ≥ waitingKeeper.expirationTimeMS ∧
    waitingKeeper.aggTradesPoolForSelectedPeriod ≠ [] ∧
    addRecentRecords "ETHUSDT" (100 * 1000) rateLimited waitingKeeper =
      Outcome.next waitingKeeper ∧
    addRecentRecords "ETHUSDT" (100 * 1000 + 1) rateLimited waitingKeeper =
      Outcome.stop
        (errorReport "ETHUSDT" "we got status code = 429, and should immediately stop") := by
  refine ⟨by decide, by decide, ?_, ?_⟩
  · exact addRecentRecords_skipped _ _ _ _ (by decide)
  · exact ((addRecentRecords_fetched "ETHUSDT" (100 * 1000 + 1) rateLimited waitingKeeper
      fiveSecondLast (by decide) (by decide)).1) _ (by decide)


/-! ## The phases of an iteration and the back-fill flag -/

theorem keeperCycle_phases (cvt : F64 → Int) (symbol : String) (timePeriodMS unixNow : Int)
    (askOld askNew : Int → ClientResponse) (st : KeeperState) (p : Published)
    (h : keeperCycle cvt symbol timePeriodMS unixNow askOld askNew st = Outcome.next p) :
    ∃ st1 st2,
      addEarlyRecords symbol timePeriodMS (unixNow * 1000) askOld st = Outcome.next st1 ∧
      cleanUpOutdated timePeriodMS (unixNow * 1000) st1 = Outcome.next st2 ∧
      addRecentRecords symbol (unixNow * 1000) askNew st2 = Outcome.next p.state := by
  unfold keeperCycle at h
  simp only at h
  split at h <;> try contradiction
  rename_i st1 h1
  split at h <;> try contradiction
  rename_i st2 h2
  split at h <;> try contradiction
  rename_i st3 h3
  refine ⟨st1, st2, h1, h2, ?_⟩
  split at h <;> try contradiction
  split_ifs at h
  · split at h <;> try contradiction
    injection h with h
    subst h
    exact h3
  · injection h with h
    subst h
    exact h3

theorem addEarlyRecords_off (symbol : String) (timePeriodMS currentTimeMS : Int)
    (askOld : Int → ClientResponse) (st : KeeperState) (h : st.allowAddEarlyRecords = false) :
    addEarlyRecords symbol timePeriodMS currentTimeMS askOld st = Outcome.next st := by
  unfold addEarlyRecords
  simp [h]

theorem addEarlyRecords_flag (symbol : String) (timePeriodMS currentTimeMS : Int)
    (askOld : Int → ClientResponse) (st st1 : KeeperState)
    (h : addEarlyRecords symbol timePeriodMS currentTimeMS askOld st = Outcome.next st1) :
    st1.allowAddEarlyRecords = st.allowAddEarlyRecords := by
  unfold addEarlyRecords at h
  split_ifs at h with hallow
  · split at h <;> try contradiction
    split_ifs at h
    · simp only at h
      split at h <;> try contradiction
      injection h with h
      subst h
      rfl
    · injection h with h
      subst h
      rfl
  · injection h with h
    subst h
    rfl

theorem cleanUpOutdated_flag (timePeriodMS currentTimeMS : Int) (st st1 : KeeperState)
    (h : cleanUpOutdated timePeriodMS currentTimeMS st = Outcome.next st1) :
    ((∃ first, st.aggTradesPoolForSelectedPeriod.head? = some first ∧
        first.AggTime < currentTimeMS - timePeriodMS) → st1.allowAddEarlyRecords = false) ∧
    (st.allowAddEarlyRecords = false → st1.allowAddEarlyRecords = false) := by
  unfold cleanUpOutdated at h
  split at h <;> try contradiction
  rename_i first hfirst
  split_ifs at h with hold
  · injection h with h
    subst h
    exact ⟨fun _ => rfl, fun _ => rfl⟩
  · injection h with h
    subst h
    refine ⟨?_, fun hf => hf⟩
    rintro ⟨f, hf, hlt⟩
    rw [hfirst] at hf
    injection hf with hf
    rw [hf] at hold
    exact absurd hlt hold

theorem addRecentRecords_flag (symbol : String) (currentTimeMS : Int)
    (askNew : Int → ClientResponse) (st st1 : KeeperState)
    (h : addRecentRecords symbol currentTimeMS askNew st = Outcome.next st1) :
    st1.allowAddEarlyRecords = st.allowAddEarlyRecords := by
  by_cases hgate : currentTimeMS > st.expirationTimeMS
  · cases hl : st.aggTradesPoolForSelectedPeriod.getLast? with
    | none =>
        unfold addRecentRecords at h
        simp only [if_pos hgate, hl] at h
        contradiction
    | some last =>
        obtain ⟨hstop, hnext⟩ := addRecentRecords_fetched symbol currentTimeMS askNew st last hl hgate
        cases he : responseError (askNew (last.AggTradeId + 1)) with
        | some e =>
            rw [hstop e he] at h
            contradiction
        | none =>
            obtain ⟨st2, hrun, _, hflag⟩ := hnext he
            rw [hrun] at h
            injection h with h
            rw [← h]
            exact hflag
  · rw [addRecentRecords_skipped symbol currentTimeMS askNew st (by omega)] at h
    injection h with h
    rw [← h]

theorem cycleStep_keeps_flag_off (cvt : F64 → Int) (symbol : String) (timePeriodMS : Int)
    (st st1 : KeeperState) (hoff : st.allowAddEarlyRecords = false)
    (h : Relation.ReflTransGen (CycleStep cvt symbol timePeriodMS) st st1) :
    st1.allowAddEarlyRecords = false := by
  induction h with
  | refl => exact hoff
  | tail _ hstep ih =>
      obtain ⟨unixNow, askOld, askNew, p, hcycle, hp⟩ := hstep
      obtain ⟨s1, s2, h1, h2, h3⟩ :=
        keeperCycle_phases cvt symbol timePeriodMS unixNow askOld askNew _ p hcycle
      rw [← hp, addRecentRecords_flag _ _ _ _ _ h3]
      apply (cleanUpOutdated_flag _ _ _ _ h2).2
      rw [addEarlyRecords_flag _ _ _ _ _ _ h1]
      exact ih

theorem cleanUpOutdated_without_eviction (timePeriodMS currentTimeMS : Int)
    (st st1 : KeeperState) (first : AggTrade)
    (hfirst : st.aggTradesPoolForSelectedPeriod.head? = some first)
    (hnew : ¬ first.AggTime < currentTimeMS - timePeriodMS)
    (h : cleanUpOutdated timePeriodMS currentTimeMS st = Outcome.next st1) : st1 = st := by
  unfold cleanUpOutdated at h
  simp only [hfirst, if_neg hnew] at h
  injection h with h
  exact h.symm

/-- Claim C15: the keeper starts its loop, whenever the first request succeeds,
with the back-fill flag set; an iteration in which the clean-up section finds
the first trade older than the window, and so evicts, ends with the flag
cleared, and an iteration in which it does not evict ends with the flag as it
was; from a state with the flag cleared every state reached by any number of
iterations has the flag cleared, whatever the clock and the answers of the
client are, and in each of them the back-fill section leaves the pool as it
is, so nothing is prepended. -/
theorem backfill_flag_one_way (cvt : F64 → Int) (symbol : String) (timePeriodMS : Int) :
    (∀ resp st, startKeeper symbol resp = Outcome.next st → st.allowAddEarlyRecords = true) ∧
    (∀ resp, resp.err = none →
      ∃ st, startKeeper symbol resp = Outcome.next st ∧ st.allowAddEarlyRecords = true ∧
        st.aggTradesPoolForSelectedPeriod = resp.trades) ∧
    (∀ unixNow askOld askNew st st1 first p,
      addEarlyRecords symbol timePeriodMS (unixNow * 1000) askOld st = Outcome.next st1 →
      st1.aggTradesPoolForSelectedPeriod.head? = some first →
      first.AggTime < unixNow * 1000 - timePeriodMS →
      keeperCycle cvt symbol timePeriodMS unixNow askOld askNew st = Outcome.next p →
      p.state.allowAddEarlyRecords = false) ∧
    (∀ unixNow askOld askNew st st1 first p,
      addEarlyRecords symbol timePeriodMS (unixNow * 1000) askOld st = Outcome.next st1 →
      st1.aggTradesPoolForSelectedPeriod.head? = some first →
      ¬ first.AggTime < unixNow * 1000 - timePeriodMS →
      keeperCycle cvt symbol timePeriodMS unixNow askOld askNew st = Outcome.next p →
      p.state.allowAddEarlyRecords = st.allowAddEarlyRecords) ∧
    (∀ st st1, st.allowAddEarlyRecords = false →
      Relation.ReflTransGen (CycleStep cvt symbol timePeriodMS) st st1 →
      st1.allowAddEarlyRecords = false ∧
      ∀ currentTimeMS askOld,
        addEarlyRecords symbol timePeriodMS currentTimeMS askOld st1 = Outcome.next st1) := by
  refine ⟨?_, ?_, ?_, ?_, ?_⟩
  · intro resp st h
    unfold startKeeper at h
    split at h <;> try contradiction
    injection h with h
    subst h
    rfl
  · intro resp hresp
    have hstart : startKeeper symbol resp =
        Outcome.next
          { aggTradesPoolForSelectedPeriod := resp.trades, expirationTimeMS := 0,
            allowAddEarlyRecords := true } := by
      simp only [startKeeper, hresp]
    exact ⟨_, hstart, rfl, rfl⟩
  · intro unixNow askOld askNew st st1 first p h1 hfirst hold hcycle
    obtain ⟨s1, s2, g1, g2, g3⟩ :=
      keeperCycle_phases cvt symbol timePeriodMS unixNow askOld askNew st p hcycle
    rw [h1] at g1
    injection g1 with g1
    subst g1
    rw [addRecentRecords_flag _ _ _ _ _ g3]
    exact (cleanUpOutdated_flag _ _ _ _ g2).1 ⟨first, hfirst, hold⟩
  · intro unixNow askOld askNew st st1 first p h1 hfirst hnew hcycle
    obtain ⟨s1, s2, g1, g2, g3⟩ :=
      keeperCycle_phases cvt symbol timePeriodMS unixNow askOld askNew st p hcycle
    rw [h1] at g1
    injection g1 with g1
    subst g1
    rw [addRecentRecords_flag _ _ _ _ _ g3,
      cleanUpOutdated_without_eviction _ _ _ _ first hfirst hnew g2]
    exact addEarlyRecords_flag _ _ _ _ _ _ h1
  · intro st st1 hoff hreach
    have hflag := cycleStep_keeps_flag_off cvt symbol timePeriodMS st st1 hoff hreach
    exact ⟨hflag, fun currentTimeMS askOld =>
      addEarlyRecords_off symbol timePeriodMS currentTimeMS askOld st1 hflag⟩


theorem agedKeeper_cycle :
    keeperCycle amd64Cvt "ETHUSDT" 60000 150 noNews noNews agedKeeper =
      Outcome.next
        { state :=
            { aggTradesPoolForSelectedPeriod := [agedSurvivor], expirationTimeMS := 0,
              allowAddEarlyRecords := false },
          report :=
            { Symbol := "ETHUSDT", PoolFullness := 0, LastDealTimestampMS := 95000,
              CapturedPeriodMS := 0, DataReady := false,
              aggTradesListRef := some [agedSurvivor], error := none },
          sleepMS := 0 } := by
  have h1 : addEarlyRecords "ETHUSDT" 60000 (150 * 1000) noNews agedKeeper =
      Outcome.next agedKeeper := by
    simp [addEarlyRecords, agedKeeper, agedPool]
  have h2 : cleanUpOutdated 60000 (150 * 1000) agedKeeper =
      Outcome.next
        { aggTradesPoolForSelectedPeriod := [agedSurvivor], expirationTimeMS := 0,
          allowAddEarlyRecords := false } := by
    simp [cleanUpOutdated, agedKeeper, agedPool, outdatedCount, agedSurvivor]
  have h3 : addRecentRecords "ETHUSDT" (150 * 1000) noNews
      { aggTradesPoolForSelectedPeriod := [agedSurvivor], expirationTimeMS := 0,
        allowAddEarlyRecords := false } =
      Outcome.next
        { aggTradesPoolForSelectedPeriod := [agedSurvivor], expirationTimeMS := 0,
          allowAddEarlyRecords := false } := by
    simp [addRecentRecords, noNews, responseError, RecordsCountPerRequest]
  have h4 : poolReport amd64Cvt "ETHUSDT" 60000 [agedSurvivor] =
      some { Symbol := "ETHUSDT", PoolFullness := 0, LastDealTimestampMS := 95000,
             CapturedPeriodMS := 0, DataReady := false,
             aggTradesListRef := some [agedSurvivor], error := none } := by
    simp [poolReport, agedSurvivor, roundToInt, mathRound, toInt, F64.div, roundHalfAway]
    norm_num
  unfold keeperCycle
  simp only [h1, h2, h3, h4]
  simp

/-- Witness for claim C15: an iteration that evicts two trades of three and
ends with the back-fill flag cleared. -/
theorem backfill_flag_one_way_witness :
    agedKeeper.allowAddEarlyRecords = true ∧
    ∃ p, keeperCycle amd64Cvt "ETHUSDT" 60000 150 noNews noNews agedKeeper = Outcome.next p ∧
      p.state.allowAddEarlyRecords = false :=
  ⟨rfl, _, agedKeeper_cycle,
    (backfill_flag_one_way amd64Cvt "ETHUSDT" 60000).2.2.1 150 noNews noNews agedKeeper agedKeeper
      { AggTradeId := 1, AggTime := 30000, AggQty := 1, AggPrice := 100,
        AggIsBuyerMaker := false }
      _ (by simp [addEarlyRecords, agedKeeper, agedPool]) (by decide) (by decide)
      agedKeeper_cycle⟩


/-! ## The order of the ids in the pool -/

theorem idSorted_head_le (pool : AggTradesList) (first : AggTrade) (hs : IdSorted pool)
    (hf : pool.head? = some first) : ∀ t ∈ pool, first.AggTradeId ≤ t.AggTradeId := by
  cases pool with
  | nil => simp at hf
  | cons u rest =>
      simp only [List.head?_cons, Option.some.injEq] at hf
      subst hf
      intro t ht
      rcases List.mem_cons.mp ht with heq | hmem
      · rw [heq]
      · exact le_of_lt ((List.pairwise_cons.mp hs).1 t hmem)

theorem idSorted_le_last (pool : AggTradesList) (last : AggTrade) (hs : IdSorted pool)
    (hl : pool.getLast? = some last) : ∀ t ∈ pool, t.AggTradeId ≤ last.AggTradeId := by
  obtain ⟨ys, hys⟩ := List.getLast?_eq_some_iff.mp hl
  subst hys
  intro t ht
  rcases List.mem_append.mp ht with hmem | hmem
  · exact le_of_lt ((List.pairwise_append.mp hs).2.2 t hmem last (List.mem_singleton.mpr rfl))
  · rw [List.mem_singleton.mp hmem]

theorem addEarlyRecords_idSorted (symbol : String) (timePeriodMS currentTimeMS : Int)
    (askOld : Int → ClientResponse) (st st1 : KeeperState)
    (hpool : IdSorted st.aggTradesPoolForSelectedPeriod)
    (hold : ∀ fromId, BatchFrom fromId (askOld fromId).trades)
    (h : addEarlyRecords symbol timePeriodMS currentTimeMS askOld st = Outcome.next st1) :
    IdSorted st1.aggTradesPoolForSelectedPeriod := by
  unfold addEarlyRecords at h
  split_ifs at h with hallow
  · split at h <;> try contradiction
    rename_i first hfirst
    split_ifs at h
    · simp only at h
      split at h <;> try contradiction
      injection h with h
      subst h
      simp only
      obtain ⟨hb1, hb2⟩ := hold (first.AggTradeId - RecordsCountPerRequest)
      apply List.pairwise_append.mpr
      refine ⟨hb1, hpool, ?_⟩
      intro a ha b hb
      have h1 := (hb2 a ha).2
      have h2 := idSorted_head_le _ first hpool hfirst b hb
      omega
    · injection h with h
      subst h
      exact hpool
  · injection h with h
    subst h
    exact hpool

theorem cleanUpOutdated_idSorted (timePeriodMS currentTimeMS : Int) (st st1 : KeeperState)
    (hpool : IdSorted st.aggTradesPoolForSelectedPeriod)
    (h : cleanUpOutdated timePeriodMS currentTimeMS st = Outcome.next st1) :
    IdSorted st1.aggTradesPoolForSelectedPeriod := by
  unfold cleanUpOutdated at h
  split at h <;> try contradiction
  split_ifs at h
  · injection h with h
    subst h
    exact List.Pairwise.sublist (List.drop_sublist _ _) hpool
  · injection h with h
    subst h
    exact hpool

theorem addRecentRecords_idSorted (symbol : String) (currentTimeMS : Int)
    (askNew : Int → ClientResponse) (st st1 : KeeperState)
    (hpool : IdSorted st.aggTradesPoolForSelectedPeriod)
    (hnew : ∀ fromId, BatchFrom fromId (askNew fromId).trades)
    (h : addRecentRecords symbol currentTimeMS askNew st = Outcome.next st1) :
    IdSorted st1.aggTradesPoolForSelectedPeriod := by
  by_cases hgate : currentTimeMS > st.expirationTimeMS
  · cases hl : st.aggTradesPoolForSelectedPeriod.getLast? with
    | none =>
        unfold addRecentRecords at h
        simp only [if_pos hgate, hl] at h
        contradiction
    | some last =>
        obtain ⟨hstop, hnext⟩ := addRecentRecords_fetched symbol currentTimeMS askNew st last hl hgate
        cases he : responseError (askNew (last.AggTradeId + 1)) with
        | some e =>
            rw [hstop e he] at h
            contradiction
        | none =>
            obtain ⟨st2, hrun, hp, _⟩ := hnext he
            rw [hrun] at h
            injection h with h
            rw [← h, hp]
            obtain ⟨hb1, hb2⟩ := hnew (last.AggTradeId + 1)
            apply List.pairwise_append.mpr
            refine ⟨hpool, hb1, ?_⟩
            intro a ha b hb
            have h1 := (hb2 b hb).1
            have h2 := idSorted_le_last _ last hpool hl a ha
            omega
  · rw [addRecentRecords_skipped symbol currentTimeMS askNew st (by omega)] at h
    injection h with h
    rw [← h]
    exact hpool

/-- Claim C16: when the pool is strictly ascending in `AggTradeId` and every
batch the client returns for a request from `fromId` is strictly ascending
with all its ids in `[fromId, fromId + 1000)`, the pool is still strictly
ascending after the back-fill section (which asks from `first.AggTradeId -
1000` and prepends), after the clean-up section (which drops a front part),
after the forward-fill section (which asks from `last.AggTradeId + 1` and
appends), and so after a whole iteration. -/
theorem keeper_phases_keep_id_order (cvt : F64 → Int) (symbol : String)
    (timePeriodMS unixNow : Int) (askOld askNew : Int → ClientResponse) (st : KeeperState)
    (hpool : IdSorted st.aggTradesPoolForSelectedPeriod)
    (hold : ∀ fromId, BatchFrom fromId (askOld fromId).trades)
    (hnew : ∀ fromId, BatchFrom fromId (askNew fromId).trades) :
    (∀ currentTimeMS st1,
      addEarlyRecords symbol timePeriodMS currentTimeMS askOld st = Outcome.next st1 →
      IdSorted st1.aggTradesPoolForSelectedPeriod) ∧
    (∀ currentTimeMS st1,
      cleanUpOutdated timePeriodMS currentTimeMS st = Outcome.next st1 →
      IdSorted st1.aggTradesPoolForSelectedPeriod) ∧
    (∀ currentTimeMS st1,
      addRecentRecords symbol currentTimeMS askNew st = Outcome.next st1 →
      IdSorted st1.aggTradesPoolForSelectedPeriod) ∧
    (∀ p, keeperCycle cvt symbol timePeriodMS unixNow askOld askNew st = Outcome.next p →
      IdSorted p.state.aggTradesPoolForSelectedPeriod) := by
  refine ⟨?_, ?_, ?_, ?_⟩
  · intro currentTimeMS st1 h
    exact addEarlyRecords_idSorted symbol timePeriodMS currentTimeMS askOld st st1 hpool hold h
  · intro currentTimeMS st1 h
    exact cleanUpOutdated_idSorted timePeriodMS currentTimeMS st st1 hpool h
  · intro currentTimeMS st1 h
    exact addRecentRecords_idSorted symbol currentTimeMS askNew st st1 hpool hnew h
  · intro p h
    obtain ⟨s1, s2, h1, h2, h3⟩ :=
      keeperCycle_phases cvt symbol timePeriodMS unixNow askOld askNew st p h
    have g1 := addEarlyRecords_idSorted symbol timePeriodMS _ askOld st s1 hpool hold h1
    have g2 := cleanUpOutdated_idSorted timePeriodMS _ s1 s2 g1 h2
    exact addRecentRecords_idSorted symbol _ askNew s2 p.state g2 hnew h3

theorem batchFrom_oneTradeFrom (fromId : Int) : BatchFrom fromId (oneTradeFrom fromId).trades := by
  refine ⟨by simp [IdSorted, oneTradeFrom], ?_⟩
  intro t ht
  simp only [oneTradeFrom, List.mem_singleton] at ht
  rw [ht]
  simp [RecordsCountPerRequest]

/-- Witness for claim C16: a pool with the ids 1 and 2 whose first trade is
55 s newer than the start of the window, so that the back-fill section asks
from id `1 - 1000` and prepends the answer. -/
theorem keeper_phases_keep_id_order_witness :
    IdSorted freshKeeper.aggTradesPoolForSelectedPeriod ∧
    (∀ fromId, BatchFrom fromId (oneTradeFrom fromId).trades) ∧
    ∃ st1, addEarlyRecords "ETHUSDT" 60000 100000 oneTradeFrom freshKeeper = Outcome.next st1 ∧
      st1.aggTradesPoolForSelectedPeriod.length = 3 ∧
      IdSorted st1.aggTradesPoolForSelectedPeriod := by
  have hrun : addEarlyRecords "ETHUSDT" 60000 100000 oneTradeFrom freshKeeper =
      Outcome.next
        { aggTradesPoolForSelectedPeriod :=
            (oneTradeFrom (1 - 1000)).trades ++ fiveSecondPool,
          expirationTimeMS := 0, allowAddEarlyRecords := true } := by
    simp [addEarlyRecords, freshKeeper, fiveSecondPool, oneTradeFrom, responseError,
      RecordsCountPerRequest]
  exact ⟨by decide, batchFrom_oneTradeFrom, _, hrun, rfl,
    (keeper_phases_keep_id_order amd64Cvt "ETHUSDT" 60000 100 oneTradeFrom oneTradeFrom
      freshKeeper (by decide) batchFrom_oneTradeFrom batchFrom_oneTradeFrom).1 100000 _ hrun⟩


/-! ## Eviction can empty the pool -/

theorem outdatedCount_lt_length (cutoff : Int) (pool : AggTradesList)
    (h : ∃ t ∈ pool, t.AggTime ≥ cutoff) : outdatedCount cutoff pool 0 < pool.length := by
  induction pool with
  | nil =>
      obtain ⟨t, ht, _⟩ := h
      simp at ht
  | cons u rest ih =>
      unfold outdatedCount
      by_cases hu : u.AggTime ≥ cutoff
      · rw [if_pos hu]
        simp
      · rw [if_neg hu, outdatedCount_shift]
        obtain ⟨t, ht, hge⟩ := h
        rcases List.mem_cons.mp ht with heq | hmem
        · rw [heq] at hge
          exact absurd hge hu
        · have := ih ⟨t, hmem, hge⟩
          simp only [List.length_cons]
          omega

/-- The clean-up section leaves a trade in the pool when some trade of the
pool lies inside the window. -/
theorem cleanUpOutdated_nonempty_of_recent (timePeriodMS currentTimeMS : Int)
    (st st1 : KeeperState)
    (hrecent : ∃ t ∈ st.aggTradesPoolForSelectedPeriod, t.AggTime ≥ currentTimeMS - timePeriodMS)
    (h : cleanUpOutdated timePeriodMS currentTimeMS st = Outcome.next st1) :
    st1.aggTradesPoolForSelectedPeriod ≠ [] := by
  have hne : st.aggTradesPoolForSelectedPeriod ≠ [] := by
    obtain ⟨t, ht, _⟩ := hrecent
    exact List.ne_nil_of_mem ht
  unfold cleanUpOutdated at h
  split at h <;> try contradiction
  split_ifs at h
  · injection h with h
    subst h
    simp only
    intro hc
    have hlen := outdatedCount_lt_length (currentTimeMS - timePeriodMS) _ hrecent
    have := List.drop_eq_nil_iff.mp hc
    omega
  · injection h with h
    subst h
    exact hne

/-- Claim C18 (failing input): a pool of two trades, both older than the
window: times 40000 and 50000, clock reading 150 s, window 60000 ms.  The pool
is not empty, the clean-up section drops both trades and leaves the pool
empty, and the iteration then panics on the read of the last trade of the
pool, whatever the client would answer. -/
theorem cleanUpOutdated_can_empty_pool :
    quietKeeper.aggTradesPoolForSelectedPeriod ≠ [] ∧
    cleanUpOutdated 60000 (150 * 1000) quietKeeper =
      Outcome.next
        { aggTradesPoolForSelectedPeriod := [], expirationTimeMS := 0,
          allowAddEarlyRecords := false } ∧
    ∀ (cvt : F64 → Int) (askOld askNew : Int → ClientResponse),
      keeperCycle cvt "ETHUSDT" 60000 150 askOld askNew quietKeeper = Outcome.panic := by
  have h1 : ∀ askOld : Int → ClientResponse,
      addEarlyRecords "ETHUSDT" 60000 (150 * 1000) askOld quietKeeper =
        Outcome.next quietKeeper := by
    intro askOld
    simp [addEarlyRecords, quietKeeper, quietPool]
  have h2 : cleanUpOutdated 60000 (150 * 1000) quietKeeper =
      Outcome.next
        { aggTradesPoolForSelectedPeriod := [], expirationTimeMS := 0,
          allowAddEarlyRecords := false } := by
    simp [cleanUpOutdated, quietKeeper, quietPool, outdatedCount]
  have h3 : ∀ askNew : Int → ClientResponse,
      addRecentRecords "ETHUSDT" (150 * 1000) askNew
        { aggTradesPoolForSelectedPeriod := [], expirationTimeMS := 0,
          allowAddEarlyRecords := false } = Outcome.panic := by
    intro askNew
    simp [addRecentRecords]
  refine ⟨by decide, h2, ?_⟩
  intro cvt askOld askNew
  unfold keeperCycle
  simp only [h1, h2, h3]


/-! ## What the slots hold -/

theorem slotStep_cases (cvt : F64 → Int) (timeslotDurationMS : Int) (st st1 : SlotLoop)
    (trade : AggTrade) (h : slotStep cvt timeslotDurationMS st trade = some st1) :
    ∃ mid,
      ((st.timeslotStartMS ≤ trade.AggTime ∧ trade.AggTime < st.timeslotEndMS ∧
          accumulate cvt st trade = some mid) ∨
        (¬ (st.timeslotStartMS ≤ trade.AggTime ∧ trade.AggTime < st.timeslotEndMS) ∧
          mid = st)) ∧
      ((trade.AggTime ≥ mid.timeslotEndMS ∧ closeSlot timeslotDurationMS mid = some st1) ∨
        (¬ trade.AggTime ≥ mid.timeslotEndMS ∧ st1 = mid)) := by
  unfold slotStep at h
  split at h
  · contradiction
  · rename_i mid hmid
    refine ⟨mid, ?_, ?_⟩
    · by_cases hin : st.timeslotStartMS ≤ trade.AggTime ∧ trade.AggTime < st.timeslotEndMS
      · rw [if_pos hin] at hmid
        exact Or.inl ⟨hin.1, hin.2, hmid⟩
      · rw [if_neg hin] at hmid
        injection hmid with hmid
        exact Or.inr ⟨hin, hmid.symm⟩
    · by_cases hend : trade.AggTime ≥ mid.timeslotEndMS
      · rw [if_pos hend] at h
        exact Or.inl ⟨hend, h⟩
      · rw [if_neg hend] at h
        injection h with h
        exact Or.inr ⟨hend, h.symm⟩

/-- A property of the processed trades and the loop state that the loop body
carries from `done` to `done ++ [trade]` holds of the whole list when the loop
ends. -/
theorem slotLoop_prefix_invariant (cvt : F64 → Int) (timeslotDurationMS : Int)
    (Inv : AggTradesList → SlotLoop → Prop)
    (hstep : ∀ done trade st st1, Inv done st →
      slotStep cvt timeslotDurationMS st trade = some st1 → Inv (done ++ [trade]) st1)
    (rest done : AggTradesList) (st0 st : SlotLoop) (h0 : Inv done st0)
    (h : slotLoop cvt timeslotDurationMS st0 rest = some st) : Inv (done ++ rest) st := by
  induction rest generalizing done st0 with
  | nil =>
      unfold slotLoop at h
      injection h with h
      rw [← h, List.append_nil]
      exact h0
  | cons trade more ih =>
      unfold slotLoop at h
      split at h
      · contradiction
      · rename_i st1 hst1
        have h1 := hstep done trade st0 st1 h0 hst1
        have := ih (done ++ [trade]) st1 h1 h
        simpa using this

theorem holdsTrades_mono (firstTime slotMs : Int) (done : AggTradesList) (trade : AggTrade)
    (k : Nat) (e : analyzedDataOneSymbolOnePeriod) (acc : AggTradesList)
    (h : HoldsTrades firstTime slotMs done k e acc) :
    HoldsTrades firstTime slotMs (done ++ [trade]) k e acc :=
  ⟨h.1.trans (List.sublist_append_left _ _), h.2⟩

theorem quantitySum_append (acc : AggTradesList) (trade : AggTrade) :
    quantitySum (acc ++ [trade]) = quantitySum acc + trade.AggQty := by
  simp [quantitySum]

theorem costSum_append (acc : AggTradesList) (trade : AggTrade) :
    costSum (acc ++ [trade]) = costSum acc + trade.AggQty * trade.AggPrice := by
  simp [costSum]


theorem contentInv_mono (firstTime slotMs : Int) (done : AggTradesList) (trade : AggTrade)
    (st : SlotLoop) (h : ContentInv firstTime slotMs done st) :
    ContentInv firstTime slotMs (done ++ [trade]) st := by
  obtain ⟨h1, h2, ⟨acc, hacc, hcost⟩, h4⟩ := h
  refine ⟨h1, h2, ⟨acc, holdsTrades_mono _ _ _ _ _ _ _ hacc, hcost⟩, ?_⟩
  intro j e he
  obtain ⟨acc1, hacc1⟩ := h4 j e he
  exact ⟨acc1, holdsTrades_mono _ _ _ _ _ _ _ hacc1⟩

theorem accumulate_contentInv (cvt : F64 → Int) (firstTime slotMs : Int) (done : AggTradesList)
    (trade : AggTrade) (st mid : SlotLoop) (hinv : ContentInv firstTime slotMs done st)
    (hlo : st.timeslotStartMS ≤ trade.AggTime) (hhi : trade.AggTime < st.timeslotEndMS)
    (h : accumulate cvt st trade = some mid) :
    ContentInv firstTime slotMs (done ++ [trade]) mid := by
  obtain ⟨hdata, hcur, hstart, hend, hs, hb, hcost, _, _, havg, _, _⟩ :=
    accumulate_fields cvt st mid trade h
  obtain ⟨i1, i2, ⟨acc, ⟨a1, a2, a3, _, _⟩, acost⟩, i4⟩ := hinv
  have hvol : mid.buyVolume + mid.sellVolume = quantitySum (acc ++ [trade]) := by
    have a3 : st.buyVolume + st.sellVolume = quantitySum acc := a3
    rw [quantitySum_append, ← a3, hb, hs]
    cases trade.AggIsBuyerMaker <;> simp <;> ring
  have hcost1 : mid.totalAssetCost = costSum (acc ++ [trade]) := by
    rw [costSum_append, ← acost, hcost]
  refine ⟨by rw [hstart, hcur]; exact i1, by rw [hend, hcur]; exact i2, ⟨acc ++ [trade], ?_, hcost1⟩, ?_⟩
  · refine ⟨List.Sublist.append a1 (List.Sublist.refl _), ?_, hvol, ?_, ?_⟩
    · intro t ht
      rw [hcur]
      rcases List.mem_append.mp ht with hmem | hmem
      · exact a2 t hmem
      · rw [List.mem_singleton.mp hmem]
        exact ⟨by rw [← i1]; exact hlo, by rw [← i2]; exact hhi⟩
    · intro hnil
      simp at hnil
    · intro hne
      have hne1 : mid.buyVolume + mid.sellVolume ≠ 0 := hne
      show mid.avgPrice = _
      rw [havg, div_fin_of_ne _ _ hne1, hcost1, hvol]
  · intro j e he
    rw [hdata] at he
    obtain ⟨acc1, hacc1⟩ := i4 j e he
    exact ⟨acc1, holdsTrades_mono _ _ _ _ _ _ _ hacc1⟩

theorem closeSlot_contentInv (firstTime slotMs : Int) (done : AggTradesList)
    (mid st1 : SlotLoop) (hinv : ContentInv firstTime slotMs done mid)
    (h : closeSlot slotMs mid = some st1) : ContentInv firstTime slotMs done st1 := by
  obtain ⟨hlt, hdata, hcur, hstart, hend, hb, hs, hcost, hbp, hsp, _, _⟩ :=
    closeSlot_fields slotMs mid st1 h
  obtain ⟨_, i2, ⟨acc, hacc, _⟩, i4⟩ := hinv
  refine ⟨?_, ?_, ⟨[], ?_, by rw [hcost]; rfl⟩, ?_⟩
  · rw [hstart, hcur, i2]
    push_cast
    ring
  · rw [hend, hcur, i2]
    push_cast
    ring
  · refine ⟨List.nil_sublist _, ?_, ?_, ?_, ?_⟩
    · intro t ht
      simp at ht
    · show st1.buyVolume + st1.sellVolume = quantitySum []
      rw [hb, hs]
      simp [quantitySum]
    · intro _
      exact ⟨hbp, hsp⟩
    · intro hne
      exfalso
      apply hne
      show st1.buyVolume + st1.sellVolume = 0
      rw [hb, hs]
      norm_num
  · intro j e he
    rw [hdata, List.getElem?_set] at he
    split_ifs at he with hj
    · injection he with he
      rw [← he, ← hj]
      exact ⟨acc, hacc⟩
    · exact i4 j e he

theorem slotStep_contentInv (cvt : F64 → Int) (firstTime slotMs : Int) (done : AggTradesList)
    (trade : AggTrade) (st st1 : SlotLoop) (hinv : ContentInv firstTime slotMs done st)
    (h : slotStep cvt slotMs st trade = some st1) :
    ContentInv firstTime slotMs (done ++ [trade]) st1 := by
  obtain ⟨mid, hmid, hlast⟩ := slotStep_cases cvt slotMs st st1 trade h
  have hmidInv : ContentInv firstTime slotMs (done ++ [trade]) mid := by
    rcases hmid with ⟨hlo, hhi, hacc⟩ | ⟨_, heq⟩
    · exact accumulate_contentInv cvt firstTime slotMs done trade st mid hinv hlo hhi hacc
    · rw [heq]
      exact contentInv_mono _ _ _ _ _ hinv
  rcases hlast with ⟨_, hclose⟩ | ⟨_, heq⟩
  · exact closeSlot_contentInv firstTime slotMs _ mid st1 hmidInv hclose
  · rw [heq]
    exact hmidInv

theorem initLoop_contentInv (first : AggTrade) (slotMs numberOfTimeslots : Int) :
    ContentInv first.AggTime slotMs [] (initLoop first slotMs numberOfTimeslots) := by
  have hnil : HoldsTrades first.AggTime slotMs [] 0 zeroPeriod [] ∧
      ∀ j, HoldsTrades first.AggTime slotMs [] j zeroPeriod [] := by
    have hall : ∀ j, HoldsTrades first.AggTime slotMs [] j zeroPeriod [] := by
      intro j
      refine ⟨List.nil_sublist _, ?_, by simp [zeroPeriod, quantitySum], fun _ => ⟨rfl, rfl⟩, ?_⟩
      · intro t ht
        simp at ht
      · intro hne
        exact absurd (by norm_num [zeroPeriod]) hne
    exact ⟨hall 0, hall⟩
  refine ⟨by simp [initLoop], by simp [initLoop], ⟨[], hnil.1, rfl⟩, ?_⟩
  intro j e he
  have hz : e = zeroPeriod := List.eq_of_mem_replicate (List.getElem?_mem he)
  rw [hz]
  exact ⟨[], hnil.2 j⟩

/-- Every slot of a returned result holds trades of the resampled list, in
the sense of `HoldsTrades`, for the slot length the engine recomputed. -/
theorem getStatisticData_content (cvt : F64 → Int) (unixNow : Int) (aggTrades : AggTradesList)
    (timeslotDurMS numberOfTimeslots : Int) (r : analyzedDataOneSymbolByPeriods)
    (hr : getStatisticData cvt unixNow aggTrades timeslotDurMS numberOfTimeslots = some r) :
    ∃ first last,
      (resample unixNow aggTrades timeslotDurMS numberOfTimeslots).head? = some first ∧
      (resample unixNow aggTrades timeslotDurMS numberOfTimeslots).getLast? = some last ∧
      ∀ k e, r[k]? = some e →
        ∃ acc, HoldsTrades first.AggTime (slotDuration first last numberOfTimeslots)
          (resample unixNow aggTrades timeslotDurMS numberOfTimeslots) k e acc := by
  obtain ⟨first, last, st, hf, hl, _, hloop, hdata⟩ :=
    getStatisticData_some cvt unixNow aggTrades timeslotDurMS numberOfTimeslots r hr
  refine ⟨first, last, hf, hl, ?_⟩
  have hinv := slotLoop_prefix_invariant cvt (slotDuration first last numberOfTimeslots)
    (ContentInv first.AggTime (slotDuration first last numberOfTimeslots))
    (fun done trade st st1 hi hs =>
      slotStep_contentInv cvt first.AggTime _ done trade st st1 hi hs)
    (resample unixNow aggTrades timeslotDurMS numberOfTimeslots) [] _ st
    (initLoop_contentInv first _ numberOfTimeslots) hloop
  rw [List.nil_append] at hinv
  have hstored := hinv.2.2.2
  rw [hdata] at hstored
  exact hstored


/-! ## Empty slots and the average price -/

/-- Claim C17 (as amended): when the engine returns, for every slot index `k`
a slot of the result whose two percentages do not sum to 0 has a trade of the
resampled list with `AggTime` in the `k`-th slot interval; that is, if no
resampled trade lies in the interval of slot `k` then the two percentages of
slot `k` sum to 0.  The converse does not hold. -/
theorem getStatisticData_nonzero_slot_has_trade (cvt : F64 → Int) (unixNow : Int)
    (aggTrades : AggTradesList) (timeslotDurMS numberOfTimeslots : Int)
    (r : analyzedDataOneSymbolByPeriods)
    (hr : getStatisticData cvt unixNow aggTrades timeslotDurMS numberOfTimeslots = some r) :
    ∃ first last,
      (resample unixNow aggTrades timeslotDurMS numberOfTimeslots).head? = some first ∧
      (resample unixNow aggTrades timeslotDurMS numberOfTimeslots).getLast? = some last ∧
      ∀ k e, r[k]? = some e → e.BuyVolumePercentage + e.SellVolumePercentage ≠ 0 →
        ∃ t ∈ resample unixNow aggTrades timeslotDurMS numberOfTimeslots,
          InSlot first.AggTime (slotDuration first last numberOfTimeslots) k t := by
  obtain ⟨first, last, hf, hl, hall⟩ :=
    getStatisticData_content cvt unixNow aggTrades timeslotDurMS numberOfTimeslots r hr
  refine ⟨first, last, hf, hl, ?_⟩
  intro k e he hne
  obtain ⟨acc, hsub, hin, _, hnil, _⟩ := hall k e he
  cases acc with
  | nil =>
      obtain ⟨h1, h2⟩ := hnil rfl
      rw [h1, h2] at hne
      exact absurd rfl hne
  | cons t rest =>
      exact ⟨t, hsub.subset (List.mem_cons_self _ _), hin t (List.mem_cons_self _ _)⟩

/-- Witness for claim C17: in the result for `driftTrades` the percentages of
slot 1 sum to 100, and a resampled trade lies in the interval of slot 1. -/
theorem getStatisticData_nonzero_slot_has_trade_witness :
    ∃ r e, getStatisticData amd64Cvt 3 driftTrades 1000 3 = some r ∧ r[1]? = some e ∧
      e.BuyVolumePercentage + e.SellVolumePercentage ≠ 0 ∧
      ∃ first last, (resample 3 driftTrades 1000 3).head? = some first ∧
        (resample 3 driftTrades 1000 3).getLast? = some last ∧
        ∃ t ∈ resample 3 driftTrades 1000 3, InSlot first.AggTime (slotDuration first last 3) 1 t := by
  have hval := getStatisticData_drift_value amd64Cvt
  obtain ⟨first, last, hf, hl, hall⟩ :=
    getStatisticData_nonzero_slot_has_trade amd64Cvt 3 driftTrades 1000 3 _ hval
  have hsum : (0 : Int) + 100 ≠ 0 := by decide
  exact ⟨_, _, hval, rfl, hsum, first, last, hf, hl, hall 1 _ rfl hsum⟩

/-- Claim C17 (counterexample): scenario S4, slot index 1.  The quantities and
prices are positive, the list is ascending and nothing is trimmed; the slot
length is 10 and the trade at time 10 lies in the slot interval `[10, 20)`,
yet both percentages of slot 1 of the result are 0. -/
theorem s4_slot1_zero_despite_trade :
    (∀ t ∈ s4Trades, 0 < t.AggQty ∧ 0 < t.AggPrice) ∧ TimeSorted s4Trades ∧
    resample 3 s4Trades 1000 3 = s4Trades ∧
    ∃ first last r e t, s4Trades.head? = some first ∧ s4Trades.getLast? = some last ∧
      slotDuration first last 3 = 10 ∧
      getStatisticData amd64Cvt 3 s4Trades 1000 3 = some r ∧ r[1]? = some e ∧
      e.BuyVolumePercentage + e.SellVolumePercentage = 0 ∧
      t ∈ resample 3 s4Trades 1000 3 ∧ InSlot first.AggTime 10 1 t := by
  have hno : resample 3 s4Trades 1000 3 = s4Trades := by decide
  refine ⟨?_, by decide, hno, _, _, _, _,
    { AggTradeId := 2, AggTime := 10, AggQty := 1, AggPrice := 101, AggIsBuyerMaker := false },
    rfl, rfl, by decide, s4_result_value amd64Cvt 3 1000 hno, rfl, by decide, ?_, ?_⟩
  · intro t ht
    simp [s4Trades] at ht
    rcases ht with h | h | h | h <;> rw [h] <;> norm_num
  · rw [hno]
    simp [s4Trades]
  · simp [InSlot]

theorem quantitySum_pos (acc : AggTradesList) (hne : acc ≠ [])
    (hq : ∀ t ∈ acc, 0 < t.AggQty) : 0 < quantitySum acc := by
  cases acc with
  | nil => exact absurd rfl hne
  | cons t rest =>
      have hrest : 0 ≤ quantitySum rest := by
        unfold quantitySum
        apply List.sum_nonneg
        intro x hx
        obtain ⟨u, hu, hxu⟩ := List.mem_map.mp hx
        rw [← hxu]
        exact le_of_lt (hq u (List.mem_cons_of_mem _ hu))
      have ht := hq t (List.mem_cons_self _ _)
      have : quantitySum (t :: rest) = t.AggQty + quantitySum rest := by
        simp [quantitySum]
      rw [this]
      linarith

theorem costSum_bounds (acc : AggTradesList) (lo hi : ℚ) (hq : ∀ t ∈ acc, 0 < t.AggQty)
    (hp : ∀ t ∈ acc, lo ≤ t.AggPrice ∧ t.AggPrice ≤ hi) :
    lo * quantitySum acc ≤ costSum acc ∧ costSum acc ≤ hi * quantitySum acc := by
  induction acc with
  | nil => simp [quantitySum, costSum]
  | cons t rest ih =>
      obtain ⟨ih1, ih2⟩ := ih (fun u hu => hq u (List.mem_cons_of_mem _ hu))
        (fun u hu => hp u (List.mem_cons_of_mem _ hu))
      have hqt := hq t (List.mem_cons_self _ _)
      obtain ⟨hlo, hhi⟩ := hp t (List.mem_cons_self _ _)
      have e1 : quantitySum (t :: rest) = t.AggQty + quantitySum rest := by
        simp [quantitySum]
      have e2 : costSum (t :: rest) = t.AggQty * t.AggPrice + costSum rest := by
        simp [costSum]
      rw [e1, e2]
      have h1 : t.AggQty * lo ≤ t.AggQty * t.AggPrice :=
        mul_le_mul_of_nonneg_left hlo (le_of_lt hqt)
      have h2 : t.AggQty * t.AggPrice ≤ t.AggQty * hi :=
        mul_le_mul_of_nonneg_left hhi (le_of_lt hqt)
      constructor <;> nlinarith

/-- The average price in the exact-rational model, where no float operation
rounds: when every trade has a strictly positive quantity and the
engine returns, every slot of the result with a non-zero volume holds a
non-empty list `acc` of trades of the resampled list, in order and all in the
interval of that slot, such that the volume of the slot is their total
quantity and `AvgPrice` is their total cost `AggQty * AggPrice` over their
total quantity; hence `AvgPrice` lies between any lower and any upper bound of
the prices of the resampled trades, so between their minimum and maximum. -/
theorem getStatisticData_avgPrice_weighted_mean (cvt : F64 → Int) (unixNow : Int)
    (aggTrades : AggTradesList) (timeslotDurMS numberOfTimeslots : Int)
    (r : analyzedDataOneSymbolByPeriods)
    (hq : ∀ t ∈ aggTrades, 0 < t.AggQty)
    (hr : getStatisticData cvt unixNow aggTrades timeslotDurMS numberOfTimeslots = some r) :
    ∃ first last,
      (resample unixNow aggTrades timeslotDurMS numberOfTimeslots).head? = some first ∧
      (resample unixNow aggTrades timeslotDurMS numberOfTimeslots).getLast? = some last ∧
      ∀ k e, r[k]? = some e → e.BuyVolume + e.SellVolume ≠ 0 →
        ∃ acc : AggTradesList, acc ≠ [] ∧
          acc.Sublist (resample unixNow aggTrades timeslotDurMS numberOfTimeslots) ∧
          (∀ t ∈ acc, InSlot first.AggTime (slotDuration first last numberOfTimeslots) k t) ∧
          e.BuyVolume + e.SellVolume = quantitySum acc ∧
          e.AvgPrice = F64.fin (costSum acc / quantitySum acc) ∧
          ∀ lo hi : ℚ,
            (∀ t ∈ resample unixNow aggTrades timeslotDurMS numberOfTimeslots,
              lo ≤ t.AggPrice ∧ t.AggPrice ≤ hi) →
            lo ≤ costSum acc / quantitySum acc ∧ costSum acc / quantitySum acc ≤ hi := by
  obtain ⟨first, last, hf, hl, hall⟩ :=
    getStatisticData_content cvt unixNow aggTrades timeslotDurMS numberOfTimeslots r hr
  refine ⟨first, last, hf, hl, ?_⟩
  intro k e he hvol
  obtain ⟨acc, hsub, hin, hsum, _, havg⟩ := hall k e he
  have hne : acc ≠ [] := by
    intro hnil
    rw [hnil] at hsum
    exact hvol (by rw [hsum]; simp [quantitySum])
  have hqacc : ∀ t ∈ acc, 0 < t.AggQty := fun t ht =>
    hq t (mem_resample unixNow aggTrades timeslotDurMS numberOfTimeslots t (hsub.subset ht))
  have hpos := quantitySum_pos acc hne hqacc
  refine ⟨acc, hne, hsub, hin, hsum, havg hvol, ?_⟩
  intro lo hi hbounds
  obtain ⟨h1, h2⟩ := costSum_bounds acc lo hi hqacc (fun t ht => hbounds t (hsub.subset ht))
  exact ⟨(le_div_iff₀ hpos).mpr h1, (div_le_iff₀ hpos).mpr h2⟩

/-- An instance in the exact-rational model: in the result for `driftTrades`, slot 1 has the
volume 2 and the average price 110 of the one trade accumulated into it. -/
theorem getStatisticData_avgPrice_weighted_mean_witness :
    (∀ t ∈ driftTrades, 0 < t.AggQty) ∧
    ∃ r e, getStatisticData amd64Cvt 3 driftTrades 1000 3 = some r ∧ r[1]? = some e ∧
      e.BuyVolume + e.SellVolume ≠ 0 ∧
      ∃ acc : AggTradesList, acc ≠ [] ∧ acc.Sublist (resample 3 driftTrades 1000 3) ∧
        e.BuyVolume + e.SellVolume = quantitySum acc ∧
        e.AvgPrice = F64.fin (costSum acc / quantitySum acc) := by
  have hq : ∀ t ∈ driftTrades, 0 < t.AggQty := by
    intro t ht
    simp [driftTrades] at ht
    rcases ht with h | h | h | h | h <;> rw [h] <;> norm_num
  have hval := getStatisticData_drift_value amd64Cvt
  have hvol : (0 : ℚ) + 2 ≠ 0 := by norm_num
  obtain ⟨first, last, _, _, hall⟩ :=
    getStatisticData_avgPrice_weighted_mean amd64Cvt 3 driftTrades 1000 3 _ hq hval
  obtain ⟨acc, hne, hsub, _, hsum, havg, _⟩ := hall 1 _ rfl hvol
  exact ⟨hq, _, _, hval, rfl, hvol, acc, hne, hsub, hsum, havg⟩


/-! ## The engine with rounded float operations, step by step -/

theorem rounded_accumulate_fields (cvt : Float64 → Int) (st st1 : Rounded.SlotLoop)
    (trade : Rounded.AggTrade) (h : Rounded.accumulate cvt st trade = some st1) :
    st1.analyzedData = st.analyzedData ∧
    st1.numberOfCurrentPeriod = st.numberOfCurrentPeriod ∧
    st1.timeslotStartMS = st.timeslotStartMS ∧ st1.timeslotEndMS = st.timeslotEndMS ∧
    st1.sellVolume =
      (if trade.AggIsBuyerMaker = true then Float64.add st.sellVolume trade.AggQty
        else st.sellVolume) ∧
    st1.buyVolume =
      (if trade.AggIsBuyerMaker = false then Float64.add st.buyVolume trade.AggQty
        else st.buyVolume) ∧
    st1.totalAssetCost =
      Float64.add st.totalAssetCost (Float64.mul trade.AggQty trade.AggPrice) ∧
    st1.avgPrice = Float64.div st1.totalAssetCost (Float64.add st1.buyVolume st1.sellVolume) ∧
    (st.numberOfCurrentPeriod = 0 → st1.priceChangePercentage = st.priceChangePercentage) ∧
    (0 < st.numberOfCurrentPeriod →
      ∃ prev, st.analyzedData[st.numberOfCurrentPeriod - 1]? = some prev ∧
        st1.priceChangePercentage = Rounded.priceChange cvt st1.avgPrice prev.AvgPrice) := by
  unfold Rounded.accumulate at h
  simp only at h
  by_cases hpos : st.numberOfCurrentPeriod > 0
  · rw [if_pos hpos] at h
    cases hprev : st.analyzedData[st.numberOfCurrentPeriod - 1]? with
    | none =>
        simp only [hprev] at h
        contradiction
    | some prev =>
        simp only [hprev] at h
        injection h with h
        subst h
        refine ⟨rfl, rfl, rfl, rfl, rfl, rfl, rfl, rfl, ?_, ?_⟩
        · intro h0
          omega
        · intro _
          exact ⟨prev, rfl, rfl⟩
  · rw [if_neg hpos] at h
    injection h with h
    subst h
    refine ⟨rfl, rfl, rfl, rfl, rfl, rfl, rfl, rfl, fun _ => rfl, ?_⟩
    intro h0
    exact absurd h0 hpos

theorem rounded_closeSlot_fields (timeslotDurationMS : Int) (st st1 : Rounded.SlotLoop)
    (h : Rounded.closeSlot timeslotDurationMS st = some st1) :
    st.numberOfCurrentPeriod < st.analyzedData.length ∧
    st1.analyzedData = st.analyzedData.set st.numberOfCurrentPeriod (Rounded.currentPeriod st) ∧
    st1.numberOfCurrentPeriod = st.numberOfCurrentPeriod + 1 ∧
    st1.timeslotStartMS = st.timeslotEndMS ∧
    st1.timeslotEndMS = st.timeslotEndMS + timeslotDurationMS ∧
    st1.buyVolume = Float64.zero ∧ st1.sellVolume = Float64.zero ∧
    st1.totalAssetCost = Float64.zero ∧
    st1.priceChangePercentage = 0 ∧ st1.avgPrice = Float64.zero := by
  unfold Rounded.closeSlot at h
  split_ifs at h with hlt
  injection h with h
  subst h
  exact ⟨hlt, rfl, rfl, rfl, rfl, rfl, rfl, rfl, rfl, rfl⟩

theorem rounded_slotStep_cases (cvt : Float64 → Int) (timeslotDurationMS : Int)
    (st st1 : Rounded.SlotLoop) (trade : Rounded.AggTrade)
    (h : Rounded.slotStep cvt timeslotDurationMS st trade = some st1) :
    ∃ mid,
      ((st.timeslotStartMS ≤ trade.AggTime ∧ trade.AggTime < st.timeslotEndMS ∧
          Rounded.accumulate cvt st trade = some mid) ∨
        (¬ (st.timeslotStartMS ≤ trade.AggTime ∧ trade.AggTime < st.timeslotEndMS) ∧
          mid = st)) ∧
      ((trade.AggTime ≥ mid.timeslotEndMS ∧
          Rounded.closeSlot timeslotDurationMS mid = some st1) ∨
        (¬ trade.AggTime ≥ mid.timeslotEndMS ∧ st1 = mid)) := by
  unfold Rounded.slotStep at h
  split at h
  · contradiction
  · rename_i mid hmid
    refine ⟨mid, ?_, ?_⟩
    · by_cases hin : st.timeslotStartMS ≤ trade.AggTime ∧ trade.AggTime < st.timeslotEndMS
      · rw [if_pos hin] at hmid
        exact Or.inl ⟨hin.1, hin.2, hmid⟩
      · rw [if_neg hin] at hmid
        injection hmid with hmid
        exact Or.inr ⟨hin, hmid.symm⟩
    · by_cases hend : trade.AggTime ≥ mid.timeslotEndMS
      · rw [if_pos hend] at h
        exact Or.inl ⟨hend, h⟩
      · rw [if_neg hend] at h
        injection h with h
        exact Or.inr ⟨hend, h.symm⟩

/-- A property of the processed trades and the loop state that the loop body
carries from `done` to `done ++ [trade]` holds of the whole list when the loop
ends. -/
theorem rounded_slotLoop_prefix_invariant (cvt : Float64 → Int) (timeslotDurationMS : Int)
    (Inv : Rounded.AggTradesList → Rounded.SlotLoop → Prop)
    (hstep : ∀ done trade st st1, Inv done st →
      Rounded.slotStep cvt timeslotDurationMS st trade = some st1 → Inv (done ++ [trade]) st1)
    (rest done : Rounded.AggTradesList) (st0 st : Rounded.SlotLoop) (h0 : Inv done st0)
    (h : Rounded.slotLoop cvt timeslotDurationMS st0 rest = some st) : Inv (done ++ rest) st := by
  induction rest generalizing done st0 with
  | nil =>
      unfold Rounded.slotLoop at h
      injection h with h
      rw [← h, List.append_nil]
      exact h0
  | cons trade more ih =>
      unfold Rounded.slotLoop at h
      split at h
      · contradiction
      · rename_i st1 hst1
        have h1 := hstep done trade st0 st1 h0 hst1
        have := ih (done ++ [trade]) st1 h1 h
        simpa using this

/-- A returning call of the engine ran the second loop to its end on the
resampled list, with a positive number of slots. -/
theorem rounded_getStatisticData_some (cvt : Float64 → Int) (unixNow : Int)
    (aggTrades : Rounded.AggTradesList) (timeslotDurMS numberOfTimeslots : Int)
    (r : Rounded.analyzedDataOneSymbolByPeriods)
    (h : Rounded.getStatisticData cvt unixNow aggTrades timeslotDurMS numberOfTimeslots = some r) :
    ∃ first last st,
      (Rounded.resample unixNow aggTrades timeslotDurMS numberOfTimeslots).head? = some first ∧
      (Rounded.resample unixNow aggTrades timeslotDurMS numberOfTimeslots).getLast? = some last ∧
      0 < numberOfTimeslots ∧
      Rounded.slotLoop cvt (Rounded.slotDuration first last numberOfTimeslots)
        (Rounded.initLoop first (Rounded.slotDuration first last numberOfTimeslots)
          numberOfTimeslots)
        (Rounded.resample unixNow aggTrades timeslotDurMS numberOfTimeslots) = some st ∧
      st.analyzedData = r := by
  unfold Rounded.getStatisticData at h
  simp only at h
  split at h
  · rename_i last first hl hf
    split_ifs at h with h0 hneg
    split at h
    · contradiction
    · rename_i st hst
      injection h with h
      exact ⟨first, last, st, hf, hl, by omega, hst, h⟩
  · contradiction

/-- The number of slots of the result does not change in an iteration. -/
theorem rounded_slotStep_length (cvt : Float64 → Int) (timeslotDurationMS : Int)
    (st st1 : Rounded.SlotLoop) (trade : Rounded.AggTrade)
    (h : Rounded.slotStep cvt timeslotDurationMS st trade = some st1) :
    st1.analyzedData.length = st.analyzedData.length := by
  obtain ⟨mid, hmid, hlast⟩ := rounded_slotStep_cases cvt timeslotDurationMS st st1 trade h
  have hm : mid.analyzedData.length = st.analyzedData.length := by
    rcases hmid with ⟨_, _, hacc⟩ | ⟨_, heq⟩
    · rw [(rounded_accumulate_fields cvt st mid trade hacc).1]
    · rw [heq]
  rcases hlast with ⟨_, hclose⟩ | ⟨_, heq⟩
  · rw [(rounded_closeSlot_fields timeslotDurationMS mid st1 hclose).2.1, List.length_set, hm]
  · rw [heq, hm]

/-- A returned result has `numberOfTimeslots` slots. -/
theorem rounded_getStatisticData_length (cvt : Float64 → Int) (unixNow : Int)
    (aggTrades : Rounded.AggTradesList) (timeslotDurMS numberOfTimeslots : Int)
    (r : Rounded.analyzedDataOneSymbolByPeriods)
    (h : Rounded.getStatisticData cvt unixNow aggTrades timeslotDurMS numberOfTimeslots = some r) :
    0 < numberOfTimeslots ∧ (r.length : Int) = numberOfTimeslots := by
  obtain ⟨first, last, st, _, _, hn, hloop, hdata⟩ :=
    rounded_getStatisticData_some cvt unixNow aggTrades timeslotDurMS numberOfTimeslots r h
  have hlen := rounded_slotLoop_prefix_invariant cvt _
    (fun _ s => s.analyzedData.length = numberOfTimeslots.toNat)
    (fun _ trade s s1 hs hstep =>
      (rounded_slotStep_length cvt _ s s1 trade hstep).trans hs)
    _ [] _ st (by simp [Rounded.initLoop]) hloop
  simp only at hlen
  rw [hdata] at hlen
  refine ⟨hn, ?_⟩
  rw [hlen]
  exact Int.toNat_of_nonneg (le_of_lt hn)

/-! ## The price change of the rounded engine -/

theorem rounded_accumulate_priceChangeInv (cvt : Float64 → Int) (trade : Rounded.AggTrade)
    (st st1 : Rounded.SlotLoop) (hinv : Rounded.PriceChangeInv cvt st)
    (h : Rounded.accumulate cvt st trade = some st1) : Rounded.PriceChangeInv cvt st1 := by
  obtain ⟨hdata, hcur, _, _, _, _, _, _, hpc0, hpc⟩ := rounded_accumulate_fields cvt st st1 trade h
  obtain ⟨i1, i2, i3, i4, _⟩ := hinv
  refine ⟨?_, ?_, ?_, ?_, ?_⟩
  · rw [hdata]
    exact i1
  · intro h0
    rw [hcur] at h0
    rw [hpc0 h0]
    exact i2 h0
  · rw [hdata, hcur]
    exact i3
  · rw [hdata]
    exact i4
  · intro p hpos hp _
    rw [hcur] at hpos hp
    rw [hdata] at hp
    obtain ⟨prev, hprev, hval⟩ := hpc hpos
    rw [hprev] at hp
    injection hp with hp
    rw [← hp]
    exact hval

theorem rounded_closeSlot_priceChangeInv (cvt : Float64 → Int) (timeslotDurationMS : Int)
    (st st1 : Rounded.SlotLoop) (hinv : Rounded.PriceChangeInv cvt st)
    (h : Rounded.closeSlot timeslotDurationMS st = some st1) : Rounded.PriceChangeInv cvt st1 := by
  obtain ⟨hlt, hdata, hcur, _, _, hb, hs, _, hpc, _⟩ :=
    rounded_closeSlot_fields timeslotDurationMS st st1 h
  obtain ⟨i1, i2, i3, i4, i5⟩ := hinv
  refine ⟨?_, ?_, ?_, ?_, ?_⟩
  · intro e he
    rw [hdata, List.getElem?_set] at he
    split_ifs at he with h0
    · injection he with he
      rw [← he]
      exact i2 h0
    · exact i1 e he
  · intro h0
    omega
  · intro j e hj he
    rw [hcur] at hj
    rw [hdata, List.getElem?_set_ne (by omega)] at he
    exact i3 j e (by omega) he
  · intro j p e hp he hvol
    rw [hdata] at hp he
    by_cases hj : j + 1 = st.numberOfCurrentPeriod
    · rw [List.getElem?_set_ne (by omega)] at hp
      rw [← hj, List.getElem?_set_self (by omega)] at he
      injection he with he
      rw [← he] at hvol ⊢
      have hp1 : st.analyzedData[st.numberOfCurrentPeriod - 1]? = some p := by
        rw [← hj]
        exact hp
      exact i5 p (by omega) hp1 hvol
    · rw [List.getElem?_set_ne (by omega)] at he
      by_cases hj0 : j = st.numberOfCurrentPeriod
      · have hz := i3 (j + 1) e (by omega) he
        rw [hz] at hvol
        exact absurd ⟨rfl, rfl⟩ hvol
      · rw [List.getElem?_set_ne (fun hc => hj0 hc.symm)] at hp
        exact i4 j p e hp he hvol
  · intro p _ _ hvol
    exact absurd ⟨hb, hs⟩ hvol

theorem rounded_initLoop_priceChangeInv (cvt : Float64 → Int) (first : Rounded.AggTrade)
    (timeslotDurationMS numberOfTimeslots : Int) :
    Rounded.PriceChangeInv cvt (Rounded.initLoop first timeslotDurationMS numberOfTimeslots) := by
  have hz : ∀ (j : Nat) (e : Rounded.analyzedDataOneSymbolOnePeriod),
      (Rounded.initLoop first timeslotDurationMS numberOfTimeslots).analyzedData[j]? = some e →
      e = Rounded.zeroPeriod := by
    intro j e he
    exact List.eq_of_mem_replicate (List.getElem?_mem he)
  refine ⟨?_, fun _ => rfl, fun j e _ he => hz j e he, ?_, ?_⟩
  · intro e he
    rw [hz 0 e he]
    rfl
  · intro j p e _ he hvol
    rw [hz (j + 1) e he] at hvol
    exact absurd ⟨rfl, rfl⟩ hvol
  · intro p hpos
    exact absurd hpos (by simp [Rounded.initLoop])

theorem rounded_slotStep_priceChangeInv (cvt : Float64 → Int) (timeslotDurationMS : Int)
    (st st1 : Rounded.SlotLoop) (trade : Rounded.AggTrade) (hinv : Rounded.PriceChangeInv cvt st)
    (h : Rounded.slotStep cvt timeslotDurationMS st trade = some st1) :
    Rounded.PriceChangeInv cvt st1 := by
  obtain ⟨mid, hmid, hlast⟩ := rounded_slotStep_cases cvt timeslotDurationMS st st1 trade h
  have hm : Rounded.PriceChangeInv cvt mid := by
    rcases hmid with ⟨_, _, hacc⟩ | ⟨_, heq⟩
    · exact rounded_accumulate_priceChangeInv cvt trade st mid hinv hacc
    · rw [heq]
      exact hinv
  rcases hlast with ⟨_, hclose⟩ | ⟨_, heq⟩
  · exact rounded_closeSlot_priceChangeInv cvt timeslotDurationMS mid st1 hm hclose
  · rw [heq]
    exact hm

/-- The sum of two volumes that are both the initial `+0` is a zero. -/
theorem volume_zero_of_untouched (b s : Float64)
    (h : (Float64.add b s).isZero = false) : ¬ (b = Float64.zero ∧ s = Float64.zero) := by
  rintro ⟨hb, hs⟩
  rw [hb, hs] at h
  exact absurd h (by decide)

/-- Claim C5: when the engine returns, slot 0 of the result has
`PriceChangePercentage = 0`, and for every index `k > 0` at which slot `k` has
a non-zero volume `BuyVolume + SellVolume`, its `PriceChangePercentage` is the
value of the float expression
`int(math.Round(100 * (avgPrice - prevAvgPrice) / prevAvgPrice))` on the
`AvgPrice` of slot `k` and of slot `k - 1`, every float operation rounded as
`float64` does. -/
theorem getStatisticData_price_change_rounded (cvt : Float64 → Int) (unixNow : Int)
    (aggTrades : Rounded.AggTradesList) (timeslotDurMS numberOfTimeslots : Int)
    (r : Rounded.analyzedDataOneSymbolByPeriods)
    (hr : Rounded.getStatisticData cvt unixNow aggTrades timeslotDurMS numberOfTimeslots =
      some r) :
    (∃ e, r[0]? = some e ∧ e.PriceChangePercentage = 0) ∧
    ∀ k cur prev, 0 < k → r[k]? = some cur → r[k - 1]? = some prev →
      (Float64.add cur.BuyVolume cur.SellVolume).isZero = false →
      cur.PriceChangePercentage =
        Float64.toInt cvt
          (Float64.mathRound
            (Float64.div
              (Float64.mul Float64.hundred (Float64.sub cur.AvgPrice prev.AvgPrice))
              prev.AvgPrice)) := by
  obtain ⟨hn, hlen⟩ :=
    rounded_getStatisticData_length cvt unixNow aggTrades timeslotDurMS numberOfTimeslots r hr
  obtain ⟨first, last, st, _, _, _, hloop, hdata⟩ :=
    rounded_getStatisticData_some cvt unixNow aggTrades timeslotDurMS numberOfTimeslots r hr
  have hpc := rounded_slotLoop_prefix_invariant cvt _ (fun _ s => Rounded.PriceChangeInv cvt s)
    (fun _ trade s s1 hs hstep => rounded_slotStep_priceChangeInv cvt _ s s1 trade hs hstep)
    _ [] _ st (rounded_initLoop_priceChangeInv cvt first _ numberOfTimeslots) hloop
  obtain ⟨p1, _, _, p4, _⟩ := hpc
  rw [hdata] at p1 p4
  constructor
  · have h0 : 0 < r.length := by
      have : (0 : Int) < r.length := by
        rw [hlen]
        exact hn
      exact_mod_cast this
    exact ⟨r[0], List.getElem?_eq_getElem h0, p1 _ (List.getElem?_eq_getElem h0)⟩
  · intro k cur prev hk hcur hprev hvol
    have hk1 : k - 1 + 1 = k := by omega
    have hcur1 : r[k - 1 + 1]? = some cur := by
      rw [hk1]
      exact hcur
    exact p4 (k - 1) prev cur hprev hcur1 (volume_zero_of_untouched _ _ hvol)

set_option maxRecDepth 100000 in
theorem getStatisticData_halfStep_value :
    Rounded.getStatisticData amd64Convert 1 halfStepTrades 1000 2 =
      some [ { BuyVolume := Float64.fin false 4503599627370496 (-52), SellVolume := Float64.zero,
               BuyVolumePercentage := 100, SellVolumePercentage := 0, PriceChangePercentage := 0,
               AvgPrice := Float64.fin false 7022800668930867 (-45) },
             { BuyVolume := Float64.zero, SellVolume := Float64.fin false 4503599627370496 (-52),
               BuyVolumePercentage := 0, SellVolumePercentage := 100,
               PriceChangePercentage := 5,
               AvgPrice := Float64.fin false 7338826699032756 (-45) } ] := by
  decide

/-- Witness for claim C5: in the result for `halfStepTrades` the average
prices of slots 0 and 1 are the floats nearest to `199.6` and `208.582`, and
the price change of slot 1 is the value of the float expression, which is 5. -/
theorem getStatisticData_price_change_rounded_witness :
    ∃ r cur prev, Rounded.getStatisticData amd64Convert 1 halfStepTrades 1000 2 = some r ∧
      r[1]? = some cur ∧ r[0]? = some prev ∧
      (Float64.add cur.BuyVolume cur.SellVolume).isZero = false ∧
      prev.AvgPrice = Float64.ofDecimal 1996 1 ∧ cur.AvgPrice = Float64.ofDecimal 208582 3 ∧
      cur.PriceChangePercentage = 5 ∧
      cur.PriceChangePercentage =
        Float64.toInt amd64Convert
          (Float64.mathRound
            (Float64.div
              (Float64.mul Float64.hundred (Float64.sub cur.AvgPrice prev.AvgPrice))
              prev.AvgPrice)) :=
  ⟨_, _, _, getStatisticData_halfStep_value, rfl, rfl, by decide, by decide, by decide, rfl,
    (getStatisticData_price_change_rounded amd64Convert 1 halfStepTrades 1000 2 _
      getStatisticData_halfStep_value).2 1 _ _ (by decide) rfl rfl (by decide)⟩

/-! ## What the slots of the rounded engine hold -/

theorem rounded_sideVolume_append (isBuyerMaker : Bool) (acc : Rounded.AggTradesList)
    (trade : Rounded.AggTrade) :
    Rounded.sideVolume isBuyerMaker (acc ++ [trade]) =
      (if trade.AggIsBuyerMaker = isBuyerMaker
        then Float64.add (Rounded.sideVolume isBuyerMaker acc) trade.AggQty
        else Rounded.sideVolume isBuyerMaker acc) := by
  unfold Rounded.sideVolume Float64.sum
  by_cases h : trade.AggIsBuyerMaker = isBuyerMaker
  · simp [List.filter_append, h]
  · simp [List.filter_append, h]

theorem rounded_costSum_append (acc : Rounded.AggTradesList) (trade : Rounded.AggTrade) :
    Rounded.costSum (acc ++ [trade]) =
      Float64.add (Rounded.costSum acc) (Float64.mul trade.AggQty trade.AggPrice) := by
  simp [Rounded.costSum, Float64.sum]

theorem rounded_holdsTrades_mono (firstTime slotMs : Int) (done : Rounded.AggTradesList)
    (trade : Rounded.AggTrade) (k : Nat) (e : Rounded.analyzedDataOneSymbolOnePeriod)
    (acc : Rounded.AggTradesList) (h : Rounded.HoldsTrades firstTime slotMs done k e acc) :
    Rounded.HoldsTrades firstTime slotMs (done ++ [trade]) k e acc :=
  ⟨h.1.trans (List.sublist_append_left _ _), h.2⟩

theorem rounded_contentInv_mono (firstTime slotMs : Int) (done : Rounded.AggTradesList)
    (trade : Rounded.AggTrade) (st : Rounded.SlotLoop)
    (h : Rounded.ContentInv firstTime slotMs done st) :
    Rounded.ContentInv firstTime slotMs (done ++ [trade]) st := by
  obtain ⟨h1, h2, ⟨acc, hacc, hcost⟩, h4⟩ := h
  refine ⟨h1, h2, ⟨acc, rounded_holdsTrades_mono _ _ _ _ _ _ _ hacc, hcost⟩, ?_⟩
  intro j e he
  obtain ⟨acc1, hacc1⟩ := h4 j e he
  exact ⟨acc1, rounded_holdsTrades_mono _ _ _ _ _ _ _ hacc1⟩

theorem rounded_accumulate_contentInv (cvt : Float64 → Int) (firstTime slotMs : Int)
    (done : Rounded.AggTradesList) (trade : Rounded.AggTrade) (st mid : Rounded.SlotLoop)
    (hinv : Rounded.ContentInv firstTime slotMs done st)
    (hlo : st.timeslotStartMS ≤ trade.AggTime) (hhi : trade.AggTime < st.timeslotEndMS)
    (h : Rounded.accumulate cvt st trade = some mid) :
    Rounded.ContentInv firstTime slotMs (done ++ [trade]) mid := by
  obtain ⟨hdata, hcur, hstart, hend, hs, hb, hcost, havg, _, _⟩ :=
    rounded_accumulate_fields cvt st mid trade h
  obtain ⟨i1, i2, ⟨acc, ⟨a1, a2, a3, a4, _, _⟩, acost⟩, i4⟩ := hinv
  have a3 : st.buyVolume = Rounded.sideVolume false acc := a3
  have a4 : st.sellVolume = Rounded.sideVolume true acc := a4
  have hbuy : mid.buyVolume = Rounded.sideVolume false (acc ++ [trade]) := by
    rw [rounded_sideVolume_append, hb, a3]
  have hsell : mid.sellVolume = Rounded.sideVolume true (acc ++ [trade]) := by
    rw [rounded_sideVolume_append, hs, a4]
  have hcost1 : mid.totalAssetCost = Rounded.costSum (acc ++ [trade]) := by
    rw [rounded_costSum_append, ← acost, hcost]
  refine ⟨by rw [hstart, hcur]; exact i1, by rw [hend, hcur]; exact i2,
    ⟨acc ++ [trade], ?_, hcost1⟩, ?_⟩
  · refine ⟨List.Sublist.append a1 (List.Sublist.refl _), ?_, hbuy, hsell, ?_, ?_⟩
    · intro t ht
      rw [hcur]
      rcases List.mem_append.mp ht with hmem | hmem
      · exact a2 t hmem
      · rw [List.mem_singleton.mp hmem]
        exact ⟨by rw [← i1]; exact hlo, by rw [← i2]; exact hhi⟩
    · intro hnil
      simp at hnil
    · intro _
      show mid.avgPrice = Float64.div _ (Float64.add mid.buyVolume mid.sellVolume)
      rw [havg, hcost1]
  · intro j e he
    rw [hdata] at he
    obtain ⟨acc1, hacc1⟩ := i4 j e he
    exact ⟨acc1, rounded_holdsTrades_mono _ _ _ _ _ _ _ hacc1⟩

theorem rounded_closeSlot_contentInv (firstTime slotMs : Int) (done : Rounded.AggTradesList)
    (mid st1 : Rounded.SlotLoop) (hinv : Rounded.ContentInv firstTime slotMs done mid)
    (h : Rounded.closeSlot slotMs mid = some st1) :
    Rounded.ContentInv firstTime slotMs done st1 := by
  obtain ⟨hlt, hdata, hcur, hstart, hend, hb, hs, hcost, _, havg⟩ :=
    rounded_closeSlot_fields slotMs mid st1 h
  obtain ⟨_, i2, ⟨acc, hacc, _⟩, i4⟩ := hinv
  refine ⟨?_, ?_, ⟨[], ?_, by rw [hcost]; rfl⟩, ?_⟩
  · rw [hstart, hcur, i2]
    push_cast
    ring
  · rw [hend, hcur, i2]
    push_cast
    ring
  · refine ⟨List.nil_sublist _, ?_, ?_, ?_, ?_, ?_⟩
    · intro t ht
      simp at ht
    · show st1.buyVolume = _
      rw [hb]
      rfl
    · show st1.sellVolume = _
      rw [hs]
      rfl
    · intro _
      exact havg
    · intro hne
      exact absurd rfl hne
  · intro j e he
    rw [hdata, List.getElem?_set] at he
    split_ifs at he with hj
    · injection he with he
      rw [← he, ← hj]
      exact ⟨acc, hacc⟩
    · exact i4 j e he

theorem rounded_slotStep_contentInv (cvt : Float64 → Int) (firstTime slotMs : Int)
    (done : Rounded.AggTradesList) (trade : Rounded.AggTrade) (st st1 : Rounded.SlotLoop)
    (hinv : Rounded.ContentInv firstTime slotMs done st)
    (h : Rounded.slotStep cvt slotMs st trade = some st1) :
    Rounded.ContentInv firstTime slotMs (done ++ [trade]) st1 := by
  obtain ⟨mid, hmid, hlast⟩ := rounded_slotStep_cases cvt slotMs st st1 trade h
  have hmidInv : Rounded.ContentInv firstTime slotMs (done ++ [trade]) mid := by
    rcases hmid with ⟨hlo, hhi, hacc⟩ | ⟨_, heq⟩
    · exact rounded_accumulate_contentInv cvt firstTime slotMs done trade st mid hinv hlo hhi hacc
    · rw [heq]
      exact rounded_contentInv_mono _ _ _ _ _ hinv
  rcases hlast with ⟨_, hclose⟩ | ⟨_, heq⟩
  · exact rounded_closeSlot_contentInv firstTime slotMs _ mid st1 hmidInv hclose
  · rw [heq]
    exact hmidInv

theorem rounded_initLoop_contentInv (first : Rounded.AggTrade) (slotMs numberOfTimeslots : Int) :
    Rounded.ContentInv first.AggTime slotMs []
      (Rounded.initLoop first slotMs numberOfTimeslots) := by
  have hall : ∀ j, Rounded.HoldsTrades first.AggTime slotMs [] j Rounded.zeroPeriod [] := by
    intro j
    refine ⟨List.nil_sublist _, ?_, rfl, rfl, fun _ => rfl, ?_⟩
    · intro t ht
      simp at ht
    · intro hne
      exact absurd rfl hne
  refine ⟨by simp [Rounded.initLoop], by simp [Rounded.initLoop], ⟨[], hall 0, rfl⟩, ?_⟩
  intro j e he
  have hz : e = Rounded.zeroPeriod := List.eq_of_mem_replicate (List.getElem?_mem he)
  rw [hz]
  exact ⟨[], hall j⟩

/-- Every slot of a returned result holds trades of the resampled list, in
the sense of `Rounded.HoldsTrades`, for the slot length the engine recomputed. -/
theorem rounded_getStatisticData_content (cvt : Float64 → Int) (unixNow : Int)
    (aggTrades : Rounded.AggTradesList) (timeslotDurMS numberOfTimeslots : Int)
    (r : Rounded.analyzedDataOneSymbolByPeriods)
    (hr : Rounded.getStatisticData cvt unixNow aggTrades timeslotDurMS numberOfTimeslots =
      some r) :
    ∃ first last,
      (Rounded.resample unixNow aggTrades timeslotDurMS numberOfTimeslots).head? = some first ∧
      (Rounded.resample unixNow aggTrades timeslotDurMS numberOfTimeslots).getLast? = some last ∧
      ∀ k e, r[k]? = some e →
        ∃ acc, Rounded.HoldsTrades first.AggTime (Rounded.slotDuration first last numberOfTimeslots)
          (Rounded.resample unixNow aggTrades timeslotDurMS numberOfTimeslots) k e acc := by
  obtain ⟨first, last, st, hf, hl, _, hloop, hdata⟩ :=
    rounded_getStatisticData_some cvt unixNow aggTrades timeslotDurMS numberOfTimeslots r hr
  refine ⟨first, last, hf, hl, ?_⟩
  have hinv := rounded_slotLoop_prefix_invariant cvt
    (Rounded.slotDuration first last numberOfTimeslots)
    (Rounded.ContentInv first.AggTime (Rounded.slotDuration first last numberOfTimeslots))
    (fun done trade st st1 hi hs =>
      rounded_slotStep_contentInv cvt first.AggTime _ done trade st st1 hi hs)
    (Rounded.resample unixNow aggTrades timeslotDurMS numberOfTimeslots) [] _ st
    (rounded_initLoop_contentInv first _ numberOfTimeslots) hloop
  rw [List.nil_append] at hinv
  have hstored := hinv.2.2.2
  rw [hdata] at hstored
  exact hstored

set_option maxRecDepth 100000 in
theorem getStatisticData_tenth_value :
    Rounded.getStatisticData amd64Convert 1 tenthTrades 1000 1 =
      some [ { BuyVolume := Float64.fin false 7205759403792794 (-56), SellVolume := Float64.zero,
               BuyVolumePercentage := 100, SellVolumePercentage := 0, PriceChangePercentage := 0,
               AvgPrice := Float64.fin false 6755399441055745 (-51) } ] := by
  decide

set_option maxRecDepth 100000 in
theorem tenthTrades_prices :
    (∀ t ∈ tenthTrades, t.AggQty.isPositive = true ∧ t.AggPrice.isPositive = true) ∧
    ∀ t ∈ Rounded.resample 1 tenthTrades 1000 1,
      t.AggPrice = Float64.fin false 6755399441055744 (-51) ∧
      Float64.lt t.AggPrice (Float64.fin false 6755399441055745 (-51)) = true := by
  decide

/-- Claim C19 (counterexample): one trade of quantity `0.1` at price `3` is
accumulated into the single slot.  The quantities and the prices are positive
and the list is ascending; the volume of the slot is not zero, and its
`AvgPrice` is `6755399441055745 * 2^-51`, the float next above `3`, so it is
greater than the price of every trade. -/
theorem avgPrice_above_every_price :
    (∀ t ∈ tenthTrades, t.AggQty.isPositive = true ∧ t.AggPrice.isPositive = true) ∧
    Rounded.TimeSorted tenthTrades ∧
    ∃ r e, Rounded.getStatisticData amd64Convert 1 tenthTrades 1000 1 = some r ∧
      r[0]? = some e ∧ (Float64.add e.BuyVolume e.SellVolume).isZero = false ∧
      e.AvgPrice = Float64.fin false 6755399441055745 (-51) ∧
      ∀ t ∈ Rounded.resample 1 tenthTrades 1000 1,
        t.AggPrice = Float64.fin false 6755399441055744 (-51) ∧
        Float64.lt t.AggPrice e.AvgPrice = true :=
  ⟨tenthTrades_prices.1, by decide, _, _, getStatisticData_tenth_value, rfl, by decide, rfl,
    tenthTrades_prices.2⟩

/-- Claim C19 (as amended): when the engine returns, every slot of the result
with a non-zero volume `BuyVolume + SellVolume` holds a non-empty list `acc`
of trades of the resampled list, in order and all in the interval of that
slot, such that `BuyVolume` and `SellVolume` are the float sums of their
quantities by side and `AvgPrice` is the float quotient of the float sum of
their rounded products `AggQty * AggPrice` by the float sum
`BuyVolume + SellVolume`: the weighted mean as `float64` computes it, every
operation rounded. -/
theorem getStatisticData_avgPrice_rounded (cvt : Float64 → Int) (unixNow : Int)
    (aggTrades : Rounded.AggTradesList) (timeslotDurMS numberOfTimeslots : Int)
    (r : Rounded.analyzedDataOneSymbolByPeriods)
    (hr : Rounded.getStatisticData cvt unixNow aggTrades timeslotDurMS numberOfTimeslots =
      some r) :
    ∃ first last,
      (Rounded.resample unixNow aggTrades timeslotDurMS numberOfTimeslots).head? = some first ∧
      (Rounded.resample unixNow aggTrades timeslotDurMS numberOfTimeslots).getLast? = some last ∧
      ∀ k e, r[k]? = some e → (Float64.add e.BuyVolume e.SellVolume).isZero = false →
        ∃ acc : Rounded.AggTradesList, acc ≠ [] ∧
          acc.Sublist (Rounded.resample unixNow aggTrades timeslotDurMS numberOfTimeslots) ∧
          (∀ t ∈ acc,
            Rounded.InSlot first.AggTime (Rounded.slotDuration first last numberOfTimeslots) k t) ∧
          e.BuyVolume = Rounded.sideVolume false acc ∧
          e.SellVolume = Rounded.sideVolume true acc ∧
          e.AvgPrice =
            Float64.div (Rounded.costSum acc)
              (Float64.add (Rounded.sideVolume false acc) (Rounded.sideVolume true acc)) := by
  obtain ⟨first, last, hf, hl, hall⟩ :=
    rounded_getStatisticData_content cvt unixNow aggTrades timeslotDurMS numberOfTimeslots r hr
  refine ⟨first, last, hf, hl, ?_⟩
  intro k e he hvol
  obtain ⟨acc, hsub, hin, hbuy, hsell, _, havg⟩ := hall k e he
  have hne : acc ≠ [] := by
    intro hnil
    rw [hnil] at hbuy hsell
    exact volume_zero_of_untouched _ _ hvol ⟨hbuy, hsell⟩
  refine ⟨acc, hne, hsub, hin, hbuy, hsell, ?_⟩
  rw [havg hne, hbuy, hsell]

/-- Witness for claim C19: in the result for `tenthTrades` the single slot has
a non-zero volume and holds a non-empty list of trades whose float cost sum
over the float volume sum is its `AvgPrice`. -/
theorem getStatisticData_avgPrice_rounded_witness :
    ∃ r e, Rounded.getStatisticData amd64Convert 1 tenthTrades 1000 1 = some r ∧
      r[0]? = some e ∧ (Float64.add e.BuyVolume e.SellVolume).isZero = false ∧
      ∃ acc : Rounded.AggTradesList, acc ≠ [] ∧
        acc.Sublist (Rounded.resample 1 tenthTrades 1000 1) ∧
        e.BuyVolume = Rounded.sideVolume false acc ∧
        e.SellVolume = Rounded.sideVolume true acc ∧
        e.AvgPrice =
          Float64.div (Rounded.costSum acc)
            (Float64.add (Rounded.sideVolume false acc) (Rounded.sideVolume true acc)) := by
  have hvol : (Float64.add (Float64.fin false 7205759403792794 (-56)) Float64.zero).isZero =
      false := by decide
  obtain ⟨first, last, _, _, hall⟩ :=
    getStatisticData_avgPrice_rounded amd64Convert 1 tenthTrades 1000 1 _
      getStatisticData_tenth_value
  obtain ⟨acc, hne, hsub, _, hbuy, hsell, havg⟩ := hall 0 _ rfl hvol
  exact ⟨_, _, getStatisticData_tenth_value, rfl, hvol, acc, hne, hsub, hbuy, hsell, havg⟩

/-! ## The single slot of the rounded engine -/

/-- Once every slot is stored, the loop cannot store again: the result stays
as it is for as long as the loop runs. -/
theorem rounded_slotLoop_full (cvt : Float64 → Int) (timeslotDurationMS : Int)
    (rest : Rounded.AggTradesList) (st st1 : Rounded.SlotLoop)
    (hfull : st.analyzedData.length ≤ st.numberOfCurrentPeriod)
    (h : Rounded.slotLoop cvt timeslotDurationMS st rest = some st1) :
    st1.analyzedData = st.analyzedData := by
  induction rest generalizing st with
  | nil =>
      unfold Rounded.slotLoop at h
      injection h with h
      rw [h]
  | cons trade more ih =>
      unfold Rounded.slotLoop at h
      split at h
      · contradiction
      · rename_i st2 hst2
        obtain ⟨mid, hmid, hlast⟩ := rounded_slotStep_cases cvt timeslotDurationMS st st2 trade hst2
        have hm : mid.analyzedData = st.analyzedData ∧
            mid.numberOfCurrentPeriod = st.numberOfCurrentPeriod := by
          rcases hmid with ⟨_, _, hacc⟩ | ⟨_, heq⟩
          · exact ⟨(rounded_accumulate_fields cvt st mid trade hacc).1,
              (rounded_accumulate_fields cvt st mid trade hacc).2.1⟩
          · rw [heq]
            exact ⟨rfl, rfl⟩
        rcases hlast with ⟨_, hclose⟩ | ⟨_, heq⟩
        · have hlt := (rounded_closeSlot_fields timeslotDurationMS mid st2 hclose).1
          rw [hm.1, hm.2] at hlt
          omega
        · rw [heq] at h
          rw [ih mid (by rw [hm.1, hm.2]; exact hfull) h, hm.1]

/-- The single slot, from a state in which it is still open: when a trade at
or past the end of the slot follows, the stored volumes are the accumulators
with the quantities of the trades before the end of the slot added, by side
and in list order. -/
theorem rounded_slotLoop_single (cvt : Float64 → Int) (timeslotDurationMS : Int)
    (rest : Rounded.AggTradesList) (st st1 : Rounded.SlotLoop)
    (hcur : st.numberOfCurrentPeriod = 0) (hlen : st.analyzedData.length = 1)
    (hlo : ∀ t ∈ rest, st.timeslotStartMS ≤ t.AggTime) (hsorted : Rounded.TimeSorted rest)
    (hclose : ∃ t ∈ rest, st.timeslotEndMS ≤ t.AggTime)
    (h : Rounded.slotLoop cvt timeslotDurationMS st rest = some st1) :
    ∃ e, st1.analyzedData = [e] ∧
      e.BuyVolume =
        (((rest.filter (fun t => decide (t.AggTime < st.timeslotEndMS))).filter
          (fun t => t.AggIsBuyerMaker == false)).map (fun t => t.AggQty)).foldl
            Float64.add st.buyVolume ∧
      e.SellVolume =
        (((rest.filter (fun t => decide (t.AggTime < st.timeslotEndMS))).filter
          (fun t => t.AggIsBuyerMaker == true)).map (fun t => t.AggQty)).foldl
            Float64.add st.sellVolume := by
  induction rest generalizing st with
  | nil =>
      obtain ⟨t, ht, _⟩ := hclose
      simp at ht
  | cons trade more ih =>
      unfold Rounded.slotLoop at h
      split at h
      · contradiction
      · rename_i st2 hst2
        obtain ⟨mid, hmid, hlast⟩ := rounded_slotStep_cases cvt timeslotDurationMS st st2 trade hst2
        have hstart := hlo trade (List.mem_cons_self _ _)
        have hsorted1 : Rounded.TimeSorted more := (List.pairwise_cons.mp hsorted).2
        by_cases hin : trade.AggTime < st.timeslotEndMS
        · rcases hmid with ⟨_, _, hacc⟩ | ⟨hout, _⟩
          · obtain ⟨hdata, hc, hs1, he1, hs, hb, _⟩ := rounded_accumulate_fields cvt st mid trade hacc
            rcases hlast with ⟨hge, _⟩ | ⟨_, heq⟩
            · rw [he1] at hge
              omega
            · rw [heq] at h
              have hclose1 : ∃ t ∈ more, mid.timeslotEndMS ≤ t.AggTime := by
                obtain ⟨t, ht, hte⟩ := hclose
                rcases List.mem_cons.mp ht with heq1 | hmem
                · rw [heq1] at hte
                  omega
                · exact ⟨t, hmem, by rw [he1]; exact hte⟩
              obtain ⟨e, hres, hbuy, hsell⟩ := ih mid (by rw [hc]; exact hcur)
                (by rw [hdata]; exact hlen)
                (fun t ht => by rw [hs1]; exact hlo t (List.mem_cons_of_mem _ ht))
                hsorted1 hclose1 h
              refine ⟨e, hres, ?_, ?_⟩
              · rw [hbuy, he1, hb]
                cases hflag : trade.AggIsBuyerMaker <;> simp [List.filter_cons, hin, hflag]
              · rw [hsell, he1, hs]
                cases hflag : trade.AggIsBuyerMaker <;> simp [List.filter_cons, hin, hflag]
          · exact absurd ⟨hstart, hin⟩ hout
        · have hmideq : mid = st := by
            rcases hmid with ⟨_, hlt, _⟩ | ⟨_, heq⟩
            · exact absurd hlt hin
            · exact heq
          rw [hmideq] at hlast
          rcases hlast with ⟨_, hcl⟩ | ⟨hnot, _⟩
          · obtain ⟨_, hdata, hc, _⟩ := rounded_closeSlot_fields timeslotDurationMS st st2 hcl
            have hfull : st2.analyzedData.length ≤ st2.numberOfCurrentPeriod := by
              rw [hdata, hc, List.length_set, hlen, hcur]
            have hkeep := rounded_slotLoop_full cvt timeslotDurationMS more st2 st1 hfull h
            obtain ⟨z, hz⟩ := List.length_eq_one.mp hlen
            have hnone : (trade :: more).filter (fun t => decide (t.AggTime < st.timeslotEndMS))
                = [] := by
              rw [List.filter_eq_nil_iff]
              intro t ht
              have hle : trade.AggTime ≤ t.AggTime := by
                rcases List.mem_cons.mp ht with heq1 | hmem
                · rw [heq1]
                · exact (List.pairwise_cons.mp hsorted).1 t hmem
              simp only [decide_eq_true_eq]
              omega
            refine ⟨Rounded.currentPeriod st, ?_, ?_, ?_⟩
            · rw [hkeep, hdata, hz, hcur]
              rfl
            · rw [hnone]
              rfl
            · rw [hnone]
              rfl
          · exact absurd (by omega) hnot

theorem rounded_timeSorted_resample (unixNow : Int) (aggTrades : Rounded.AggTradesList)
    (timeslotDurMS numberOfTimeslots : Int) (h : Rounded.TimeSorted aggTrades) :
    Rounded.TimeSorted (Rounded.resample unixNow aggTrades timeslotDurMS numberOfTimeslots) :=
  List.Pairwise.sublist (List.drop_sublist _ _) h

/-- With one slot and an ascending list, a returned result is a single slot
that holds the float sums of the quantities of the resampled trades before
the last timestamp. -/
theorem rounded_getStatisticData_single_content (cvt : Float64 → Int) (unixNow : Int)
    (aggTrades : Rounded.AggTradesList) (timeslotDurMS : Int)
    (r : Rounded.analyzedDataOneSymbolByPeriods) (hsorted : Rounded.TimeSorted aggTrades)
    (hr : Rounded.getStatisticData cvt unixNow aggTrades timeslotDurMS 1 = some r) :
    ∃ last e, (Rounded.resample unixNow aggTrades timeslotDurMS 1).getLast? = some last ∧
      r = [e] ∧
      e.BuyVolume =
        Rounded.sideVolume false
          ((Rounded.resample unixNow aggTrades timeslotDurMS 1).filter
            (fun t => decide (t.AggTime < last.AggTime))) ∧
      e.SellVolume =
        Rounded.sideVolume true
          ((Rounded.resample unixNow aggTrades timeslotDurMS 1).filter
            (fun t => decide (t.AggTime < last.AggTime))) := by
  obtain ⟨first, last, st, hf, hl, _, hloop, hdata⟩ :=
    rounded_getStatisticData_some cvt unixNow aggTrades timeslotDurMS 1 r hr
  have hs := rounded_timeSorted_resample unixNow aggTrades timeslotDurMS 1 hsorted
  have hdur : Rounded.slotDuration first last 1 = last.AggTime - first.AggTime := by
    unfold Rounded.slotDuration
    exact Int.tdiv_one _
  rw [hdur] at hloop
  have hend : (Rounded.initLoop first (last.AggTime - first.AggTime) 1).timeslotEndMS =
      last.AggTime := by
    simp [Rounded.initLoop]
  have hlo : ∀ t ∈ Rounded.resample unixNow aggTrades timeslotDurMS 1,
      (Rounded.initLoop first (last.AggTime - first.AggTime) 1).timeslotStartMS ≤ t.AggTime := by
    intro t ht
    show first.AggTime ≤ t.AggTime
    cases hres : Rounded.resample unixNow aggTrades timeslotDurMS 1 with
    | nil =>
        rw [hres] at ht
        simp at ht
    | cons a more =>
        rw [hres] at hf ht hs
        simp only [List.head?_cons, Option.some.injEq] at hf
        rw [← hf]
        rcases List.mem_cons.mp ht with heq | hmem
        · rw [heq]
        · exact (List.pairwise_cons.mp hs).1 t hmem
  obtain ⟨e, hres, hbuy, hsell⟩ := rounded_slotLoop_single cvt _ _ _ st rfl
    (by simp [Rounded.initLoop]) hlo hs
    ⟨last, List.mem_of_mem_getLast? hl, by rw [hend]⟩ hloop
  rw [hend] at hbuy hsell
  refine ⟨last, e, hl, ?_, hbuy, hsell⟩
  rw [← hdata, hres]

theorem rounded_slotStep_inside (cvt : Float64 → Int) (timeslotDurationMS : Int)
    (st mid : Rounded.SlotLoop) (trade : Rounded.AggTrade)
    (hlo : st.timeslotStartMS ≤ trade.AggTime) (hhi : trade.AggTime < st.timeslotEndMS)
    (hacc : Rounded.accumulate cvt st trade = some mid) :
    Rounded.slotStep cvt timeslotDurationMS st trade = some mid := by
  have hend := (rounded_accumulate_fields cvt st mid trade hacc).2.2.2.1
  unfold Rounded.slotStep
  rw [if_pos ⟨hlo, hhi⟩, hacc]
  simp only
  rw [if_neg (by rw [hend]; omega)]

theorem rounded_slotStep_past (cvt : Float64 → Int) (timeslotDurationMS : Int)
    (st : Rounded.SlotLoop) (trade : Rounded.AggTrade) (hge : st.timeslotEndMS ≤ trade.AggTime) :
    Rounded.slotStep cvt timeslotDurationMS st trade =
      Rounded.closeSlot timeslotDurationMS st := by
  unfold Rounded.slotStep
  rw [if_neg (by omega)]
  simp only
  rw [if_pos hge]

/-- With the single slot stored, the loop runs to its end on trades that all
lie in the interval of the slot that follows. -/
theorem rounded_slotLoop_after_single (cvt : Float64 → Int) (timeslotDurationMS : Int)
    (rest : Rounded.AggTradesList) (st : Rounded.SlotLoop)
    (hcur : st.numberOfCurrentPeriod = 1) (hlen : st.analyzedData.length = 1)
    (hin : ∀ t ∈ rest, st.timeslotStartMS ≤ t.AggTime ∧ t.AggTime < st.timeslotEndMS) :
    ∃ st1, Rounded.slotLoop cvt timeslotDurationMS st rest = some st1 := by
  induction rest generalizing st with
  | nil => exact ⟨st, rfl⟩
  | cons trade more ih =>
      obtain ⟨hlo, hhi⟩ := hin trade (List.mem_cons_self _ _)
      obtain ⟨prev, hprev⟩ : ∃ prev, st.analyzedData[st.numberOfCurrentPeriod - 1]? = some prev := by
        rw [hcur]
        exact ⟨st.analyzedData[0], List.getElem?_eq_getElem (by omega)⟩
      obtain ⟨mid, hacc⟩ : ∃ mid, Rounded.accumulate cvt st trade = some mid := by
        unfold Rounded.accumulate
        simp only
        rw [if_pos (by omega)]
        simp only [hprev]
        exact ⟨_, rfl⟩
      obtain ⟨hdata, hc, hs1, he1, _⟩ := rounded_accumulate_fields cvt st mid trade hacc
      unfold Rounded.slotLoop
      rw [rounded_slotStep_inside cvt timeslotDurationMS st mid trade hlo hhi hacc]
      exact ih mid (by rw [hc]; exact hcur) (by rw [hdata]; exact hlen)
        (fun t ht => by rw [hs1, he1]; exact hin t (List.mem_cons_of_mem _ ht))

/-- The single slot, from a state in which it is still open: with a positive
slot length the loop runs to its end on an ascending list of trades between
the start of the slot and its end. -/
theorem rounded_slotLoop_single_returns (cvt : Float64 → Int) (timeslotDurationMS : Int)
    (rest : Rounded.AggTradesList) (st : Rounded.SlotLoop) (hpos : 0 < timeslotDurationMS)
    (hcur : st.numberOfCurrentPeriod = 0) (hlen : st.analyzedData.length = 1)
    (hin : ∀ t ∈ rest, st.timeslotStartMS ≤ t.AggTime ∧ t.AggTime ≤ st.timeslotEndMS)
    (hsorted : Rounded.TimeSorted rest) :
    ∃ st1, Rounded.slotLoop cvt timeslotDurationMS st rest = some st1 := by
  induction rest generalizing st with
  | nil => exact ⟨st, rfl⟩
  | cons trade more ih =>
      obtain ⟨hlo, hhi⟩ := hin trade (List.mem_cons_self _ _)
      by_cases hlt : trade.AggTime < st.timeslotEndMS
      · obtain ⟨mid, hacc⟩ : ∃ mid, Rounded.accumulate cvt st trade = some mid := by
          unfold Rounded.accumulate
          simp only
          rw [if_neg (by omega)]
          exact ⟨_, rfl⟩
        obtain ⟨hdata, hc, hs1, he1, _⟩ := rounded_accumulate_fields cvt st mid trade hacc
        unfold Rounded.slotLoop
        rw [rounded_slotStep_inside cvt timeslotDurationMS st mid trade hlo hlt hacc]
        exact ih mid (by rw [hc]; exact hcur) (by rw [hdata]; exact hlen)
          (fun t ht => by rw [hs1, he1]; exact hin t (List.mem_cons_of_mem _ ht))
          (List.pairwise_cons.mp hsorted).2
      · have hge : st.timeslotEndMS ≤ trade.AggTime := by omega
        obtain ⟨st2, hclose⟩ : ∃ st2, Rounded.closeSlot timeslotDurationMS st = some st2 := by
          unfold Rounded.closeSlot
          rw [if_pos (by omega)]
          exact ⟨_, rfl⟩
        obtain ⟨_, hdata, hc, hs2, he2, _⟩ :=
          rounded_closeSlot_fields timeslotDurationMS st st2 hclose
        unfold Rounded.slotLoop
        rw [rounded_slotStep_past cvt timeslotDurationMS st trade hge, hclose]
        refine rounded_slotLoop_after_single cvt timeslotDurationMS more st2
          (by rw [hc, hcur]) (by rw [hdata, List.length_set]; exact hlen) ?_
        intro t ht
        have h1 := (List.pairwise_cons.mp hsorted).1 t ht
        have h2 := (hin t (List.mem_cons_of_mem _ ht)).2
        rw [hs2, he2]
        constructor <;> omega

theorem rounded_le_last_of_sorted (trades : Rounded.AggTradesList) (last : Rounded.AggTrade)
    (hs : Rounded.TimeSorted trades) (hl : trades.getLast? = some last) :
    ∀ t ∈ trades, t.AggTime ≤ last.AggTime := by
  obtain ⟨ys, hys⟩ := List.getLast?_eq_some_iff.mp hl
  intro t ht
  rw [hys] at ht hs
  rcases List.mem_append.mp ht with hmem | hmem
  · exact (List.pairwise_append.mp hs).2.2 t hmem last (List.mem_singleton.mpr rfl)
  · rw [List.mem_singleton.mp hmem]

theorem rounded_head_le_of_sorted (trades : Rounded.AggTradesList) (first : Rounded.AggTrade)
    (hs : Rounded.TimeSorted trades) (hf : trades.head? = some first) :
    ∀ t ∈ trades, first.AggTime ≤ t.AggTime := by
  cases trades with
  | nil => simp at hf
  | cons a more =>
      simp only [List.head?_cons, Option.some.injEq] at hf
      rw [← hf]
      intro t ht
      rcases List.mem_cons.mp ht with heq | hmem
      · rw [heq]
      · exact (List.pairwise_cons.mp hs).1 t hmem

/-- With one slot the engine returns on every ascending list whose resampled
part spans a positive time. -/
theorem rounded_getStatisticData_single_returns (cvt : Float64 → Int) (unixNow : Int)
    (aggTrades : Rounded.AggTradesList) (timeslotDurMS : Int) (first last : Rounded.AggTrade)
    (hsorted : Rounded.TimeSorted aggTrades)
    (hf : (Rounded.resample unixNow aggTrades timeslotDurMS 1).head? = some first)
    (hl : (Rounded.resample unixNow aggTrades timeslotDurMS 1).getLast? = some last)
    (hlt : first.AggTime < last.AggTime) :
    ∃ r, Rounded.getStatisticData cvt unixNow aggTrades timeslotDurMS 1 = some r := by
  have hs := rounded_timeSorted_resample unixNow aggTrades timeslotDurMS 1 hsorted
  have hdur : Rounded.slotDuration first last 1 = last.AggTime - first.AggTime := by
    unfold Rounded.slotDuration
    exact Int.tdiv_one _
  obtain ⟨st, hst⟩ := rounded_slotLoop_single_returns cvt (last.AggTime - first.AggTime)
    (Rounded.resample unixNow aggTrades timeslotDurMS 1)
    (Rounded.initLoop first (last.AggTime - first.AggTime) 1) (by omega) rfl
    (by simp [Rounded.initLoop])
    (fun t ht => by
      have h1 := rounded_head_le_of_sorted _ first hs hf t ht
      have h2 := rounded_le_last_of_sorted _ last hs hl t ht
      simp only [Rounded.initLoop]
      constructor <;> omega)
    hs
  refine ⟨st.analyzedData, ?_⟩
  unfold Rounded.getStatisticData
  simp only [hl, hf, hdur, hst]
  simp

/-- Claim C10 (as amended): for `numberOfTimeslots = 1` and a list ascending in
`AggTime`, the engine returns whenever the resampled trades span a positive
time, and a returned result is a single slot whose `BuyVolume` (`SellVolume`)
is the float sum, in list order, of the `AggQty` of the resampled trades with
`AggIsBuyerMaker = false` (`true`) and `AggTime` strictly before that of the
last trade: the trades at the last timestamp are not included. -/
theorem getStatisticData_single_slot_rounded (cvt : Float64 → Int) (unixNow : Int)
    (aggTrades : Rounded.AggTradesList) (timeslotDurMS : Int)
    (hsorted : Rounded.TimeSorted aggTrades) :
    (∀ first last,
      (Rounded.resample unixNow aggTrades timeslotDurMS 1).head? = some first →
      (Rounded.resample unixNow aggTrades timeslotDurMS 1).getLast? = some last →
      first.AggTime < last.AggTime →
      ∃ r, Rounded.getStatisticData cvt unixNow aggTrades timeslotDurMS 1 = some r) ∧
    ∀ r, Rounded.getStatisticData cvt unixNow aggTrades timeslotDurMS 1 = some r →
      ∃ last e, (Rounded.resample unixNow aggTrades timeslotDurMS 1).getLast? = some last ∧
        r = [e] ∧
        e.BuyVolume =
          Rounded.sideVolume false
            ((Rounded.resample unixNow aggTrades timeslotDurMS 1).filter
              (fun t => decide (t.AggTime < last.AggTime))) ∧
        e.SellVolume =
          Rounded.sideVolume true
            ((Rounded.resample unixNow aggTrades timeslotDurMS 1).filter
              (fun t => decide (t.AggTime < last.AggTime))) :=
  ⟨fun first last hf hl hlt =>
      rounded_getStatisticData_single_returns cvt unixNow aggTrades timeslotDurMS first last
        hsorted hf hl hlt,
    fun r hr =>
      rounded_getStatisticData_single_content cvt unixNow aggTrades timeslotDurMS r hsorted hr⟩

/-- Witness for claim C10: for `tenthTrades` the engine returns a single slot
that has the quantity `0.1` of the trade at time 0 as its `BuyVolume`; the
trade at time 10, the last timestamp, is not included. -/
theorem getStatisticData_single_slot_rounded_witness :
    Rounded.TimeSorted tenthTrades ∧
    ∃ r last e, Rounded.getStatisticData amd64Convert 1 tenthTrades 1000 1 = some r ∧
      (Rounded.resample 1 tenthTrades 1000 1).getLast? = some last ∧ r = [e] ∧
      e.BuyVolume =
        Rounded.sideVolume false
          ((Rounded.resample 1 tenthTrades 1000 1).filter
            (fun t => decide (t.AggTime < last.AggTime))) ∧
      e.SellVolume =
        Rounded.sideVolume true
          ((Rounded.resample 1 tenthTrades 1000 1).filter
            (fun t => decide (t.AggTime < last.AggTime))) := by
  have hsorted : Rounded.TimeSorted tenthTrades := by decide
  obtain ⟨last, e, hl, hres, hbuy, hsell⟩ :=
    (getStatisticData_single_slot_rounded amd64Convert 1 tenthTrades 1000 hsorted).2 _
      getStatisticData_tenth_value
  exact ⟨hsorted, _, last, e, getStatisticData_tenth_value, hl, hres, hbuy, hsell⟩

end CMarket
